import Mathlib

/-!
# Austin: the MOJO emitter, frame keys, error table and exit code

A shallow embedding of parts of the Austin frame-stack sampler
(`src/mojo.h`, `src/events.c`, `src/frame.h`, `src/code.h`, `src/error.c`,
`src/austin.c`, `src/py_thread.c`, `src/py_proc.c`) together with theorems
about the binary event stream it writes.

Conventions.  Bytes are natural numbers below 256 and a byte stream is a
`List Nat`.  C strings are lists of bytes without the terminating NUL.
Unsigned machine integers are `Nat`, signed ones `Int`; conversions between
widths are written out with `%`.
-/

namespace Austin

/-! ## Machine integers -/

/-- Conversion of a signed value to `mojo_int_t` (`unsigned long long`, 64 bits). -/
def to_mojo_int (x : Int) : Nat := (x % 2 ^ 64).toNat

/-- Result of a signed 64-bit (`ssize_t`) operation, wrapped to the range of the type. -/
def wrap_ssize (x : Int) : Int := (x + 2 ^ 63) % 2 ^ 64 - 2 ^ 63

/-- Result of a signed 32-bit (`int`) operation, wrapped to the range of the type. -/
def wrap_int (x : Int) : Int := (x + 2 ^ 31) % 2 ^ 32 - 2 ^ 31

/-- Modelled from the spec: the type `key_dt` of `cache.h`, which is not among
the sources.  Keys are fingerprints of remote addresses (`raddr_t` is
`void*`) and are taken as 64 bits wide; this is the conversion of a signed
value to that type. -/
def to_key (x : Int) : Nat := (x % 2 ^ 64).toNat

/-! ## `mojo.h`: event discriminators and primitives -/

def MOJO_VERSION : Nat := 3

def MOJO_RESERVED : Nat := 0
def MOJO_METADATA : Nat := 1
def MOJO_STACK : Nat := 2
def MOJO_FRAME : Nat := 3
def MOJO_FRAME_INVALID : Nat := 4
def MOJO_FRAME_REF : Nat := 5
def MOJO_FRAME_KERNEL : Nat := 6
def MOJO_GC : Nat := 7
def MOJO_IDLE : Nat := 8
def MOJO_METRIC_TIME : Nat := 9
def MOJO_METRIC_MEMORY : Nat := 10
def MOJO_STRING : Nat := 11
def MOJO_STRING_REF : Nat := 12
def MOJO_MAX : Nat := 13

/-- The macro `MOJO_INT32`, `((mojo_int_t)(1 << (6 + 7 * 3)) - 1)`: the bitmask
that keeps an integer within four bytes of the variable-length encoding. -/
def MOJO_INT32 : Nat := (1 <<< (6 + 7 * 3)) - 1

/-- The macro `mojo_event(event)`: one discriminator byte. -/
def mojo_event (event : Nat) : List Nat := [event]

/-- The macro `mojo_string(string)`: the bytes of the string and its NUL. -/
def mojo_string (string : List Nat) : List Nat := string ++ [0]

/-- The `while (integer)` loop of `mojo_integer`.  The first argument is the
number of bytes still free in the local `buffer`; the loop of the source has
no such bound, so running out of room here stands for a write past the
buffer. -/
def mojo_integer_loop : Nat → Nat → List Nat
  | 0, _ => []
  | room + 1, integer =>
    if integer ≠ 0 then
      let byte := integer &&& 0x7f
      let integer := integer >>> 7
      let byte := if integer ≠ 0 then byte ||| 0x80 else byte
      byte :: mojo_integer_loop room integer
    else []

/-- The function `mojo_integer(integer, sign)`: the bytes handed to `fwrite`,
for the 64-bit `mojo_int_t` (`unsigned long long`) of every platform but
32-bit ARM.  The buffer holds `sizeof(mojo_int_t) << 1 = 16` bytes, of which
the first is written before the loop. -/
def mojo_integer (integer : Nat) (sign : Bool) : List Nat :=
  let byte := integer &&& 0x3f
  let byte := if sign then byte ||| 0x40 else byte
  let integer := integer >>> 6
  let byte := if integer ≠ 0 then byte ||| 0x80 else byte
  byte :: mojo_integer_loop 15 integer

/-- The macro `mojo_ref(intorptr)`. -/
def mojo_ref (intorptr : Nat) : List Nat :=
  mojo_integer (MOJO_INT32 &&& (intorptr % 2 ^ 64)) false

/-- The macro `mojo_header()`: ASCII `MOJ` and the version. -/
def mojo_header : List Nat := [77, 79, 74] ++ mojo_integer MOJO_VERSION false

/-- The macro `mojo_metric_time(value)`. -/
def mojo_metric_time (value : Nat) : List Nat :=
  mojo_event MOJO_METRIC_TIME ++ mojo_integer value false

/-- The macro `mojo_metric_memory(value)`, the value being an `ssize_t`. -/
def mojo_metric_memory (value : Int) : List Nat :=
  mojo_event MOJO_METRIC_MEMORY
    ++ mojo_integer (to_mojo_int (if value < 0 then wrap_ssize (-value) else value))
        (decide (value < 0))

/-- The macro `mojo_frame_kernel(scope)`. -/
def mojo_frame_kernel (scope : List Nat) : List Nat :=
  mojo_event MOJO_FRAME_KERNEL ++ mojo_string scope

/-! ## A decoder for the variable-length integers

Austin only writes the stream.  The decoder below is the reader the format
is meant for: the first byte holds 6 data bits, the sign in bit 6 and the
continuation flag in bit 7; every later byte holds 7 data bits and the
continuation flag in bit 7. -/

/-- Modelled from the spec: the reader of the bytes after the first one, which
is not part of the sources.  `shift` is the position of the next data bits
and `acc` the value read so far; the result is the value and the unread
bytes, or `none` when the input ends inside an integer. -/
def mojo_decode_loop : List Nat → Nat → Nat → Option (Nat × List Nat)
  | [], _, _ => none
  | b :: rest, shift, acc =>
    let acc := acc + (b % 128) * 2 ^ shift
    if b / 128 % 2 = 1 then mojo_decode_loop rest (shift + 7) acc else some (acc, rest)

/-- Modelled from the spec: the reader of one variable-length integer, which is
not part of the sources.  It returns the magnitude, the sign flag and the
unread bytes. -/
def mojo_decode : List Nat → Option (Nat × Bool × List Nat)
  | [] => none
  | b :: rest =>
    let value := b % 64
    let sign := decide (b / 64 % 2 = 1)
    if b / 128 % 2 = 1 then
      match mojo_decode_loop rest 6 value with
      | some (n, unread) => some (n, sign, unread)
      | none => none
    else some (value, sign, rest)

/-! ## `frame.h`, `py_string.h`: records and the frame key -/

/-- The struct `cached_string_t`. -/
structure cached_string_t where
  key : Nat
  value : List Nat
  deriving DecidableEq

/-- The struct `frame_t`; `filename` and `scope` point to cached strings. -/
structure frame_t where
  key : Nat
  filename : cached_string_t
  scope : cached_string_t
  line : Nat
  line_end : Nat
  column : Nat
  column_end : Nat
  deriving DecidableEq

/-- The struct `py_frame_t`: an entry of the pre-resolution stack. -/
structure py_frame_t where
  origin : Nat
  code : Nat
  lasti : Int
  deriving DecidableEq

/-- The macro `py_frame_key(code, lasti)`:
`(((key_dt)(((key_dt)code) & MOJO_INT32) << 16) | lasti)`, with `lasti` an
`int` converted to the key type by the `|`. -/
def py_frame_key (code : Nat) (lasti : Int) : Nat :=
  ((((code % 2 ^ 64) &&& MOJO_INT32) <<< 16) % 2 ^ 64) ||| to_key lasti

/-! ## `error.h`, `error.c` -/

def AUSTIN_EOK : Int := 0
def AUSTIN_EOS : Int := 1
def AUSTIN_EPERM : Int := 2
def AUSTIN_EMEMCOPY : Int := 3
def AUSTIN_EMALLOC : Int := 4
def AUSTIN_EIO : Int := 5
def AUSTIN_ECMDLINE : Int := 6
def AUSTIN_EENV : Int := 7
def AUSTIN_EVALUE : Int := 8
def AUSTIN_ENULL : Int := 9
def AUSTIN_EVERSION : Int := 10
def AUSTIN_EBINARY : Int := 11
def AUSTIN_EPYOBJECT : Int := 12
def AUSTIN_EVM : Int := 13
def AUSTIN_EITEREND : Int := 14

def MAXERROR : Int := 15

/-- The struct `error_info_t`. -/
structure error_info_t where
  msg : String
  fatal : Bool

/-- The table `_error_info_tab`. -/
def _error_info_tab : List error_info_t :=
  [ ⟨"No error", false⟩,               /- OK -/
    ⟨"Operating system error", true⟩,  /- OS -/
    ⟨"Permission error", true⟩,        /- PERM -/
    ⟨"Memory copy error", true⟩,       /- MEMCOPY -/
    ⟨"Memory allocation error", true⟩, /- MALLOC -/
    ⟨"I/O error", true⟩,               /- IO -/
    ⟨"Command line error", true⟩,      /- CMDLINE -/
    ⟨"Environment error", true⟩,       /- ENV -/
    ⟨"Value error", false⟩,            /- VALUE -/
    ⟨"Null pointer error", true⟩,      /- NULL -/
    ⟨"Python version error", true⟩,    /- VERSION -/
    ⟨"Binary analysis error", false⟩,  /- BINARY -/
    ⟨"Python object error", false⟩,    /- PYOBJECT -/
    ⟨"VM maps error", false⟩,          /- VM -/
    ⟨"Iteration ended error", false⟩ ] /- ITEREND -/

/-- The function `is_fatal(n)`: `n < MAXERROR ? _error_info_tab[n].fatal : false`.
The argument is an `int`; for a negative one the source indexes the table
before its first entry, which is reported here as `none`. -/
def is_fatal (n : Int) : Option Bool :=
  if n < MAXERROR then
    if 0 ≤ n then (_error_info_tab.get? n.toNat).map (fun e => e.fatal) else none
  else some false

/-! ## `austin.c`: signals and the exit code -/

/-- The value of `SIGINT` in `<signal.h>`. -/
def SIGINT : Int := 2

/-- The value of `SIGTERM` in `<signal.h>`. -/
def SIGTERM : Int := 15

/-- The macro `fail(x)` of `hints.h`: a non-zero result. -/
def fail (x : Int) : Bool := decide (x ≠ 0)

/-- The function `signal_callback_handler(signum)`: the new value of the static
`interrupt_signal`, given its current value. -/
def signal_callback_handler (interrupt_signal : Int) (signum : Int) : Int :=
  if signum = SIGINT ∨ signum = SIGTERM then signum else interrupt_signal

/-- The end of `main`, from the call of `austin()` on: the value returned by
`main`, given the result of `austin()`, the recorded `interrupt_signal` and
the content of `austin_errno`. -/
def main_exit_code (austin_result : Int) (interrupt_signal : Int) (austin_errno : Int) : Int :=
  let retval : Int := 0
  let retval := if fail austin_result then 1 else retval
  if interrupt_signal ≠ 0 then -interrupt_signal
  else if fail retval then austin_errno
  else retval

/-! ## `events.h`, `argparse.h`: samples, switches and the event stream -/

/-- The enum `gc_state_t`. -/
inductive gc_state_t
  | GC_STATE_INACTIVE
  | GC_STATE_COLLECTING
  | GC_STATE_UNKNOWN
  deriving DecidableEq

/-- The struct `sample_t`. -/
structure sample_t where
  pid : Int
  iid : Int
  tid : Nat
  time : Nat
  memory : Int
  gc_state : gc_state_t
  is_idle : Bool
  deriving DecidableEq

/-- The switches of `parsed_args_t` that the sampling path reads (`where_`
stands for the field `where`). -/
structure parsed_args_t where
  where_ : Bool
  cpu : Bool
  full : Bool
  memory : Bool
  pipe : Bool
  gc : Bool
  deriving DecidableEq

/-- One event of the output stream, holding the arguments that the emitter
passes to the `mojo_*` primitives for it. -/
inductive Event
  | Metadata (key value : List Nat)
  | StackBegin (pid : Int) (iid : Int) (tid : Nat)
  | String (key : Nat) (value : List Nat)
  | Frame (key filename_key scope_key line line_end column column_end : Nat)
  | FrameRef (key : Nat)
  | FrameKernel (scope : List Nat)
  | GC
  | Idle
  | MetricTime (value : Nat)
  | MetricMemory (value : Int)
  deriving DecidableEq

/-- The discriminator byte that `mojo_event` writes for an event. -/
def Event.kind : Event → Nat
  | .Metadata _ _ => MOJO_METADATA
  | .StackBegin _ _ _ => MOJO_STACK
  | .String _ _ => MOJO_STRING
  | .Frame _ _ _ _ _ _ _ => MOJO_FRAME
  | .FrameRef _ => MOJO_FRAME_REF
  | .FrameKernel _ => MOJO_FRAME_KERNEL
  | .GC => MOJO_GC
  | .Idle => MOJO_IDLE
  | .MetricTime _ => MOJO_METRIC_TIME
  | .MetricMemory _ => MOJO_METRIC_MEMORY

/-- The thread name `sprintf(thread_name, FORMAT_TID, sample->tid)`: the thread
identifier in lower-case hexadecimal. -/
def format_tid (tid : Nat) : List Nat := (Nat.toDigits 16 tid).map Char.toNat

/-- The bytes written for an event: the bodies of the handlers of `events.c`
and of the macros of `mojo.h`, primitive by primitive. -/
def Event.bytes : Event → List Nat
  | .Metadata key value =>
    mojo_event MOJO_METADATA ++ mojo_string key ++ (value ++ [0])
  | .StackBegin pid iid tid =>
    mojo_event MOJO_STACK ++ mojo_integer (to_mojo_int pid) false
      ++ mojo_integer (to_mojo_int iid) false ++ mojo_string (format_tid tid)
  | .String key value =>
    mojo_event MOJO_STRING ++ mojo_ref key ++ mojo_string value
  | .Frame key filename_key scope_key line line_end column column_end =>
    mojo_event MOJO_FRAME ++ mojo_integer key false ++ mojo_ref filename_key
      ++ mojo_ref scope_key ++ mojo_integer line false ++ mojo_integer line_end false
      ++ mojo_integer column false ++ mojo_integer column_end false
  | .FrameRef key => mojo_event MOJO_FRAME_REF ++ mojo_integer key false
  | .FrameKernel scope => mojo_frame_kernel scope
  | .GC => mojo_event MOJO_GC
  | .Idle => mojo_event MOJO_IDLE
  | .MetricTime value => mojo_metric_time value
  | .MetricMemory value => mojo_metric_memory value

/-- The function `mojo_event_handler__handle_stack_begin`. -/
def mojo_event_handler__handle_stack_begin (sample : sample_t) : List Event :=
  [Event.StackBegin sample.pid sample.iid sample.tid]

/-- The function `mojo_event_handler__handle_metadata`. -/
def mojo_event_handler__handle_metadata (key value : List Nat) : List Event :=
  [Event.Metadata key value]

/-- The function `mojo_event_handler__handle_new_string`. -/
def mojo_event_handler__handle_new_string (string : cached_string_t) : List Event :=
  [Event.String string.key string.value]

/-- The function `mojo_event_handler__handle_new_frame`. -/
def mojo_event_handler__handle_new_frame (frame : frame_t) : List Event :=
  [Event.Frame frame.key frame.filename.key frame.scope.key frame.line frame.line_end
    frame.column frame.column_end]

/-- The macro `mojo_frame_ref(frame)`. -/
def mojo_frame_ref (frame : frame_t) : Event := Event.FrameRef frame.key

/-- The function `mojo_event_handler__handle_stack_end` of the default (not
`NATIVE`) build.  `sample_data` is the sample stored by the stack-begin
handler; `stack` holds the resolved frames `base[0] .. base[pointer - 1]`,
which the handler pops from the top until the stack is empty. -/
def mojo_event_handler__handle_stack_end (pargs : parsed_args_t) (sample_data : sample_t)
    (stack : List frame_t) : List Event :=
  stack.reverse.map mojo_frame_ref
    ++ (if sample_data.gc_state = gc_state_t.GC_STATE_COLLECTING then [Event.GC] else [])
    ++ (if pargs.full then
          [Event.MetricTime sample_data.time]
            ++ (if sample_data.is_idle then [Event.Idle] else [])
            ++ [Event.MetricMemory sample_data.memory]
        else if pargs.memory then [Event.MetricMemory sample_data.memory]
        else [Event.MetricTime sample_data.time])

/-! ## The caches -/

/-- Modelled from the spec: the LRU cache of `cache.h`, which is not among the
sources.  A cache has a fixed capacity and holds keyed items, the most
recently used first. -/
structure lru_cache_t (α : Type) where
  capacity : Nat
  items : List (Nat × α)

/-- Modelled from the spec: `lru_cache__maybe_hit` of `cache.h`.  A hit returns
the item stored under the key and makes it the most recently used one. -/
def lru_cache__maybe_hit {α : Type} (self : lru_cache_t α) (key : Nat) :
    Option α × lru_cache_t α :=
  match self.items.find? (fun kv => kv.1 == key) with
  | some kv =>
    (some kv.2, { self with items := kv :: self.items.eraseP (fun e => e.1 == key) })
  | none => (none, self)

/-- Modelled from the spec: `lru_cache__store` of `cache.h`.  Storing into a
full cache evicts the least recently used item. -/
def lru_cache__store {α : Type} (self : lru_cache_t α) (key : Nat) (value : α) :
    lru_cache_t α :=
  let items := if self.capacity ≤ self.items.length then self.items.dropLast else self.items
  { self with items := (key, value) :: items }

/-- Modelled from the spec: `lru_cache__invalidate` of `cache.h`, which drops
every item. -/
def lru_cache__invalidate {α : Type} (self : lru_cache_t α) : lru_cache_t α :=
  { self with items := [] }

/-! ## `code.h`, `frame.h`: reading code objects and building frames -/

/-- The fields `major` and `minor` of the version descriptor `python_v`. -/
structure python_v where
  major : Nat
  minor : Nat
  deriving DecidableEq

/-- Modelled from the spec: the macro `V_MIN(M, m)` of `version.h`, which is not
among the sources: the interpreter is of version `M.m` or later. -/
def V_MIN (py_v : python_v) (M m : Nat) : Bool :=
  decide (py_v.major > M) || (py_v.major == M && decide (py_v.minor ≥ m))

/-- The struct `code_t`. -/
structure code_t where
  key : Nat
  filename : cached_string_t
  scope : cached_string_t
  line_table : List Nat
  first_line_number : Nat
  deriving DecidableEq

/-- The fields of a remote code object that `_code_remote` uses: the addresses
of the file name, name, qualified name and line table objects, and the first
line number. -/
structure py_code_fields where
  o_filename : Nat
  o_name : Nat
  o_qualname : Nat
  o_lnotab : Nat
  o_firstlineno : Nat
  deriving DecidableEq

/-- The memory of the target at the time of a sample, as seen through the
three readers used when a frame is resolved; `none` is a failed read. -/
structure target_memory where
  /-- The read `copy_py(pref, code_raddr, py_code, code)`. -/
  copy_code : Nat → Option py_code_fields
  /-- The function `_string_remote(pref, raddr, py_v)`. -/
  string_remote : Nat → Option (List Nat)
  /-- The function `_bytes_remote(pref, raddr, &len, py_v)`. -/
  bytes_remote : Nat → Option (List Nat)

/-- The part of `py_proc_t` used when frames are resolved. -/
structure py_proc_t where
  pid : Int
  frame_cache : lru_cache_t frame_t
  string_cache : lru_cache_t cached_string_t
  code_cache : lru_cache_t code_t

/-- The steps that `_code_remote` repeats for the file name and for the scope:
look the key up in the string cache and, on a miss, read the string from the
target, store it and emit it.  The result is the cached string (or `none`
when the read fails), the cache afterwards and the events emitted. -/
def code_string_lookup (mem : target_memory) (cache : lru_cache_t cached_string_t)
    (string_key : Nat) : Option cached_string_t × lru_cache_t cached_string_t × List Event :=
  match lru_cache__maybe_hit cache string_key with
  | (some string, cache) => (some string, cache, [])
  | (none, cache) =>
    match mem.string_remote string_key with
    | none => (none, cache, [])
    | some value =>
      let string : cached_string_t := ⟨string_key, value⟩
      (some string, lru_cache__store cache string_key string,
        mojo_event_handler__handle_new_string string)

/-- The function `_code_remote(py_proc, code_raddr)`: the code record (or `none`
on failure), the string cache afterwards and the events emitted.  Failures of
`malloc` are not modelled. -/
def _code_remote (py_v : python_v) (mem : target_memory)
    (cache : lru_cache_t cached_string_t) (code_raddr : Nat) :
    Option code_t × lru_cache_t cached_string_t × List Event :=
  match mem.copy_code code_raddr with
  | none => (none, cache, [])
  | some code =>
    -- Get the file name from the code object
    match code_string_lookup mem cache code.o_filename with
    | (none, cache, events) => (none, cache, events)
    | (some filename, cache, events) =>
      -- Get the function name from the code object
      let string_key := if V_MIN py_v 3 11 then code.o_qualname else code.o_name
      match code_string_lookup mem cache string_key with
      | (none, cache, scope_events) => (none, cache, events ++ scope_events)
      | (some scope, cache, scope_events) =>
        -- Get the code location table from the code object
        match mem.bytes_remote code.o_lnotab with
        | none => (none, cache, events ++ scope_events)
        | some lnotab =>
          (some ⟨code_raddr, filename, scope, lnotab, code.o_firstlineno⟩, cache,
            events ++ scope_events)

/-- The location computed from a line table: `lineno`, `line_end`, `column`
and `column_end`. -/
structure location_t where
  lineno : Nat
  line_end : Nat
  column : Nat
  column_end : Nat
  deriving DecidableEq

/-- The code-location decoding of `_frame_remote` (the loops over `lnotab`),
as a function of the version, the line table, the first line number and
`lasti`. -/
abbrev location_decoder := python_v → List Nat → Nat → Int → location_t

/-- The first step of `_frame_remote`: the code record, taken from the code
cache or, on a miss, read from the target and stored in the cache. -/
def frame_remote_code (py_v : python_v) (mem : target_memory) (py_proc : py_proc_t)
    (code_raddr : Nat) : Option code_t × py_proc_t × List Event :=
  match lru_cache__maybe_hit py_proc.code_cache code_raddr with
  | (some code, code_cache) => (some code, { py_proc with code_cache := code_cache }, [])
  | (none, code_cache) =>
    match _code_remote py_v mem py_proc.string_cache code_raddr with
    | (none, string_cache, events) =>
      (none, { py_proc with string_cache := string_cache, code_cache := code_cache }, events)
    | (some code, string_cache, events) =>
      (some code, { py_proc with
                      string_cache := string_cache
                      code_cache := lru_cache__store code_cache code_raddr code }, events)

/-- The function `_frame_remote(py_proc, code_raddr, lasti)`: the new frame (or
`none` on failure), the target record with its caches afterwards and the
events emitted.  The loops that compute the location are the parameter
`locate`; they change neither the key nor the events.  Failures of `malloc`
are not modelled. -/
def _frame_remote (py_v : python_v) (locate : location_decoder) (mem : target_memory)
    (py_proc : py_proc_t) (code_raddr : Nat) (lasti : Int) :
    Option frame_t × py_proc_t × List Event :=
  match frame_remote_code py_v mem py_proc code_raddr with
  | (none, py_proc, events) => (none, py_proc, events)
  | (some code, py_proc, events) =>
    -- Compute the code location information
    let len := code.line_table.length
    let loc := locate py_v code.line_table code.first_line_number lasti
    if V_MIN py_v 3 11 then
      if len = 0 then (none, py_proc, events)
      else
        (some ⟨py_frame_key code_raddr lasti, code.filename, code.scope,
            loc.lineno, loc.line_end, loc.column, loc.column_end⟩, py_proc, events)
    else
      if len % 2 ≠ 0 then (none, py_proc, events)
      else
        let lasti := if V_MIN py_v 3 10 then wrap_int (lasti * 2) else lasti
        (some ⟨py_frame_key code_raddr lasti, code.filename, code.scope,
            loc.lineno, loc.line_end, loc.column, loc.column_end⟩, py_proc, events)

/-! ## `py_thread.c`, `py_proc.c`: resolving and sampling a thread -/

/-- The function `_py_thread__resolve_py_stack` of the default build, over the
entries `py_base[0] .. py_base[pointer - 1]` of the pre-resolution stack.
The result is the resolved frames `base[0] .. base[pointer - 1]` (the stack
being truncated at the first frame that cannot be resolved), whether the
resolution succeeded, the target record afterwards and the events emitted. -/
def _py_thread__resolve_py_stack (py_v : python_v) (locate : location_decoder)
    (mem : target_memory) :
    List py_frame_t → py_proc_t → List frame_t × Bool × py_proc_t × List Event
  | [], py_proc => ([], true, py_proc, [])
  | py_frame :: rest, py_proc =>
    let lasti := py_frame.lasti
    let frame_key := py_frame_key py_frame.code lasti
    match lru_cache__maybe_hit py_proc.frame_cache frame_key with
    | (some frame, cache) =>
      let r := _py_thread__resolve_py_stack py_v locate mem rest
        { py_proc with frame_cache := cache }
      (frame :: r.1, r.2.1, r.2.2.1, r.2.2.2)
    | (none, cache) =>
      match _frame_remote py_v locate mem { py_proc with frame_cache := cache }
          py_frame.code lasti with
      | (none, py_proc, events) =>
        -- Truncate the stack to the point where we have successfully resolved.
        ([], false, py_proc, events)
      | (some frame, py_proc, events) =>
        let py_proc :=
          { py_proc with frame_cache := lru_cache__store py_proc.frame_cache frame_key frame }
        let r := _py_thread__resolve_py_stack py_v locate mem rest py_proc
        (frame :: r.1, r.2.1, r.2.2.1,
          events ++ mojo_event_handler__handle_new_frame frame ++ r.2.2.2)

/-- The function `py_thread__unwind` of the default build, without the update
of the statistics.  The three unwinders only fill the pre-resolution stack
and emit nothing, so their outcome is the argument `unwound`: `none` when
the thread has no top frame (nothing is unwound and the stack is left as it
is), otherwise the entries left on the pre-resolution stack and whether the
unwinder failed.  The result is the resolved stack, the target record, the
events emitted and the error flag. -/
def py_thread__unwind (py_v : python_v) (locate : location_decoder) (mem : target_memory)
    (unwound : Option (List py_frame_t × Bool)) (stack : List frame_t) (py_proc : py_proc_t) :
    List frame_t × py_proc_t × List Event × Bool :=
  match unwound with
  | none => (stack, py_proc, [], false)
  | some (py_stack, unwind_failed) =>
    let r := _py_thread__resolve_py_stack py_v locate mem py_stack py_proc
    (r.1, r.2.2.1, r.2.2.2, unwind_failed || !r.2.1)

/-- What the sampler observes about one thread during one pass of the loop of
`_py_proc__sample_interpreter`. -/
structure thread_obs where
  /-- The field `py_thread.tid`. -/
  tid : Nat
  /-- The condition `V_MAX(3, 11) && self->symbols[DYNSYM_RUNTIME] != NULL &&
  current_thread == (void*)-1`. -/
  offset_pending : Bool
  /-- The call `_py_proc__find_current_thread_offset(self, py_thread.addr)`
  returns non-zero. -/
  find_offset_fails : Bool
  /-- The condition `py_thread.addr == current_thread`. -/
  holds_gil : Bool
  /-- The result of `_py_proc__get_memory_delta(self)`. -/
  memory_delta : Int
  /-- The result of `py_thread__is_idle(&py_thread)`. -/
  is_idle : Bool
  /-- The result of `py_proc__get_gc_state(self)`. -/
  gc_state : gc_state_t
  /-- The outcome of the unwinder, see `py_thread__unwind`. -/
  unwound : Option (List py_frame_t × Bool)

/-- The state that lasts from one sample to the next: the target record with
its caches and the resolved stack `base[0] .. base[pointer - 1]`. -/
structure sampler_t where
  proc : py_proc_t
  stack : List frame_t

/-- The value of `mem_delta` after the `if (pargs.memory)` block in the loop of
`_py_proc__sample_interpreter`. -/
def sample_mem_delta (pargs : parsed_args_t) (obs : thread_obs) : Int :=
  if pargs.memory then (if obs.holds_gil then obs.memory_delta else 0) else 0

/-- The value of `is_idle` in the loop of `_py_proc__sample_interpreter`: the
operating system is asked only under `full`, `cpu` or `where`. -/
def sample_is_idle (pargs : parsed_args_t) (obs : thread_obs) : Bool :=
  if pargs.full || pargs.cpu || pargs.where_ then obs.is_idle else false

/-- Whether the loop of `_py_proc__sample_interpreter` moves on to the next
thread by one of its `continue` statements, emitting no sample. -/
def sample_skipped (pargs : parsed_args_t) (time_delta : Nat) (obs : thread_obs) : Bool :=
  if pargs.memory && (obs.offset_pending && obs.find_offset_fails) then true
  else if pargs.memory && (!pargs.full && sample_mem_delta pargs obs == 0) then true
  else if sample_mem_delta pargs obs == 0 && time_delta == 0 then true
  else if (pargs.full || pargs.cpu || pargs.where_)
      && (!pargs.full && sample_is_idle pargs obs && pargs.cpu) then true
  else false

/-- One pass of the `do ... while` loop of `_py_proc__sample_interpreter` (default
build, MOJO handler installed): the state afterwards and the events written
for the thread. -/
def sample_thread (pargs : parsed_args_t) (py_v : python_v) (locate : location_decoder)
    (mem : target_memory) (interp_id : Int) (time_delta : Nat) (obs : thread_obs)
    (self : sampler_t) : sampler_t × List Event :=
  if sample_skipped pargs time_delta obs then (self, [])
  else
    let gc := if pargs.gc then obs.gc_state else gc_state_t.GC_STATE_UNKNOWN
    let sample : sample_t :=
      { pid := self.proc.pid
        tid := obs.tid
        iid := interp_id
        time := time_delta
        memory := sample_mem_delta pargs obs
        is_idle := sample_is_idle pargs obs
        gc_state := gc }
    let events_begin := mojo_event_handler__handle_stack_begin sample
    let r := py_thread__unwind py_v locate mem obs.unwound self.stack self.proc
    let events_end := mojo_event_handler__handle_stack_end pargs sample r.1
    ({ proc := r.2.1, stack := [] }, events_begin ++ r.2.2.1 ++ events_end)

/-- What happens between two looks at the output stream: a thread is sampled,
the frame and code caches are invalidated (the code-object generation of an
interpreter changed, 3.14+), or a metadata event is written. -/
inductive sampler_step
  | sample (mem : target_memory) (interp_id : Int) (time_delta : Nat) (obs : thread_obs)
  | invalidate
  | metadata (key value : List Nat)

/-- The effect of one step on the state and on the output stream. -/
def sampler_step.apply (pargs : parsed_args_t) (py_v : python_v) (locate : location_decoder)
    (self : sampler_t × List Event) : sampler_step → sampler_t × List Event
  | .sample mem interp_id time_delta obs =>
    let r := sample_thread pargs py_v locate mem interp_id time_delta obs self.1
    (r.1, self.2 ++ r.2)
  | .invalidate =>
    ({ self.1 with
        proc := { self.1.proc with
                    frame_cache := lru_cache__invalidate self.1.proc.frame_cache
                    code_cache := lru_cache__invalidate self.1.proc.code_cache } }, self.2)
  | .metadata key value => (self.1, self.2 ++ mojo_event_handler__handle_metadata key value)

/-- The state of a target that has just been created: empty caches of the
given capacities and an empty stack. -/
def sampler_new (pid : Int) (frame_capacity string_capacity code_capacity : Nat) : sampler_t :=
  { proc :=
      { pid := pid
        frame_cache := ⟨frame_capacity, []⟩
        string_cache := ⟨string_capacity, []⟩
        code_cache := ⟨code_capacity, []⟩ }
    stack := [] }

/-- The output stream after a sequence of steps, starting from a new target. -/
def output_stream (pargs : parsed_args_t) (py_v : python_v) (locate : location_decoder)
    (pid : Int) (frame_capacity string_capacity code_capacity : Nat)
    (steps : List sampler_step) : List Event :=
  (steps.foldl (sampler_step.apply pargs py_v locate)
    (sampler_new pid frame_capacity string_capacity code_capacity, [])).2

/-! ## The order of the events of a sample -/

/-- The kinds of the events that close a sample. -/
def metric_kinds : List Nat := [MOJO_IDLE, MOJO_METRIC_TIME, MOJO_METRIC_MEMORY]

/-- A sequence of events has the shape `StackBegin`, then any number of events
of the kinds `frame_kinds`, then at most one `GC`, then one or more events of
the metric kinds. -/
def sample_order (frame_kinds : List Nat) (events : List Event) : Prop :=
  ∃ pid iid tid frames gc metrics,
    events = Event.StackBegin pid iid tid :: (frames ++ gc ++ metrics) ∧
    (∀ e ∈ frames, e.kind ∈ frame_kinds) ∧
    (gc = [] ∨ gc = [Event.GC]) ∧
    metrics ≠ [] ∧ (∀ e ∈ metrics, e.kind ∈ metric_kinds)

/-! ## `FrameRef` after `Frame` -/

/-- The events contain a `Frame` event with the given key. -/
def frame_emitted (events : List Event) (key : Nat) : Prop :=
  ∃ fk sk l le c ce, Event.Frame key fk sk l le c ce ∈ events

/-- Every `FrameRef` event of the stream comes after a `Frame` event with the
same key. -/
def refs_have_frames (events : List Event) : Prop :=
  ∀ before key after, events = before ++ Event.FrameRef key :: after →
    frame_emitted before key

/-- What holds between two samples: every frame of the frame cache has had its
`Frame` event written, the resolved stack is empty, and every `FrameRef`
written so far comes after its `Frame`. -/
def sampler_invariant (p : sampler_t × List Event) : Prop :=
  (∀ kv ∈ p.1.proc.frame_cache.items, frame_emitted p.2 kv.2.key) ∧
  p.1.stack = [] ∧ refs_have_frames p.2

/-! ## A small target, used to evaluate the definitions -/

/-- A target with one code object at `0x7f0012340000`, whose file name `a.py`
is at `0x7f0012350000`, whose name and qualified name `f` are at
`0x7f0012360000` and whose line table, at `0x7f0012370000`, is the single
byte `0x78`: one record of format code 15 (no location) that covers one
instruction.  The first line number is 1. -/
def example_memory : target_memory :=
  { copy_code := fun a =>
      if a = 0x7f0012340000 then
        some ⟨0x7f0012350000, 0x7f0012360000, 0x7f0012360000, 0x7f0012370000, 1⟩
      else none
    string_remote := fun a =>
      if a = 0x7f0012350000 then some [97, 46, 112, 121]
      else if a = 0x7f0012360000 then some [102]
      else none
    bytes_remote := fun a => if a = 0x7f0012370000 then some [0x78] else none }

/-- The location that the loops of `_frame_remote` compute when the record that
covers `lasti` is the first one and has format code 15, as in the example
target: the first line number, and zero for `line_end`, `column` and
`column_end`. -/
def example_locate : location_decoder := fun _ _ first _ => ⟨first, 0, 0, 0⟩

/-- An idle thread that does not hold the GIL, whose stack has one frame, at
`0x7f0012380000`, running the code object of the example target at
`lasti = 0`. -/
def example_obs : thread_obs :=
  { tid := 7, offset_pending := false, find_offset_fails := false, holds_gil := false,
    memory_delta := 0, is_idle := true, gc_state := gc_state_t.GC_STATE_INACTIVE,
    unwound := some ([⟨0x7f0012380000, 0x7f0012340000, 0⟩], false) }

/-- The events of the first sample of the example thread, 100 microseconds
after the previous one, with no switch set. -/
def example_first_sample : List Event :=
  [Event.StackBegin 42 0 7, Event.String 0x7f0012350000 [97, 46, 112, 121],
    Event.String 0x7f0012360000 [102],
    Event.Frame 0x23400000000 0x7f0012350000 0x7f0012360000 1 0 0 0,
    Event.FrameRef 0x23400000000, Event.MetricTime 100]

/-- No switch set: wall-time sampling. -/
def example_pargs : parsed_args_t :=
  { where_ := false, cpu := false, full := false, memory := false, pipe := false, gc := false }

/-- The switch `-f` alone. -/
def example_pargs_full : parsed_args_t :=
  { where_ := false, cpu := false, full := true, memory := true, pipe := false, gc := false }

/-- Python 3.11. -/
def example_version : python_v := ⟨3, 11⟩
/-! ## `frame.h`: the code-location decoders -/

/-- Why a decoding stopped without a result: a read of the line table at an
index at or beyond its length, or a loop that was cut short (which never
happens, see `decode_location_terminates`). -/
inductive decode_error
  | out_of_bounds
  | out_of_fuel
  deriving DecidableEq

/-- Equality of results is decidable. -/
instance decode_result_eq {ε α : Type} [DecidableEq ε] [DecidableEq α] :
    DecidableEq (Except ε α)
  | .ok a, .ok b => if h : a = b then isTrue (by rw [h]) else isFalse (fun h' => h (by cases h'; rfl))
  | .error a, .error b =>
    if h : a = b then isTrue (by rw [h]) else isFalse (fun h' => h (by cases h'; rfl))
  | .ok _, .error _ => isFalse (fun h' => by cases h')
  | .error _, .ok _ => isFalse (fun h' => by cases h')

/-- The read `lnotab[i]`, checked against the length of the table. -/
def lnotab_read (lnotab : List Nat) (i : Nat) : Except decode_error Nat :=
  match lnotab[i]? with
  | some b => .ok b
  | none => .error .out_of_bounds

/-- Conversion of a signed value to `unsigned int` (32 bits). -/
def to_uint (x : Int) : Nat := (x % 2 ^ 32).toNat

/-- Conversion of a signed value to `size_t` (64 bits). -/
def to_size_t (x : Int) : Nat := (x % 2 ^ 64).toNat

/-- The `while (lnotab[*i] & 64)` loop of `_read_varint`, entered with the index
`i` of the byte read last, the value `val` and the shift.  The first
argument bounds the number of passes.  The shift is not limited to the width
of `int`: all bits are kept here and the result is wrapped by `_read_varint`. -/
def _read_varint_loop (lnotab : List Nat) : Nat → Nat → Nat → Nat → Except decode_error (Nat × Nat)
  | 0, _, _, _ => .error .out_of_fuel
  | fuel + 1, i, val, shift =>
    match lnotab_read lnotab i with
    | .error e => .error e
    | .ok b =>
      if b &&& 64 ≠ 0 then
        let shift := shift + 6
        match lnotab_read lnotab (i + 1) with
        | .error e => .error e
        | .ok b => _read_varint_loop lnotab fuel (i + 1) (val ||| ((b &&& 63) <<< shift)) shift
      else .ok (val, i)

/-- The function `_read_varint(lnotab, &i)`: the value and the new index. -/
def _read_varint (lnotab : List Nat) (i : Nat) : Except decode_error (Int × Nat) :=
  match lnotab_read lnotab (i + 1) with
  | .error e => .error e
  | .ok b =>
    match _read_varint_loop lnotab lnotab.length (i + 1) (b &&& 63) 0 with
    | .error e => .error e
    | .ok (val, i) => .ok (wrap_int val, i)

/-- The function `_read_signed_varint(lnotab, &i)`. -/
def _read_signed_varint (lnotab : List Nat) (i : Nat) : Except decode_error (Int × Nat) :=
  match _read_varint lnotab i with
  | .error e => .error e
  | .ok (val, i) => .ok (if val % 2 = 1 then -(val / 2) else val / 2, i)

/-- The body of the `for` loop of the 3.11 branch of `_frame_remote` up to the
test of `bc`, for the record at index `i`: the amount added to `bc`, the
index of the last byte read and the location afterwards. -/
def decode_311_record (lnotab : List Nat) (i : Nat) (loc : location_t) :
    Except decode_error (Nat × Nat × location_t) :=
  match lnotab_read lnotab i with
  | .error e => .error e
  | .ok first =>
    let bc := (first &&& 7) + 1
    let code := (first >>> 3) &&& 15
    if code = 15 then .ok (bc, i, loc)
    else if code = 14 then -- Long form
      match _read_signed_varint lnotab i with
      | .error e => .error e
      | .ok (delta, i) =>
        let lineno := to_uint (loc.lineno + delta)
        match _read_varint lnotab i with
        | .error e => .error e
        | .ok (span, i) =>
          let line_end := to_uint (lineno + span)
          match _read_varint lnotab i with
          | .error e => .error e
          | .ok (column, i) =>
            match _read_varint lnotab i with
            | .error e => .error e
            | .ok (column_end, i) =>
              .ok (bc, i, ⟨lineno, line_end, to_uint column, to_uint column_end⟩)
    else if code = 13 then -- No column data
      match _read_signed_varint lnotab i with
      | .error e => .error e
      | .ok (delta, i) =>
        let lineno := to_uint (loc.lineno + delta)
        .ok (bc, i, ⟨lineno, lineno, 0, 0⟩)
    else if code = 12 ∨ code = 11 ∨ code = 10 then -- New lineno
      let lineno := to_uint (loc.lineno + (code - 10 : Nat))
      match lnotab_read lnotab (i + 1) with
      | .error e => .error e
      | .ok b1 =>
        match lnotab_read lnotab (i + 2) with
        | .error e => .error e
        | .ok b2 => .ok (bc, i + 2, ⟨lineno, lineno, 1 + b1, 1 + b2⟩)
    else
      match lnotab_read lnotab (i + 1) with
      | .error e => .error e
      | .ok next_byte =>
        let column := 1 + (code <<< 3) + ((next_byte >>> 4) &&& 7)
        .ok (bc, i + 1, ⟨loc.lineno, loc.lineno, column, column + (next_byte &&& 15)⟩)

/-- The `for (size_t i = 0, bc = 0; i < len; i++)` loop of the 3.11 branch of
`_frame_remote`.  `bc` is a `size_t` and `lasti` an `int`, so the test
`bc > lasti` compares `bc` with `lasti` converted to `size_t`.  (`bc` grows
by at most 8 for each byte of a table of at most 100 MiB and cannot
overflow.)  The first argument bounds the number of passes. -/
def decode_311_loop (lnotab : List Nat) (lasti : Int) :
    Nat → Nat → Nat → location_t → Except decode_error location_t
  | 0, _, _, _ => .error .out_of_fuel
  | fuel + 1, i, bc, loc =>
    if i < lnotab.length then
      match decode_311_record lnotab i loc with
      | .error e => .error e
      | .ok (n, i, loc) =>
        let bc := bc + n
        if bc > to_size_t lasti then .ok loc
        else decode_311_loop lnotab lasti fuel (i + 1) bc loc
    else .ok loc

/-- The 3.11 branch of `_frame_remote`, after the check of the table: the
location for `lasti`, starting from the first line number of the code
object. -/
def decode_311 (lnotab : List Nat) (first_line_number : Nat) (lasti : Int) :
    Except decode_error location_t :=
  decode_311_loop lnotab lasti (lnotab.length + 1) 0 0 ⟨first_line_number, 0, 0, 0⟩

/-- The `for (int i = 0, bc = 0; i < len; i++)` loop of the 3.10 branch of
`_frame_remote`, entered with `lasti` already doubled: the line number.  `bc`
is an `int`, `lineno` an `unsigned int`.  The first argument bounds the
number of passes. -/
def decode_310_loop (lnotab : List Nat) (lasti : Int) : Nat → Nat → Int → Nat → Except decode_error Nat
  | 0, _, _, _ => .error .out_of_fuel
  | fuel + 1, i, bc, lineno =>
    if i < lnotab.length then
      match lnotab_read lnotab i with
      | .error e => .error e
      | .ok sdelta =>
        if sdelta = 0xff then .ok lineno
        else
          let bc := wrap_int (bc + sdelta)
          match lnotab_read lnotab (i + 1) with
          | .error e => .error e
          | .ok ldelta =>
            let lineno :=
              if ldelta = 0x80 then lineno
              else if ldelta > 0x80 then to_uint ((to_uint (lineno - 0x100) : Int) + ldelta)
              else to_uint (lineno + ldelta)
            if bc > lasti then .ok lineno
            else decode_310_loop lnotab lasti fuel (i + 2) bc lineno
    else .ok lineno

/-- The 3.10 branch of `_frame_remote`, after the check of the table:
`lasti <<= 1` and the loop. -/
def decode_310 (lnotab : List Nat) (first_line_number : Nat) (lasti : Int) : Except decode_error Nat :=
  decode_310_loop lnotab (wrap_int (lasti * 2)) (lnotab.length + 1) 0 0 first_line_number

/-- The `for (int i = 0, bc = 0; i < len; i++)` loop of the branch of
`_frame_remote` for Python below 3.10: the line number.  The first argument
bounds the number of passes. -/
def decode_pre_310_loop (lnotab : List Nat) (lasti : Int) :
    Nat → Nat → Int → Nat → Except decode_error Nat
  | 0, _, _, _ => .error .out_of_fuel
  | fuel + 1, i, bc, lineno =>
    if i < lnotab.length then
      match lnotab_read lnotab i with
      | .error e => .error e
      | .ok sdelta =>
        let bc := wrap_int (bc + sdelta)
        if bc > lasti then .ok lineno
        else
          match lnotab_read lnotab (i + 1) with
          | .error e => .error e
          | .ok ldelta =>
            let lineno := if ldelta ≥ 0x80 then to_uint (lineno - 0x100) else lineno
            decode_pre_310_loop lnotab lasti fuel (i + 2) bc (to_uint (lineno + ldelta))
    else .ok lineno

/-- The branch of `_frame_remote` for Python below 3.10, after the check of
the table. -/
def decode_pre_310 (lnotab : List Nat) (first_line_number : Nat) (lasti : Int) :
    Except decode_error Nat :=
  decode_pre_310_loop lnotab lasti (lnotab.length + 1) 0 0 first_line_number

/-- The code-location loops of `_frame_remote` for the three dialects, after
the check of the table.  Below 3.11 only the line number is computed and
`line_end`, `column` and `column_end` keep their initial value 0. -/
def decode_location (py_v : python_v) (lnotab : List Nat) (first_line_number : Nat) (lasti : Int) :
    Except decode_error location_t :=
  if V_MIN py_v 3 11 then decode_311 lnotab first_line_number lasti
  else if V_MIN py_v 3 10 then
    match decode_310 lnotab first_line_number lasti with
    | .error e => .error e
    | .ok lineno => .ok ⟨lineno, 0, 0, 0⟩
  else
    match decode_pre_310 lnotab first_line_number lasti with
    | .error e => .error e
    | .ok lineno => .ok ⟨lineno, 0, 0, 0⟩

/-- The decoding of `_frame_remote` as a `location_decoder`.  Where a loop
reads beyond the table the C code computes with the bytes that follow the
table in memory; the initial location stands for that result here. -/
def frame_remote_locate : location_decoder := fun py_v lnotab first_line_number lasti =>
  match decode_location py_v lnotab first_line_number lasti with
  | .ok loc => loc
  | .error _ => ⟨first_line_number, 0, 0, 0⟩

/-! ### The line tables as the specification describes them -/

/-- Whether the bytes are one variable-length integer: bit 6, the continuation
bit, is set in every byte but the last. -/
def is_varint : List Nat → Bool
  | [] => false
  | b :: rest => if b &&& 64 ≠ 0 then is_varint rest else rest.isEmpty

/-- The value of a variable-length integer: 6 data bits for each byte, the
least significant first. -/
def varint_value : List Nat → Nat
  | [] => 0
  | b :: rest => b % 64 + 64 * varint_value rest

/-- The signed value of a variable-length integer, whose sign is in the least
significant bit. -/
def zigzag (v : Nat) : Int := if v % 2 = 1 then -((v / 2 : Nat) : Int) else ((v / 2 : Nat) : Int)

/-- The bytes that follow the variable-length integer at the head of the
list, if that integer is complete. -/
def skip_varint : List Nat → Option (List Nat)
  | [] => none
  | b :: rest => if b &&& 64 ≠ 0 then skip_varint rest else some rest

/-- The bytes that follow a record with format code `f` whose first byte was
taken off already, if the record has all the bytes its format requires. -/
def skip_record (f : Nat) (rest : List Nat) : Option (List Nat) :=
  if f = 15 then some rest
  else if f = 14 then
    ((skip_varint rest).bind skip_varint).bind (fun r => (skip_varint r).bind skip_varint)
  else if f = 13 then skip_varint rest
  else if 10 ≤ f then
    match rest with
    | _ :: _ :: r => some r
    | _ => none
  else
    match rest with
    | _ :: r => some r
    | _ => none

/-- Whether a 3.11 location table consists of complete records; the first
argument bounds the number of records. -/
def well_formed_311_records : Nat → List Nat → Bool
  | _, [] => true
  | 0, _ :: _ => false
  | n + 1, first :: rest =>
    match skip_record ((first >>> 3) &&& 15) rest with
    | none => false
    | some r => well_formed_311_records n r

/-- A well-formed line table: every record has all the bytes its format
requires within the length of the table (complete records for 3.11, pairs of
bytes below). -/
def well_formed (py_v : python_v) (lnotab : List Nat) : Bool :=
  if V_MIN py_v 3 11 then well_formed_311_records lnotab.length lnotab
  else lnotab.length % 2 = 0

/-- An `ldelta` byte of a 3.10 table as the decoder counts it: a signed 8-bit
value, except that the byte 0x80 counts 0. -/
def ldelta_310 (b : Nat) : Int := if b = 0x80 then 0 else if b > 0x80 then (b : Int) - 0x100 else b

/-- An `ldelta` byte as a signed 8-bit value. -/
def ldelta_signed (b : Nat) : Int := if b ≥ 0x80 then (b : Int) - 0x100 else b

/-- The line of a 3.10 table of (sdelta, ldelta) pairs, with `delta` the
value of an `ldelta` byte: `line` plus the `ldelta` values of the pairs up to
and including the first one whose accumulated sdelta (from `bc`) exceeds
`limit`, using no pair at or after the first one whose sdelta is 0xFF. -/
def line_310 (delta : Nat → Int) : List Nat → Int → Int → Int → Int
  | sdelta :: ldelta :: rest, bc, limit, line =>
    if sdelta = 0xff then line
    else if bc + sdelta > limit then line + delta ldelta
    else line_310 delta rest (bc + sdelta) limit (line + delta ldelta)
  | _, _, _, line => line

/-- The line of a table of (sdelta, ldelta) pairs for Python below 3.10:
`line` plus the signed `ldelta` values of the pairs before the first one
whose accumulated sdelta (from `bc`) exceeds `limit`. -/
def line_pre_310 : List Nat → Int → Int → Int → Int
  | sdelta :: ldelta :: rest, bc, limit, line =>
    if bc + sdelta > limit then line
    else line_pre_310 rest (bc + sdelta) limit (line + ldelta_signed ldelta)
  | _, _, _, line => line

/-- The signed `ldelta` of the first pair whose accumulated sdelta (from `bc`)
exceeds `limit`, or 0 when there is none. -/
def exceeding_ldelta : List Nat → Int → Int → Int
  | sdelta :: ldelta :: rest, bc, limit =>
    if bc + sdelta > limit then ldelta_signed ldelta
    else exceeding_ldelta rest (bc + sdelta) limit
  | _, _, _ => 0

/-- Whether no pair of the table has sdelta 0xFF or ldelta 0x80. -/
def plain_pairs : List Nat → Bool
  | sdelta :: ldelta :: rest => sdelta ≠ 0xff && ldelta ≠ 0x80 && plain_pairs rest
  | _ => true

/-- The value that `_read_varint_loop` accumulates over the bytes that follow
the current one: the data bits of each byte are put 6 bits above those of the
byte before. -/
def varint_bits : Nat → Nat → List Nat → Nat
  | val, _, [] => val
  | val, shift, b :: rest => varint_bits (val ||| ((b &&& 63) <<< (shift + 6))) (shift + 6) rest

/-- The value `_read_varint` returns for the bytes of a complete integer. -/
def read_varint_value : List Nat → Int
  | [] => 0
  | b :: tl => wrap_int (varint_bits (b &&& 63) 0 tl)

/-- The value `_read_signed_varint` returns for the bytes of a complete
integer. -/
def read_signed_varint_value (v : List Nat) : Int :=
  if read_varint_value v % 2 = 1 then -(read_varint_value v / 2) else read_varint_value v / 2

/-- The example target with a line table of two (sdelta, ldelta) pairs, as
Python 3.10 and below have it. -/
def example_memory_310 : target_memory :=
  { example_memory with
    bytes_remote := fun a => if a = 0x7f0012370000 then some [2, 1, 4, 1] else none }

/-! ## `stack.h`, `py_thread.c`: the stack buffers and the unwinders -/

/-- The struct `stack_dt` of the default build.  The arrays `base` and
`py_base` have `size` cells each.  Two fields that the C struct does not have
keep a record of what the code did: `overrun` is set by a write at an index
at or beyond `size` (only such a write of `stack_py_push` takes the pointer
above `size`), and `unwind_on_used` is set when an unwind starts with a
stack pointer other than 0. -/
structure stack_dt where
  size : Nat
  base : Nat → Option frame_t
  pointer : Nat
  py_base : Nat → py_frame_t
  overrun : Bool
  unwind_on_used : Bool

/-- The function `stack_allocate(size)`: zeroed arrays, stack pointer 0. -/
def stack_allocate (size : Nat) : stack_dt :=
  { size := size, base := fun _ => none, pointer := 0, py_base := fun _ => ⟨0, 0, 0⟩,
    overrun := false, unwind_on_used := false }

/-- The loop of `stack_has_cycle`, with `i + 1` the number of entries still to
compare with `top`: the entries at `i`, `i - 1`, ..., 0. -/
def stack_has_cycle_loop (s : stack_dt) (top : py_frame_t) : Nat → Bool
  | 0 => false
  | i + 1 => if top.origin = (s.py_base i).origin then true else stack_has_cycle_loop s top i

/-- The function `stack_has_cycle` of the default build. -/
def stack_has_cycle (s : stack_dt) : Bool :=
  if s.pointer < 2 then false
  else stack_has_cycle_loop s (s.py_base (s.pointer - 1)) (s.pointer - 1)

/-- The function `stack_py_push(origin, code, lasti)`:
`py_base[pointer++] = (py_frame_t){origin, code, lasti}`. -/
def stack_py_push (s : stack_dt) (origin code : Nat) (lasti : Int) : stack_dt :=
  { s with
    py_base := fun i => if i = s.pointer then ⟨origin, code, lasti⟩ else s.py_base i
    pointer := s.pointer + 1
    overrun := s.overrun || decide (s.size ≤ s.pointer) }

/-- The macro `stack_set(i, frame)`: `base[i] = frame`. -/
def stack_set (s : stack_dt) (i : Nat) (frame : frame_t) : stack_dt :=
  { s with
    base := fun j => if j = i then some frame else s.base j
    overrun := s.overrun || decide (s.size ≤ i) }

/-- The macro `stack_reset()`. -/
def stack_reset (s : stack_dt) : stack_dt := { s with pointer := 0 }

/-- The macro `stack_full()`. -/
def stack_full (s : stack_dt) : Bool := decide (s.pointer ≥ s.size)

/-- The macro `stack_is_empty()`. -/
def stack_is_empty (s : stack_dt) : Bool := decide (s.pointer = 0)

/-- The entries `py_base[0] .. py_base[pointer - 1]`. -/
def stack_py_entries (s : stack_dt) : List py_frame_t := (List.range s.pointer).map s.py_base

/-- The fields of a `PyFrameObject` that the unwinder reads. -/
structure py_frame_fields where
  back : Nat
  code : Nat
  lasti : Int
  deriving DecidableEq

/-- The fields of an interpreter frame that the unwinder reads;
`owned_by_cstack` is whether the field `owner` is `FRAME_OWNED_BY_CSTACK`. -/
structure py_iframe_fields where
  code : Nat
  previous : Nat
  prev_instr : Nat
  owned_by_cstack : Bool
  deriving DecidableEq

/-- What the reads of the unwinders give for an address of the target: the
frame object (`copy_remote_v` of a `PyFrameObject`), the interpreter frame
(from the local copy of the stack chunk or from a remote copy) and the field
`current_frame` of a `PyCFrame`.  A read that fails gives the error number
that is set afterwards. -/
structure frame_memory where
  copy_frame : Nat → Except Int py_frame_fields
  copy_iframe : Nat → Except Int py_iframe_fields
  copy_cframe : Nat → Except Int Nat

/-- The version data that the unwinders use: the version, the offset
`py_code.o_code` of the byte code in a code object and
`sizeof(_Py_CODEUNIT)`, which belongs to the headers of CPython. -/
structure unwind_v where
  py_v : python_v
  o_code : Int
  sizeof_Py_CODEUNIT : Nat

/-- The function `_py_thread__push_remote_frame(self, &prev)`: the new value
of `prev`, or the error number, and the stack afterwards. -/
def _py_thread__push_remote_frame (mem : frame_memory) (prev : Nat) (s : stack_dt) :
    Except Int Nat × stack_dt :=
  match mem.copy_frame prev with
  | .error e => (.error e, s)
  | .ok frame =>
    let origin := prev
    if origin = frame.back then (.error AUSTIN_EPYOBJECT, s) -- Frame points to itself
    else (.ok frame.back, stack_py_push s origin frame.code frame.lasti)

/-- The expression for `lasti` in `_py_thread__push_local_iframe`:
`(((int)(prev_instr - code_raddr)) - py_v->py_code.o_code) / sizeof(_Py_CODEUNIT)`.
The difference of the addresses is cast to `int`; the division has the
operand `sizeof`, of type `size_t`, and is one of unsigned 64-bit values; the
quotient becomes the `int` argument of `stack_py_push`. -/
def iframe_lasti (v : unwind_v) (code_raddr prev_instr : Nat) : Int :=
  wrap_int (((wrap_int ((prev_instr : Int) - code_raddr) - v.o_code) % 2 ^ 64)
    / v.sizeof_Py_CODEUNIT)

/-- The function `_py_thread__push_local_iframe(self, iframe, &prev)` of the
default build. -/
def _py_thread__push_local_iframe (v : unwind_v) (iframe : py_iframe_fields) (prev : Nat)
    (s : stack_dt) : Except Int Nat × stack_dt :=
  let origin := prev
  let code_raddr := iframe.code
  if origin = iframe.previous then
    (.error AUSTIN_EPYOBJECT, s) -- Interpreter frame points to itself
  else if V_MIN v.py_v 3 12 && iframe.owned_by_cstack then
    -- This is a shim frame that we can ignore
    (.ok iframe.previous, s)
  else
    (.ok iframe.previous,
      stack_py_push s origin code_raddr (iframe_lasti v code_raddr iframe.prev_instr))

/-- The function `_py_thread__push_iframe(self, &prev)`. -/
def _py_thread__push_iframe (v : unwind_v) (mem : frame_memory) (prev : Nat) (s : stack_dt) :
    Except Int Nat × stack_dt :=
  match mem.copy_iframe prev with
  | .error e => (.error e, s)
  | .ok iframe => _py_thread__push_local_iframe v iframe prev s

/-- How an unwinder ended; `out_of_fuel` stands for a loop that was cut short
by the bound on the number of its passes. -/
inductive unwind_result
  | success
  | failure
  | out_of_fuel
  deriving DecidableEq

/-- The `while (isvalid(prev))` loop of `_py_thread__unwind_frame_stack`; the
first argument bounds the number of passes. -/
def _py_thread__unwind_frame_loop (mem : frame_memory) :
    Nat → Nat → stack_dt → unwind_result × stack_dt
  | 0, _, s => (.out_of_fuel, s)
  | fuel + 1, prev, s =>
    if prev = 0 then (.success, s)
    else
      match _py_thread__push_remote_frame mem prev s with
      | (.error _, s) => (.failure, s)
      | (.ok prev, s) =>
        if stack_full s then (.failure, s) -- Invalid frame stack: too tall
        else if stack_has_cycle s then (.failure, s) -- Circular frame reference detected
        else _py_thread__unwind_frame_loop mem fuel prev s

/-- The function `_py_thread__unwind_frame_stack`.  Every pass of the loop
that is followed by another one has pushed an entry on a stack that is not
full, so the loop has at most `size` passes (one for `size = 0`). -/
def _py_thread__unwind_frame_stack (mem : frame_memory) (top_frame : Nat) (s : stack_dt) :
    unwind_result × stack_dt :=
  _py_thread__unwind_frame_loop mem (s.size + 1) top_frame (stack_reset s)

/-- The function `_py_thread__unwind_iframe_stack(self, iframe_raddr)`.  A
pass over a shim frame pushes nothing, so the number of passes has no bound
in terms of the stack; it is bounded by the first argument. -/
def _py_thread__unwind_iframe_stack (v : unwind_v) (mem : frame_memory) :
    Nat → Nat → stack_dt → unwind_result × stack_dt
  | 0, _, s => (.out_of_fuel, s)
  | fuel + 1, curr, s =>
    if curr = 0 then (.success, s)
    else
      match _py_thread__push_iframe v mem curr s with
      | (.error _, s) => (.failure, s)
      | (.ok curr, s) =>
        if stack_full s then (.failure, s) -- Invalid frame stack: too tall
        else if stack_has_cycle s then (.failure, s) -- Circular frame reference detected
        else _py_thread__unwind_iframe_stack v mem fuel curr s

/-- The function `_py_thread__unwind_cframe_stack`. -/
def _py_thread__unwind_cframe_stack (v : unwind_v) (mem : frame_memory) (fuel : Nat)
    (top_frame : Nat) (s : stack_dt) : unwind_result × stack_dt :=
  let s := stack_reset s
  match mem.copy_cframe top_frame with
  | .error _ => (.failure, s)
  | .ok current_frame => _py_thread__unwind_iframe_stack v mem fuel current_frame s

/-- The loop of `_py_thread__resolve_py_stack` over the stack buffers, with the
outcome of the cache lookup and of `_frame_remote` for the entry at index `i`
given by `resolve i`: whether the resolution failed, and the stack.  The
first argument is the number of entries still to resolve. -/
def stack_resolve_loop (resolve : Nat → py_frame_t → Option frame_t) :
    Nat → Nat → stack_dt → Bool × stack_dt
  | 0, _, s => (false, s)
  | n + 1, i, s =>
    match resolve i (s.py_base i) with
    | none =>
      -- Truncate the stack to the point where we have successfully resolved.
      (true, { s with pointer := i })
    | some frame => stack_resolve_loop resolve n (i + 1) (stack_set s i frame)

/-- The function `_py_thread__resolve_py_stack` over the stack buffers. -/
def stack_resolve (resolve : Nat → py_frame_t → Option frame_t) (s : stack_dt) :
    Bool × stack_dt :=
  stack_resolve_loop resolve s.pointer 0 s

/-- The function `py_thread__unwind` of the default build over the stack
buffers: how the unwinder ended, the flag `error` and the stack. -/
def py_thread__unwind_stack (v : unwind_v) (mem : frame_memory) (fuel : Nat) (top_frame : Nat)
    (resolve : Nat → py_frame_t → Option frame_t) (s : stack_dt) :
    unwind_result × Bool × stack_dt :=
  let s := { s with unwind_on_used := s.unwind_on_used || decide (s.pointer ≠ 0) }
  if top_frame ≠ 0 then
    let r :=
      if V_MIN v.py_v 3 13 then _py_thread__unwind_iframe_stack v mem fuel top_frame s
      else if V_MIN v.py_v 3 11 then _py_thread__unwind_cframe_stack v mem fuel top_frame s
      else _py_thread__unwind_frame_stack mem top_frame s
    match r with
    | (.out_of_fuel, s) => (.out_of_fuel, true, s)
    | (result, s) =>
      let resolved := stack_resolve resolve s
      (result, decide (result = .failure) || resolved.1, resolved.2)
  else (.success, false, s)

/-- The loop `while (!stack_is_empty()) { frame = stack_pop(); ... }` of the
stack-end handlers of the default build: the frames popped and the stack.
The first argument is the number of frames on the stack. -/
def stack_pop_loop : Nat → stack_dt → List (Option frame_t) × stack_dt
  | 0, s => ([], s)
  | n + 1, s =>
    if stack_is_empty s then ([], s)
    else
      let s' := { s with pointer := s.pointer - 1 }
      let r := stack_pop_loop n s'
      (s'.base s'.pointer :: r.1, r.2)

/-- What a sample does with the stack buffers depends on: the version data,
the target memory, the bound on the passes of the unwinder, the top frame of
the thread and the outcomes of the resolution of the entries. -/
structure stack_sample where
  v : unwind_v
  mem : frame_memory
  fuel : Nat
  top_frame : Nat
  resolve : Nat → py_frame_t → Option frame_t

/-- One sample of a thread over the stack buffers: the stack-begin handler
(which does not use the stack), `py_thread__unwind` and the stack-end
handler.  When the unwinder is cut short the sample stops there. -/
def sample_stack (x : stack_sample) (s : stack_dt) : unwind_result × stack_dt :=
  match py_thread__unwind_stack x.v x.mem x.fuel x.top_frame x.resolve s with
  | (.out_of_fuel, _, s) => (.out_of_fuel, s)
  | (_, _, s) => (.success, (stack_pop_loop s.pointer s).2)

/-- A sequence of samples over the stack buffers, up to the first sample
whose unwinder is cut short. -/
def sample_stacks : List stack_sample → stack_dt → unwind_result × stack_dt
  | [], s => (.success, s)
  | x :: rest, s =>
    match sample_stack x s with
    | (.out_of_fuel, s) => (.out_of_fuel, s)
    | (_, s) => sample_stacks rest s

/-- Whether the frames `chain` are what the classic unwinder finds from the
address `top` by following `back` until null: every read succeeds and gives
the code address and `lasti` of the entry, and the entry has the address of
the frame as its origin. -/
def is_frame_chain (mem : frame_memory) : Nat → List py_frame_t → Bool
  | top, [] => decide (top = 0)
  | top, f :: rest =>
    decide (top ≠ 0) && decide (f.origin = top) &&
      match mem.copy_frame top with
      | .error _ => false
      | .ok frame =>
        decide (frame.code = f.code) && decide (frame.lasti = f.lasti) &&
          is_frame_chain mem frame.back rest

/-- A target with three frame objects, at `0x7f0012380000`, `0x7f0012381000`
and `0x7f0012382000`, the last one being the outermost; its interpreter
frames are at the same addresses, the third one pointing back to itself. -/
def example_frames : frame_memory :=
  { copy_frame := fun a =>
      if a = 0x7f0012380000 then .ok ⟨0x7f0012381000, 0x7f0012340000, 6⟩
      else if a = 0x7f0012381000 then .ok ⟨0x7f0012382000, 0x7f0012340000, 2⟩
      else if a = 0x7f0012382000 then .ok ⟨0, 0x7f0012341000, 10⟩
      else if a = 0x7f0012383000 then .ok ⟨0x7f0012383000, 0x7f0012341000, 10⟩
      else .error AUSTIN_EMEMCOPY
    copy_iframe := fun a =>
      if a = 0x7f0012380000 then
        .ok ⟨0x7f0012340000, 0x7f0012381000, 0x7f0012340000 + 192 + 8, false⟩
      else if a = 0x7f0012381000 then
        .ok ⟨0x7f0012340000, 0x7f0012382000, 0x7f0012340000 + 192 + 4, true⟩
      else if a = 0x7f0012382000 then
        .ok ⟨0x7f0012341000, 0x7f0012382000, 0x7f0012341000 + 192, false⟩
      else .error AUSTIN_EMEMCOPY
    copy_cframe := fun a =>
      if a = 0x7f0012390000 then .ok 0x7f0012380000 else .error AUSTIN_EMEMCOPY }

/-- A stack of three entries whose two lowest entries have the same origin. -/
def example_stack_lower_pair : stack_dt :=
  stack_py_push (stack_py_push (stack_py_push (stack_allocate 8)
    0x7f0012380000 0x7f0012340000 0) 0x7f0012380000 0x7f0012340000 0)
    0x7f0012381000 0x7f0012340000 0

/-- A stack of three entries whose top entry has the origin of the lowest. -/
def example_stack_top_pair : stack_dt :=
  stack_py_push (stack_py_push (stack_py_push (stack_allocate 8)
    0x7f0012380000 0x7f0012340000 0) 0x7f0012381000 0x7f0012340000 0)
    0x7f0012380000 0x7f0012340000 0

/-- Two samples of the example frames on a stack of capacity 2: one of a
3.12 thread whose `PyCFrame` is at `0x7f0012390000`, one of a 3.10 thread
whose top frame is at `0x7f0012380000`; no entry can be resolved. -/
def example_stack_samples : List stack_sample :=
  [⟨⟨⟨3, 12⟩, 192, 2⟩, example_frames, 10, 0x7f0012390000, fun _ _ => none⟩,
    ⟨⟨⟨3, 10⟩, 192, 2⟩, example_frames, 10, 0x7f0012380000, fun _ _ => none⟩]

/-! ## `stats.c`: the counters -/

/-- The counters `_sample_cnt` and `_error_cnt` of `stats.c`, of the unsigned
64-bit type `ustat_t`. -/
structure stats_t where
  _sample_cnt : Nat
  _error_cnt : Nat
  deriving DecidableEq

/-- The function `stats_reset`, as far as the counters go. -/
def stats_reset (_ : stats_t) : stats_t := { _sample_cnt := 0, _error_cnt := 0 }

/-- Modelled from the spec: the macro `stats_count_sample()` of `stats.h`, which
is not among the sources: one more sample. -/
def stats_count_sample (st : stats_t) : stats_t :=
  { st with _sample_cnt := (st._sample_cnt + 1) % 2 ^ 64 }

/-- Modelled from the spec: the macro `stats_count_error()` of `stats.h`, which
is not among the sources: one more sample with an error. -/
def stats_count_error (st : stats_t) : stats_t :=
  { st with _error_cnt := (st._error_cnt + 1) % 2 ^ 64 }

/-- The update of the sampling statistics at the end of `py_thread__unwind`:
`stats_count_sample(); if (error) stats_count_error();`, with `error` the
flag that the unwinding and the resolution have set. -/
def py_thread__unwind_stats (st : stats_t) (error : Bool) : stats_t :=
  let st := stats_count_sample st
  if error then stats_count_error st else st

/-! ## `mem.h`: reading the memory of the target -/

/-- The value of `ESRCH` in `errno.h`. -/
def ESRCH : Int := 3

/-- The value of `EPERM` in `errno.h`. -/
def EPERM : Int := 1

/-- The function `copy_memory` on Linux, for a request of `len` bytes:
`result` is what `process_vm_readv` returned (-1 when it failed, the number
of bytes read otherwise) and `errno` the error it set; `austin_errno` is the
error number before the call.  The outcome is the value returned (zero on
success, otherwise non-zero) and the error number afterwards. -/
def copy_memory (result errno len austin_errno : Int) : Int × Int :=
  let austin_errno :=
    if result = -1 then
      if errno = ESRCH then AUSTIN_EOS -- No such process
      else if errno = EPERM then AUSTIN_EPERM -- Remote memory read access denied
      else AUSTIN_EMEMCOPY -- Cannot copy remote memory
    else austin_errno
  (if result ≠ len then 1 else 0, austin_errno)

/-! ## `py_interp.h`, `py_proc.c`: the code-object generation of an interpreter -/

/-- The struct `interpreter_state_t`. -/
structure interpreter_state_t where
  id : Int
  code_object_gen : Nat
  deriving DecidableEq

/-- The function `interpreter_state_new(id, code_object_gen)`. -/
def interpreter_state_new (id : Int) (code_object_gen : Nat) : interpreter_state_t :=
  { id := id, code_object_gen := code_object_gen }

/-- The function `interpreter_state_key(interp_id)`:
`(key_dt)(interp_id + 1)`. -/
def interpreter_state_key (interp_id : Int) : Nat := to_key (interp_id + 1)

/-- Modelled from the spec: a write through the pointer that
`lru_cache__maybe_hit` of `cache.h` returned for `key`, or that was stored
under `key`: the cache owns the item, so the item under the key is the one
that changes. -/
def lru_cache__write {α : Type} (self : lru_cache_t α) (key : Nat) (f : α → α) :
    lru_cache_t α :=
  { self with items := self.items.map (fun kv => if kv.1 == key then (kv.1, f kv.2) else kv) }

/-- The block `if (V_MIN(3, 14))` of `_py_proc__sample_interpreter`, which
precedes the loop over the threads: the target record and the
interpreter-state cache afterwards, for an interpreter with the identifier
`interp_id` whose code-object generation was read as `code_object_gen`. -/
def sample_interpreter_generation (py_v : python_v) (interp_id : Int) (code_object_gen : Nat)
    (py_proc : py_proc_t) (interpreter_state_cache : lru_cache_t interpreter_state_t) :
    py_proc_t × lru_cache_t interpreter_state_t :=
  if V_MIN py_v 3 14 then
    let key := interpreter_state_key interp_id
    let looked_up :=
      match lru_cache__maybe_hit interpreter_state_cache key with
      | (some interpreter_state_info, cache) => (interpreter_state_info, cache)
      | (none, cache) =>
        let interpreter_state_info := interpreter_state_new interp_id code_object_gen
        (interpreter_state_info, lru_cache__store cache key interpreter_state_info)
    if code_object_gen ≠ looked_up.1.code_object_gen then
      ({ py_proc with
          frame_cache := lru_cache__invalidate py_proc.frame_cache
          code_cache := lru_cache__invalidate py_proc.code_cache },
        lru_cache__write looked_up.2 key
          (fun info => { info with code_object_gen := code_object_gen }))
    else (py_proc, looked_up.2)
  else (py_proc, interpreter_state_cache)

/-- The function `_py_proc__sample_interpreter` from the block for 3.14 on
(default build, MOJO handler installed): the block, then the loop over the
threads of the interpreter, which are given with the content of target
memory at the time each of them is sampled. -/
def _py_proc__sample_interpreter (pargs : parsed_args_t) (py_v : python_v)
    (locate : location_decoder) (interp_id : Int) (code_object_gen : Nat) (time_delta : Nat)
    (threads : List (target_memory × thread_obs))
    (self : sampler_t × lru_cache_t interpreter_state_t) :
    (sampler_t × lru_cache_t interpreter_state_t) × List Event :=
  let checked := sample_interpreter_generation py_v interp_id code_object_gen self.1.proc self.2
  let sampled := threads.foldl
    (fun (acc : sampler_t × List Event) thread =>
      let r := sample_thread pargs py_v locate thread.1 interp_id time_delta thread.2 acc.1
      (r.1, acc.2 ++ r.2))
    ({ self.1 with proc := checked.1 }, [])
  ((sampled.1, checked.2), sampled.2)

/-- A target of Python 3.14 whose frame cache and code cache hold one item
each, with an interpreter-state cache that holds the generation 4 for the
interpreter 0. -/
def example_sampler_314 : sampler_t × lru_cache_t interpreter_state_t :=
  ({ proc :=
      { pid := 42
        frame_cache :=
          ⟨8, [(0x23400000000, ⟨0x23400000000, ⟨0x7f0012350000, [97, 46, 112, 121]⟩,
            ⟨0x7f0012360000, [102]⟩, 1, 0, 0, 0⟩)]⟩
        string_cache := ⟨8, []⟩
        code_cache :=
          ⟨8, [(0x7f0012340000, ⟨0x7f0012340000, ⟨0x7f0012350000, [97, 46, 112, 121]⟩,
            ⟨0x7f0012360000, [102]⟩, [0x78], 1⟩)]⟩ }
     stack := [] },
    ⟨256, [(1, ⟨0, 4⟩)]⟩)

/-! ## `py_proc.c`, `linux/analyze_elf.h`: the dynamic symbols -/

/-- The slots `symbols[0 .. DYNSYM_COUNT - 1]` of the target record and what
classifies a symbol.  `DYNSYM_COUNT` and `symcmp` belong to
`python/symbols.h`, which is not among the sources; they are the fields
`count` and `symcmp` (`symcmp name i` is whether `symcmp(name, i)`
succeeds). -/
structure dynsym_t where
  count : Nat
  symcmp : String → Nat → Bool
  symbols : Nat → Nat

/-- The loop of `_py_proc__check_sym` over the slots from `i` on; the first
argument is the number of slots left. -/
def _py_proc__check_sym_loop (self : dynsym_t) (name : String) (value : Nat) :
    Nat → Nat → Nat × dynsym_t
  | 0, _ => (0, self)
  | n + 1, i =>
    if self.symcmp name i then
      (1, { self with symbols := fun j => if j = i then value else self.symbols j })
    else _py_proc__check_sym_loop self name value n (i + 1)

/-- The function `_py_proc__check_sym(self, name, value)`: what it returns and
the target record afterwards.  The name of a symbol of the table is a valid
pointer. -/
def _py_proc__check_sym (self : dynsym_t) (name : String) (value : Nat) : Nat × dynsym_t :=
  if value = 0 then (0, self)
  else _py_proc__check_sym_loop self name value self.count 0

/-- The loop "Search for dynamic symbols" of `_py_proc__analyze_elf64` over the
entries of the table, each with its name and the address computed for it:
the number `symbols` and the target record afterwards. -/
def analyze_dynsym : List (String × Nat) → Nat → dynsym_t → Nat × dynsym_t
  | [], symbols, self => (symbols, self)
  | (sym_name, value) :: rest, symbols, self =>
    let r := _py_proc__check_sym self sym_name value
    if symbols + r.1 ≥ self.count then
      -- We have found all the symbols. No need to look further
      (symbols + r.1, r.2)
    else analyze_dynsym rest (symbols + r.1) r.2

/-- The slot that `_py_proc__check_sym` assigns for a symbol: the first slot
that the name matches, if the address is not null. -/
def assigned_slot (self : dynsym_t) (entry : String × Nat) : Option Nat :=
  if entry.2 = 0 then none else (List.range self.count).find? (self.symcmp entry.1)

/-- The entries that the loop of `_py_proc__analyze_elf64` scans: those up to
and including the one with which the number of classified symbols reaches
`DYNSYM_COUNT`. -/
def scanned_entries (self : dynsym_t) : List (String × Nat) → Nat → List (String × Nat)
  | [], _ => []
  | entry :: rest, symbols =>
    let n := symbols + (if (assigned_slot self entry).isSome then 1 else 0)
    if n ≥ self.count then [entry] else entry :: scanned_entries self rest n

/-- The address of the last of the entries that is assigned to the slot `i`,
or `old` when there is none. -/
def last_assigned (self : dynsym_t) (i : Nat) : List (String × Nat) → Nat → Nat
  | [], old => old
  | entry :: rest, old =>
    last_assigned self i rest (if assigned_slot self entry = some i then entry.2 else old)

/-- The address of the first of the entries that is assigned to the slot `i`,
if there is one. -/
def first_assigned (self : dynsym_t) (i : Nat) (entries : List (String × Nat)) : Option Nat :=
  (entries.find? (fun entry => assigned_slot self entry == some i)).map (fun entry => entry.2)

/-- A target record with two slots, the first for `_PyRuntime` and the second
for `Py_Version`, both empty. -/
def example_dynsym : dynsym_t :=
  { count := 2
    symcmp := fun name i => (i == 0 && name == "_PyRuntime") || (i == 1 && name == "Py_Version")
    symbols := fun _ => 0 }

/-! ## `py_proc.c`: the loop over the interpreters and the runtime scan -/

/-- How a loop over target data ended; `out_of_fuel` stands for a loop that
was cut short by the bound on the number of its passes. -/
inductive tick_result
  | success
  | failure
  | out_of_fuel
  deriving DecidableEq

/-- What `py_proc__sample` sees of a snapshot of target memory, for the
interpreter state at an address: whether the prefetch succeeds, the field
`tstate_head` (if it can be read), whether `_py_proc__sample_interpreter`
succeeds, and the field `next` (if it can be read). -/
structure interp_snapshot where
  prefetch : Nat → Bool
  tstate_head : Nat → Option Nat
  sample_interpreter : Nat → Bool
  next : Nat → Option Nat

/-- The `do ... while (isvalid(current_interp))` loop of `py_proc__sample` in
the default build: how it ends and the interpreters for which
`_py_proc__sample_interpreter` was called, in order.  The first argument
bounds the number of passes.  A `continue` in a `do ... while` loop goes to
the test of the condition. -/
def py_proc__sample_loop (snap : interp_snapshot) :
    Nat → Nat → List Nat → tick_result × List Nat
  | 0, _, visited => (.out_of_fuel, visited)
  | fuel + 1, current_interp, visited =>
    if !snap.prefetch current_interp then (.failure, visited)
    else
      match snap.tstate_head current_interp with
      | none => (.failure, visited)
      | some tstate_head =>
        if tstate_head = 0 then (.success, visited)
        else
          let visited := visited ++ [current_interp]
          if !snap.sample_interpreter current_interp then
            -- continue
            if current_interp ≠ 0 then py_proc__sample_loop snap fuel current_interp visited
            else (.success, visited)
          else
            match snap.next current_interp with
            | none => (.failure, visited)
            | some next =>
              if next ≠ 0 then py_proc__sample_loop snap fuel next visited
              else (.success, visited)

/-- The function `py_proc__sample`, from the interpreter head `istate_raddr`. -/
def py_proc__sample (snap : interp_snapshot) (fuel : Nat) (istate_raddr : Nat) :
    tick_result × List Nat :=
  py_proc__sample_loop snap fuel istate_raddr []

/-- A snapshot with the single interpreter at `0x7f0012400000`, whose thread
state head is at `0x7f0012410000` and whose sampling fails or succeeds as
`sample_ok` says. -/
def example_interp_snapshot (sample_ok : Bool) : interp_snapshot :=
  { prefetch := fun a => a == 0x7f0012400000
    tstate_head := fun a => if a = 0x7f0012400000 then some 0x7f0012410000 else none
    sample_interpreter := fun _ => sample_ok
    next := fun a => if a = 0x7f0012400000 then some 0 else none }

/-- What `_py_proc__deref_interp_head` sees of target memory: the field
`interp_head` of the runtime struct copied from an address (if the copy
succeeds), whether the prefetch of the interpreter state at a candidate
succeeds, and whether `_py_proc__check_interp_state` accepts the candidate. -/
structure runtime_snapshot where
  copy_runtime : Nat → Option Nat
  prefetch : Nat → Bool
  check_interp_state : Nat → Bool

/-- The `for` loop of `_py_proc__deref_interp_head` over the addresses to
scan: the value of `interp_head_raddr` afterwards. -/
def _py_proc__deref_interp_head_loop (snap : runtime_snapshot) : List Nat → Nat → Nat
  | [], interp_head_raddr => interp_head_raddr
  | current_addr :: rest, interp_head_raddr =>
    match snap.copy_runtime current_addr with
    | none => _py_proc__deref_interp_head_loop snap rest interp_head_raddr -- continue
    | some candidate =>
      if !snap.prefetch candidate then _py_proc__deref_interp_head_loop snap rest 0
      else if !snap.check_interp_state candidate then
        _py_proc__deref_interp_head_loop snap rest 0
      else _py_proc__deref_interp_head_loop snap rest candidate

/-- The addresses `lower`, `lower + sizeof(raddr_t)`, ... up to `upper`
included. -/
def scan_addresses (lower upper : Nat) : List Nat :=
  (List.range ((upper - lower) / 8 + 1)).map (fun i => lower + 8 * i)

/-- The function `_py_proc__deref_interp_head`, for the runtime symbol
`symbols[DYNSYM_RUNTIME]`, the base of the runtime section and the page size
`size`: the interpreter head that is recorded in `istate_raddr`, or `none`
for a failure. -/
def _py_proc__deref_interp_head (snap : runtime_snapshot) (runtime_addr runtime_base size : Nat) :
    Option Nat :=
  if runtime_addr = 0 ∧ runtime_base = 0 then none -- Invalid runtime section
  else
    let lower := if runtime_addr ≠ 0 then runtime_addr else runtime_base
    let upper := if runtime_addr ≠ 0 then runtime_addr else lower + size
    let interp_head_raddr := _py_proc__deref_interp_head_loop snap (scan_addresses lower upper) 0
    if interp_head_raddr = 0 then none else some interp_head_raddr

/-- A runtime section at `0x7f0012500000`: the runtime struct read there has
the interpreter head `0x7f0012400000`, which passes the check; the struct
read one pointer further has the head `second`, which passes the check iff
`second_ok`; no other address of the scan can be read. -/
def example_runtime_snapshot (second : Nat) (second_ok : Bool) : runtime_snapshot :=
  { copy_runtime := fun a =>
      if a = 0x7f0012500000 then some 0x7f0012400000
      else if a = 0x7f0012500008 then some second
      else none
    prefetch := fun _ => true
    check_interp_state := fun c => c == 0x7f0012400000 || (c == second && second_ok) }

/-! ## `py_proc.c`: the prefetch buffer and the check of an interpreter state -/

/-- The struct `com_t`: the window of the interpreter state that is
prefetched, from `base_offset` and `size` bytes long, and the buffer `data`
of `size` bytes that `py_proc__init` allocates for it. -/
structure com_t where
  base_offset : Nat
  size : Nat
  data : List Nat
  deriving DecidableEq

/-- The bytes of the target at the addresses `addr`, ..., `addr + len - 1`, as
a successful `copy_memory` delivers them; `mem` gives the byte at an address
that can be read. -/
def copy_bytes (mem : Nat → Option Nat) : Nat → Nat → Option (List Nat)
  | _, 0 => some []
  | addr, len + 1 =>
    match mem addr with
    | none => none
    | some b => (copy_bytes mem (addr + 1) len).map (fun rest => b :: rest)

/-- The value of an object from its bytes in memory (little endian). -/
def le_value : List Nat → Nat
  | [] => 0
  | b :: rest => b + 256 * le_value rest

/-- The outcome of `_py_proc__get_interpreter_state_field`: the value of the
field, a failed remote copy, or a `memcpy` that reads beyond the `size` bytes
of the prefetch buffer. -/
inductive field_read
  | value (v : Nat)
  | failed
  | overrun
  deriving DecidableEq

/-- The macro `_py_proc__get_interpreter_state_field(self, interp, field, dst)`
for a field at the offset `o_field` and a destination of `sizeof_dst` bytes:
if `o_field >= base_offset && o_field < base_offset + size` the field is
copied from the prefetch buffer at `data + (o_field - base_offset)`,
otherwise from the target at `interp + o_field`. -/
def _py_proc__get_interpreter_state_field (com : com_t) (mem : Nat → Option Nat)
    (o_field sizeof_dst interp : Nat) : field_read :=
  if o_field ≥ com.base_offset ∧ o_field < com.base_offset + com.size then
    if o_field - com.base_offset + sizeof_dst ≤ com.size then
      .value (le_value ((com.data.drop (o_field - com.base_offset)).take sizeof_dst))
    else .overrun
  else
    match copy_bytes mem (interp + o_field) sizeof_dst with
    | some bytes => .value (le_value bytes)
    | none => .failed

/-- The function `_py_proc__prefetch_interpreter_state(self, interp)`: the
buffer afterwards, or `none` when the copy fails. -/
def _py_proc__prefetch_interpreter_state (com : com_t) (mem : Nat → Option Nat) (interp : Nat) :
    Option com_t :=
  match copy_bytes mem (interp + com.base_offset) com.size with
  | some bytes => some { com with data := bytes }
  | none => none

/-- What `_py_proc__check_interp_state` reads besides the interpreter state:
the bytes of the target; the field `interp` of the thread state copied from
an address (`none` when the copy fails); whether `py_thread__read_remote`
succeeds for the thread state at an address; and, on Linux before 3.11,
whether the loop that infers the offset of the TID field, started from that
thread, ends in `SUCCESS`. -/
structure check_env where
  mem : Nat → Option Nat
  copy_thread : Nat → Option Nat
  read_remote : Nat → Bool
  infer_tid : Nat → Bool

/-- The function `_py_proc__check_interp_state(self, interp)` on Linux, with
`o_tstate_head` the offset of the field `tstate_head`, a pointer of 8 bytes:
whether it returns `SUCCESS`. -/
def _py_proc__check_interp_state (py_v : python_v) (o_tstate_head : Nat) (com : com_t)
    (env : check_env) (interp : Nat) : Bool :=
  match _py_proc__get_interpreter_state_field com env.mem o_tstate_head 8 interp with
  | .value tstate_head =>
    match env.copy_thread tstate_head with
    | none => false
    | some thread_interp =>
      if thread_interp ≠ interp then
        false -- PyThreadState head does not point to interpreter state
      else
        match _py_proc__get_interpreter_state_field com env.mem o_tstate_head 8 interp with
        | .value thread_raddr =>
          if !env.read_remote thread_raddr then false
          else if V_MIN py_v 3 11 then true
          else env.infer_tid thread_raddr
        | _ => false
  | _ => false

/-- The number that `parse_env` stores in `env.page_size_cap`: 4096 when
`AUSTIN_PAGE_SIZE_CAP` is not set, otherwise the `long` that `strtol` read
from it, converted to `size_t`. -/
def parse_env_page_size_cap (value : Option Int) : Nat :=
  match value with
  | none => 4096
  | some page_size_cap => to_size_t page_size_cap

/-- The part `py_is` of a version descriptor: the size of the interpreter
state and the offsets of its fields, in the order of the descriptor.  (The
descriptors belong to `python/abi.h` and `version.h`, which are not among
the sources; `py_proc__init` uses them through the size and the sequence of
the offsets only.) -/
structure py_is_v where
  size : Nat
  offsets : List Nat

/-- The computation of `interpreter_state_com` at the end of `py_proc__init`,
in `size_t` arithmetic, for the page size of the system and the cap of the
environment.  The buffer that `malloc` returns is not initialised; zeros
stand for its content. -/
def interpreter_state_com (page_size page_size_cap : Nat) (py_is : py_is_v) : com_t :=
  let page_size := if page_size > page_size_cap then page_size_cap else page_size
  let n := py_is.offsets.length
  let com := (py_is.offsets.sum % 2 ^ 64) / n
  let base_offset := com &&& (2 ^ 64 - 1 - (page_size + 2 ^ 64 - 1) % 2 ^ 64)
  let size :=
    if (base_offset + page_size) % 2 ^ 64 > py_is.size then
      (py_is.size + 2 ^ 64 - base_offset) % 2 ^ 64
    else page_size
  { base_offset := base_offset, size := size, data := List.replicate size 0 }

/-- A target in which the interpreter state at `0x7f0012400000` has a
`tstate_head` (at offset 8) that is `head`, and in which the thread state at
`0x7f0012410000` points back to that interpreter and has the thread
identifier `tid`. -/
def example_check_env (head : Nat) (tid : Nat) : check_env :=
  { mem := fun a =>
      if 0x7f0012400000 ≤ a ∧ a < 0x7f0012400008 then some 0
      else if 0x7f0012400008 ≤ a ∧ a < 0x7f0012400010 then
        some ((head >>> (8 * (a - 0x7f0012400008))) &&& 0xff)
      else none
    copy_thread := fun a => if a = 0x7f0012410000 then some 0x7f0012400000 else none
    read_remote := fun a => a == 0x7f0012410000 && tid != 0
    infer_tid := fun _ => true }

/-- A prefetch buffer for the window of the first 16 bytes of the interpreter
state that holds what an earlier prefetch left in it: a `tstate_head` that
is `0x7f0012410000`. -/
def example_stale_com : com_t :=
  { base_offset := 0, size := 16,
    data := [0, 0, 0, 0, 0, 0, 0, 0, 0x00, 0x00, 0x41, 0x12, 0x00, 0x7f, 0x00, 0x00] }

/-! ## `py_proc_list.c`: the list of targets -/

/-- The struct `py_proc_item_t`: a target and its links in the list.  Items
and targets are given by their addresses; 0 is `NULL`. -/
structure py_proc_item_t where
  py_proc : Nat
  next : Nat
  prev : Nat
  deriving DecidableEq

/-- The struct `py_proc_list_t` as far as `py_proc_list__sample` uses it, with
the memory that holds the items: `items a` is the item at the address `a`.
The index table `py_proc_for_pid` is left out. -/
structure py_proc_list_t where
  count : Int
  first : Nat
  items : Nat → py_proc_item_t

/-- The function `_py_proc_list__remove(self, item)`.  After `free(item)` the
memory of the item holds nothing of use; zeros stand for it. -/
def _py_proc_list__remove (self : py_proc_list_t) (item : Nat) : py_proc_list_t :=
  let it := self.items item
  let first := if item = self.first then it.next else self.first
  -- if (item->next) item->next->prev = item->prev;
  let items1 : Nat → py_proc_item_t := fun a =>
    if it.next ≠ 0 ∧ a = it.next then { self.items a with prev := it.prev } else self.items a
  -- if (item->prev) item->prev->next = item->next;
  let items2 : Nat → py_proc_item_t := fun a =>
    if it.prev ≠ 0 ∧ a = it.prev then { items1 a with next := it.next } else items1 a
  -- free(item)
  let items3 : Nat → py_proc_item_t := fun a => if a = item then ⟨0, 0, 0⟩ else items2 a
  { count := self.count - 1, first := first, items := items3 }

/-- A call that `py_proc_list__sample` makes for a target. -/
inductive target_call
  | sample (py_proc : Nat)
  | init (py_proc : Nat)
  | remove (py_proc : Nat)
  deriving DecidableEq

/-- How `py_proc_list__sample` finds the targets: whether a target is a
Python process (`py_proc__is_python`), whether `py_proc__sample` fails for
it and whether the `py_proc__init` that follows a failed sample fails. -/
structure target_outcomes where
  is_python : Nat → Bool
  sample_fails : Nat → Bool
  init_fails : Nat → Bool

/-- The body of the `for` loop of `py_proc_list__sample` for the item at
`item`: the list afterwards and the calls made.  (`py_proc__terminate` and
`py_proc__wait`, which precede a removal unless the error is `PYOBJECT`, do
not touch the list and are left out.) -/
def py_proc_list__sample_item (o : target_outcomes) (self : py_proc_list_t) (item : Nat) :
    py_proc_list_t × List target_call :=
  let py_proc := (self.items item).py_proc
  if !o.is_python py_proc then
    -- Not a Python process that we can sample, but we need to keep it
    (self, [])
  else if o.sample_fails py_proc then
    -- Try to re-initialise
    if o.init_fails py_proc then
      (_py_proc_list__remove self item, [.sample py_proc, .init py_proc, .remove py_proc])
    else (self, [.sample py_proc, .init py_proc])
  else (self, [.sample py_proc])

/-- The `for (; isvalid(item); item = next, next = isvalid(item) ? item->next : NULL)`
loop of `py_proc_list__sample`; the first argument bounds the number of
passes, and `none` stands for a loop that was cut short by the bound. -/
def py_proc_list__sample_loop (o : target_outcomes) :
    Nat → Nat → Nat → py_proc_list_t → List target_call →
      Option (py_proc_list_t × List target_call)
  | 0, _, _, _, _ => none
  | fuel + 1, item, next, self, calls =>
    if item = 0 then some (self, calls)
    else
      let r := py_proc_list__sample_item o self item
      py_proc_list__sample_loop o fuel next (if next ≠ 0 then (r.1.items next).next else 0)
        r.1 (calls ++ r.2)

/-- The function `py_proc_list__sample`. -/
def py_proc_list__sample (o : target_outcomes) (fuel : Nat) (self : py_proc_list_t) :
    Option (py_proc_list_t × List target_call) :=
  if self.first = 0 then some (self, [])
  else py_proc_list__sample_loop o fuel self.first (self.items self.first).next self []

/-- Whether the items at the addresses `addrs`, in this order, are the
doubly linked list that starts at `cur`, the item before it being at `prev`
(0 for none): every item is at an address other than 0, its `prev` is the
item before it, its `next` the item after it, and the `next` of the last one
is 0. -/
def is_item_list (items : Nat → py_proc_item_t) : Nat → Nat → List Nat → Bool
  | _, cur, [] => decide (cur = 0)
  | prev, cur, a :: rest =>
    decide (cur = a) && decide (a ≠ 0) && decide ((items a).prev = prev) &&
      is_item_list items a (items a).next rest

/-- Whether the target of the item at `a` is removed by `py_proc_list__sample`:
it is a Python process, its sample fails and the retried init fails. -/
def target_removed (o : target_outcomes) (self : py_proc_list_t) (a : Nat) : Bool :=
  o.is_python (self.items a).py_proc && o.sample_fails (self.items a).py_proc &&
    o.init_fails (self.items a).py_proc

/-- The calls for the target of the item at `a`: none for a target that is
not a Python process; one sample; one init after a sample that fails; a
removal after an init that fails. -/
def target_calls (o : target_outcomes) (self : py_proc_list_t) (a : Nat) : List target_call :=
  if !o.is_python (self.items a).py_proc then []
  else if !o.sample_fails (self.items a).py_proc then [.sample (self.items a).py_proc]
  else if !o.init_fails (self.items a).py_proc then
    [.sample (self.items a).py_proc, .init (self.items a).py_proc]
  else
    [.sample (self.items a).py_proc, .init (self.items a).py_proc,
      .remove (self.items a).py_proc]

/-- A list of four targets, the items being at `0x1000`, `0x2000`, `0x3000`
and `0x4000` and the targets at the same addresses plus 8. -/
def example_proc_list : py_proc_list_t :=
  { count := 4
    first := 0x1000
    items := fun a =>
      if a = 0x1000 then ⟨0x1008, 0x2000, 0⟩
      else if a = 0x2000 then ⟨0x2008, 0x3000, 0x1000⟩
      else if a = 0x3000 then ⟨0x3008, 0x4000, 0x2000⟩
      else if a = 0x4000 then ⟨0x4008, 0, 0x3000⟩
      else ⟨0, 0, 0⟩ }

/-- The first target is not a Python process, the sample of the second and of
the fourth fails, and the init of the second fails as well. -/
def example_outcomes : target_outcomes :=
  { is_python := fun p => p != 0x1008
    sample_fails := fun p => p == 0x2008 || p == 0x4008
    init_fails := fun p => p == 0x2008 }


/-! ## Lemmas -/

theorem byte_or_64 : ∀ b, b < 64 → b ||| 0x40 = b + 64 := by decide
theorem byte_or_128 : ∀ b, b < 128 → b ||| 0x80 = b + 128 := by decide

theorem and_63 (n : Nat) : n &&& 0x3f = n % 64 := Nat.and_pow_two_sub_one_eq_mod n 6
theorem and_127 (n : Nat) : n &&& 0x7f = n % 128 := Nat.and_pow_two_sub_one_eq_mod n 7

theorem mojo_integer_loop_succ (room m : Nat) :
    mojo_integer_loop (room + 1) m =
      if m = 0 then [] else
        (m % 128 + if m / 128 = 0 then 0 else 128) :: mojo_integer_loop room (m / 128) := by
  simp only [mojo_integer_loop, and_127, Nat.shiftRight_eq_div_pow]
  by_cases h : m = 0
  · simp [h]
  · by_cases h2 : m / 128 = 0
    · simp [h, h2]
    · have := byte_or_128 (m % 128) (Nat.mod_lt _ (by norm_num))
      simp [h, h2, this]

theorem mojo_integer_eq (n : Nat) (s : Bool) :
    mojo_integer n s =
      (n % 64 + (if s then 64 else 0) + (if n / 64 = 0 then 0 else 128))
        :: mojo_integer_loop 15 (n / 64) := by
  have h64 : n % 64 < 64 := Nat.mod_lt _ (by norm_num)
  have h1 := byte_or_64 (n % 64) h64
  have h2 := byte_or_128 (n % 64) (by omega)
  have h3 := byte_or_128 (n % 64 + 64) (by omega)
  simp only [mojo_integer, and_63, Nat.shiftRight_eq_div_pow]
  cases s <;> by_cases h : n / 64 = 0 <;> simp [h, h1, h2, h3]


theorem mojo_integer_loop_getElem? (room : Nat) :
    ∀ (m i : Nat), m < 128 ^ room →
      (mojo_integer_loop room m)[i]? =
        if m / 128 ^ i = 0 then none
        else some (m / 128 ^ i % 128 + if m / 128 ^ (i + 1) = 0 then 0 else 128) := by
  induction room with
  | zero =>
    intro m i hm
    have : m = 0 := by simpa using hm
    subst this
    simp [mojo_integer_loop]
  | succ room ih =>
    intro m i hm
    rw [mojo_integer_loop_succ]
    by_cases h : m = 0
    · subst h; simp
    · rw [if_neg h]
      cases i with
      | zero => simp [h]
      | succ j =>
        have hlt : m / 128 < 128 ^ room := by
          rw [Nat.div_lt_iff_lt_mul (by norm_num)]
          calc m < 128 ^ (room + 1) := hm
            _ = 128 ^ room * 128 := by ring
        have e1 : m / 128 / 128 ^ j = m / 128 ^ (j + 1) := by
          rw [Nat.div_div_eq_div_mul]; congr 1; ring
        have e2 : m / 128 / 128 ^ (j + 1) = m / 128 ^ (j + 1 + 1) := by
          rw [Nat.div_div_eq_div_mul]; congr 1; ring
        rw [List.getElem?_cons_succ, ih _ j hlt, e1, e2]

theorem div_64_div_128_pow (n j : Nat) : n / 64 / 128 ^ j = n / 2 ^ (6 + 7 * j) := by
  rw [Nat.div_div_eq_div_mul]
  congr 1
  rw [pow_add, pow_mul]
  norm_num

theorem mojo_integer_getElem?_zero (n : Nat) (s : Bool) :
    (mojo_integer n s)[0]? =
      some (n % 64 + (if s then 64 else 0) + (if n / 64 = 0 then 0 else 128)) := by
  rw [mojo_integer_eq, List.getElem?_cons_zero]

theorem mojo_integer_getElem?_succ (n : Nat) (s : Bool) (hn : n < 2 ^ 64) (j : Nat) :
    (mojo_integer n s)[j + 1]? =
      if n / 2 ^ (6 + 7 * j) = 0 then none
      else some (n / 2 ^ (6 + 7 * j) % 128 + if n / 2 ^ (6 + 7 * (j + 1)) = 0 then 0 else 128) := by
  have hlt : n / 64 < 128 ^ 15 := by
    have : n / 64 < 2 ^ 58 := by omega
    calc n / 64 < 2 ^ 58 := this
      _ ≤ 128 ^ 15 := by norm_num
  rw [mojo_integer_eq, List.getElem?_cons_succ, mojo_integer_loop_getElem? 15 _ j hlt,
    div_64_div_128_pow, div_64_div_128_pow]


theorem mojo_integer_length_pos (n : Nat) (s : Bool) : 0 < (mojo_integer n s).length := by
  rw [mojo_integer_eq]; simp

theorem mojo_integer_succ_lt_length (n : Nat) (s : Bool) (hn : n < 2 ^ 64) (j : Nat) :
    j + 1 < (mojo_integer n s).length ↔ n / 2 ^ (6 + 7 * j) ≠ 0 := by
  have h := mojo_integer_getElem?_succ n s hn j
  constructor
  · intro hlt hz
    rw [if_pos hz, List.getElem?_eq_none_iff] at h
    omega
  · intro hnz
    by_contra hge
    have : (mojo_integer n s)[j + 1]? = none := List.getElem?_eq_none_iff.mpr (by omega)
    rw [this, if_neg hnz] at h
    cases h

/-- C1: for every unsigned 64-bit integer `n` and every sign flag `s`, the bytes
written by `mojo_integer(n, s)` are not empty and fit the 16-byte buffer (at
most 10 bytes, each below 256); the low 6 bits of the first byte are the low
6 bits of `n`; bit 6 of the first byte is set iff `s` is set; the low 7 bits
of byte `i ≥ 1` are the bits `6 + 7 (i - 1) .. 5 + 7 i` of `n`; bit 7 is set
on every byte but the last; and byte `i + 1` exists iff the bits of `n` from
position `6 + 7 i` on are not all zero, so the bytes stop at the first one
after which no higher bit of `n` is set. -/
theorem mojo_integer_layout (n : Nat) (s : Bool) (hn : n < 2 ^ 64) :
    mojo_integer n s ≠ [] ∧
    (mojo_integer n s).length ≤ 10 ∧
    (∀ i, i < (mojo_integer n s).length → (mojo_integer n s).getD i 0 < 256) ∧
    (mojo_integer n s).getD 0 0 % 64 = n % 64 ∧
    ((mojo_integer n s).getD 0 0 / 64 % 2 = 1 ↔ s = true) ∧
    (∀ i, 1 ≤ i → i < (mojo_integer n s).length →
      (mojo_integer n s).getD i 0 % 128 = n / 2 ^ (6 + 7 * (i - 1)) % 128) ∧
    (∀ i, i < (mojo_integer n s).length →
      ((mojo_integer n s).getD i 0 / 128 % 2 = 1 ↔ i + 1 < (mojo_integer n s).length)) ∧
    (∀ i, i + 1 < (mojo_integer n s).length ↔ n / 2 ^ (6 + 7 * i) ≠ 0) := by
  have hpos := mojo_integer_length_pos n s
  have hlen := mojo_integer_succ_lt_length n s hn
  have h0 := mojo_integer_getElem?_zero n s
  have hS := mojo_integer_getElem?_succ n s hn
  have hD0 : (mojo_integer n s).getD 0 0 =
      n % 64 + (if s then 64 else 0) + (if n / 64 = 0 then 0 else 128) := by
    rw [List.getD_eq_getElem?_getD, h0]; rfl
  have hDS : ∀ j, j + 1 < (mojo_integer n s).length → (mojo_integer n s).getD (j + 1) 0 =
      n / 2 ^ (6 + 7 * j) % 128 + if n / 2 ^ (6 + 7 * (j + 1)) = 0 then 0 else 128 := by
    intro j hj
    rw [List.getD_eq_getElem?_getD, hS j, if_neg ((hlen j).mp hj)]; rfl
  have h64 : n / 64 = n / 2 ^ (6 + 7 * 0) := by norm_num
  refine ⟨?_, ?_, ?_, ?_, ?_, ?_, ?_, hlen⟩
  · intro h; rw [h] at hpos; simp at hpos
  · by_contra hgt
    have : 9 + 1 < (mojo_integer n s).length := by omega
    have := (hlen 9).mp this
    apply this
    apply Nat.div_eq_of_lt
    calc n < 2 ^ 64 := hn
      _ ≤ 2 ^ (6 + 7 * 9) := by norm_num
  · intro i hi
    cases i with
    | zero => rw [hD0]; split_ifs <;> omega
    | succ j => rw [hDS j hi]; split_ifs <;> omega
  · rw [hD0]; split_ifs <;> omega
  · rw [hD0]; cases s <;> simp <;> split_ifs <;> omega
  · intro i h1 hi
    obtain ⟨j, rfl⟩ : ∃ j, i = j + 1 := ⟨i - 1, by omega⟩
    rw [hDS j hi]
    simp only [Nat.add_sub_cancel]
    split_ifs <;> omega
  · intro i hi
    cases i with
    | zero =>
      rw [hD0, hlen 0, ← h64]
      cases s <;> simp <;> split_ifs <;> omega
    | succ j =>
      rw [hDS j hi, hlen (j + 1)]
      split_ifs with hz <;> simp [hz]


theorem mojo_integer_loop_zero (room : Nat) : mojo_integer_loop room 0 = [] := by
  cases room <;> simp [mojo_integer_loop]

theorem mojo_decode_loop_append (room : Nat) :
    ∀ (m : Nat) (rest : List Nat) (shift acc : Nat), m ≠ 0 → m < 128 ^ room →
      mojo_decode_loop (mojo_integer_loop room m ++ rest) shift acc
        = some (acc + m * 2 ^ shift, rest) := by
  induction room with
  | zero =>
    intro m rest shift acc h0 hm
    simp at hm
    exact absurd hm h0
  | succ room ih =>
    intro m rest shift acc h0 hm
    rw [mojo_integer_loop_succ, if_neg h0, List.cons_append, mojo_decode_loop]
    by_cases hz : m / 128 = 0
    · have hm128 : m % 128 = m := Nat.mod_eq_of_lt (by omega)
      simp [hz, mojo_integer_loop_zero, hm128]
    · have hlt : m / 128 < 128 ^ room := by
        rw [Nat.div_lt_iff_lt_mul (by norm_num)]
        calc m < 128 ^ (room + 1) := hm
          _ = 128 ^ room * 128 := by ring
      have hb : (m % 128 + 128) / 128 % 2 = 1 := by omega
      have hb2 : (m % 128 + 128) % 128 = m % 128 := by omega
      simp only [if_neg hz, hb, hb2, if_true]
      rw [ih (m / 128) rest (shift + 7) _ hz hlt]
      congr 2
      have := Nat.mod_add_div m 128
      calc acc + m % 128 * 2 ^ shift + m / 128 * 2 ^ (shift + 7)
          = acc + (m % 128 + 128 * (m / 128)) * 2 ^ shift := by ring
        _ = acc + m * 2 ^ shift := by rw [this]

theorem mojo_decode_mojo_integer (n : Nat) (s : Bool) (hn : n < 2 ^ 64) (rest : List Nat) :
    mojo_decode (mojo_integer n s ++ rest) = some (n, s, rest) := by
  have hlt : n / 64 < 128 ^ 15 := by
    have : n / 64 < 2 ^ 58 := by omega
    calc n / 64 < 2 ^ 58 := this
      _ ≤ 128 ^ 15 := by norm_num
  have hb : ∀ b, b = n % 64 + (if s then 64 else 0) + (if n / 64 = 0 then 0 else 128) →
      b % 64 = n % 64 ∧ (b / 64 % 2 = 1 ↔ s = true) ∧ (b / 128 % 2 = 1 ↔ n / 64 ≠ 0) := by
    intro b hb
    subst hb
    cases s <;> by_cases hz : n / 64 = 0 <;> simp [hz] <;> omega
  rw [mojo_integer_eq, List.cons_append]
  generalize n % 64 + (if s then 64 else 0) + (if n / 64 = 0 then 0 else 128) = b at hb
  obtain ⟨b1, b2, b3⟩ := hb b rfl
  rw [mojo_decode]
  simp only [b1, b2, b3]
  by_cases hz : n / 64 = 0
  · have h1 : n % 64 = n := Nat.mod_eq_of_lt (by omega)
    simp [hz, mojo_integer_loop_zero, h1]
  · have key : n % 64 + n / 64 * 2 ^ 6 = n := by
      have := Nat.mod_add_div n 64
      omega
    rw [if_pos hz, mojo_decode_loop_append 15 (n / 64) rest 6 _ hz hlt, key]
    simp

theorem mojo_integer_injective (n n' : Nat) (s s' : Bool) (hn : n < 2 ^ 64) (hn' : n' < 2 ^ 64)
    (h : mojo_integer n' s' = mojo_integer n s) : n' = n ∧ s' = s := by
  have h1 := mojo_decode_mojo_integer n s hn []
  have h2 := mojo_decode_mojo_integer n' s' hn' []
  rw [h, h1] at h2
  simp only [Option.some.injEq, Prod.mk.injEq, and_true] at h2
  exact ⟨h2.1.symm, h2.2.symm⟩

/-- C2: the encoding is invertible.  For every unsigned 64-bit magnitude `n` and
every sign `s`, the reader of the format applied to the bytes of
`mojo_integer(n, s)`, followed by any further bytes, returns `n`, `s` and
exactly those further bytes; hence two different pairs of magnitude and sign
never give the same bytes. -/
theorem mojo_integer_roundtrip (n : Nat) (s : Bool) (hn : n < 2 ^ 64) :
    (∀ rest, mojo_decode (mojo_integer n s ++ rest) = some (n, s, rest)) ∧
    (∀ n' s', n' < 2 ^ 64 → mojo_integer n' s' = mojo_integer n s → n' = n ∧ s' = s) :=
  ⟨mojo_decode_mojo_integer n s hn, fun n' s' hn' h => mojo_integer_injective n n' s s' hn hn' h⟩

theorem lru_cache__maybe_hit_mem {α : Type} (self : lru_cache_t α) (key : Nat) (v : α)
    (h : (lru_cache__maybe_hit self key).1 = some v) : ∃ k, (k, v) ∈ self.items := by
  unfold lru_cache__maybe_hit at h
  split at h
  · rename_i kv hfind
    simp only [Option.some.injEq] at h
    subst h
    exact ⟨kv.1, List.mem_of_find?_eq_some hfind⟩
  · simp at h

theorem lru_cache__maybe_hit_items {α : Type} (self : lru_cache_t α) (key : Nat) :
    ∀ kv ∈ (lru_cache__maybe_hit self key).2.items, kv ∈ self.items := by
  intro kv hkv
  unfold lru_cache__maybe_hit at hkv
  split at hkv
  · rename_i kv0 hfind
    simp only [List.mem_cons] at hkv
    rcases hkv with rfl | h
    · exact List.mem_of_find?_eq_some hfind
    · exact List.mem_of_mem_eraseP h
  · exact hkv

theorem lru_cache__store_items {α : Type} (self : lru_cache_t α) (key : Nat) (value : α) :
    ∀ kv ∈ (lru_cache__store self key value).items, kv = (key, value) ∨ kv ∈ self.items := by
  intro kv hkv
  unfold lru_cache__store at hkv
  simp only [List.mem_cons] at hkv
  rcases hkv with rfl | h
  · exact Or.inl rfl
  · right
    split at h
    · exact List.mem_of_mem_dropLast h
    · exact h

theorem code_string_lookup_events (mem : target_memory) (cache : lru_cache_t cached_string_t)
    (string_key : Nat) :
    ∀ e ∈ (code_string_lookup mem cache string_key).2.2, e.kind = MOJO_STRING := by
  intro e he
  unfold code_string_lookup at he
  split at he
  · simp at he
  · split at he
    · simp at he
    · simp only [mojo_event_handler__handle_new_string, List.mem_singleton] at he
      subst he
      rfl

theorem _code_remote_events (py_v : python_v) (mem : target_memory)
    (cache : lru_cache_t cached_string_t) (code_raddr : Nat) :
    ∀ e ∈ (_code_remote py_v mem cache code_raddr).2.2, e.kind = MOJO_STRING := by
  intro e he
  unfold _code_remote at he
  split at he
  · simp at he
  · rename_i code _
    have h1 := code_string_lookup_events mem cache code.o_filename
    rcases hf : code_string_lookup mem cache code.o_filename with ⟨_ | filename, cache1, ev1⟩
    · rw [hf] at he h1
      exact h1 e he
    · rw [hf] at he h1
      have h2 := code_string_lookup_events mem cache1
        (if V_MIN py_v 3 11 then code.o_qualname else code.o_name)
      simp only at he
      rcases hs : code_string_lookup mem cache1
        (if V_MIN py_v 3 11 then code.o_qualname else code.o_name) with ⟨_ | scope, cache2, ev2⟩
      · rw [hs] at he h2
        simp only [List.mem_append] at he
        rcases he with he | he
        · exact h1 e he
        · exact h2 e he
      · rw [hs] at he h2
        have he' : e ∈ ev1 ++ ev2 := by
          cases hb : mem.bytes_remote code.o_lnotab <;> rw [hb] at he <;> exact he
        simp only [List.mem_append] at he'
        rcases he' with he | he
        · exact h1 e he
        · exact h2 e he


theorem frame_remote_code_events (py_v : python_v) (mem : target_memory) (py_proc : py_proc_t)
    (code_raddr : Nat) :
    ∀ e ∈ (frame_remote_code py_v mem py_proc code_raddr).2.2, e.kind = MOJO_STRING := by
  intro e he
  unfold frame_remote_code at he
  split at he
  · simp at he
  · have h1 := _code_remote_events py_v mem py_proc.string_cache code_raddr
    rcases hc : _code_remote py_v mem py_proc.string_cache code_raddr with ⟨_ | code, sc, ev⟩
    · rw [hc] at he h1; exact h1 e he
    · rw [hc] at he h1; exact h1 e he

theorem frame_remote_code_frame_cache (py_v : python_v) (mem : target_memory)
    (py_proc : py_proc_t) (code_raddr : Nat) :
    (frame_remote_code py_v mem py_proc code_raddr).2.1.frame_cache = py_proc.frame_cache := by
  unfold frame_remote_code
  split
  · rfl
  · rcases hc : _code_remote py_v mem py_proc.string_cache code_raddr with ⟨_ | code, sc, ev⟩ <;> rfl

theorem _frame_remote_events (py_v : python_v) (locate : location_decoder) (mem : target_memory)
    (py_proc : py_proc_t) (code_raddr : Nat) (lasti : Int) :
    ∀ e ∈ (_frame_remote py_v locate mem py_proc code_raddr lasti).2.2, e.kind = MOJO_STRING := by
  intro e he
  have h1 := frame_remote_code_events py_v mem py_proc code_raddr
  unfold _frame_remote at he
  rcases hc : frame_remote_code py_v mem py_proc code_raddr with ⟨_ | code, p, ev⟩
  · rw [hc] at he h1; exact h1 e he
  · rw [hc] at he h1
    apply h1 e
    simp only at he
    split_ifs at he <;> exact he

theorem _frame_remote_frame_cache (py_v : python_v) (locate : location_decoder)
    (mem : target_memory) (py_proc : py_proc_t) (code_raddr : Nat) (lasti : Int) :
    (_frame_remote py_v locate mem py_proc code_raddr lasti).2.1.frame_cache
      = py_proc.frame_cache := by
  have h1 := frame_remote_code_frame_cache py_v mem py_proc code_raddr
  unfold _frame_remote
  rcases hc : frame_remote_code py_v mem py_proc code_raddr with ⟨_ | code, p, ev⟩
  · rw [hc] at h1; exact h1
  · rw [hc] at h1
    simp only
    split_ifs <;> exact h1


theorem frame_emitted_append_left (a b : List Event) (key : Nat) (h : frame_emitted a key) :
    frame_emitted (a ++ b) key := by
  obtain ⟨fk, sk, l, le, c, ce, hm⟩ := h
  exact ⟨fk, sk, l, le, c, ce, List.mem_append_left b hm⟩

theorem frame_emitted_new_frame (a : List Event) (frame : frame_t) :
    frame_emitted (a ++ mojo_event_handler__handle_new_frame frame) frame.key :=
  ⟨_, _, _, _, _, _, List.mem_append_right a (List.mem_singleton.mpr rfl)⟩

theorem _py_thread__resolve_py_stack_spec (py_v : python_v) (locate : location_decoder)
    (mem : target_memory) :
    ∀ (py_stack : List py_frame_t) (py_proc : py_proc_t) (out : List Event),
      (∀ kv ∈ py_proc.frame_cache.items, frame_emitted out kv.2.key) →
      (∀ kv ∈ (_py_thread__resolve_py_stack py_v locate mem py_stack py_proc).2.2.1.frame_cache.items,
          frame_emitted
            (out ++ (_py_thread__resolve_py_stack py_v locate mem py_stack py_proc).2.2.2)
            kv.2.key) ∧
      (∀ f ∈ (_py_thread__resolve_py_stack py_v locate mem py_stack py_proc).1,
          frame_emitted
            (out ++ (_py_thread__resolve_py_stack py_v locate mem py_stack py_proc).2.2.2)
            f.key) ∧
      (∀ e ∈ (_py_thread__resolve_py_stack py_v locate mem py_stack py_proc).2.2.2,
          e.kind = MOJO_STRING ∨ e.kind = MOJO_FRAME) := by
  intro py_stack
  induction py_stack with
  | nil =>
    intro py_proc out h
    simp only [_py_thread__resolve_py_stack, List.append_nil]
    exact ⟨h, by simp, by simp⟩
  | cons py_frame rest ih =>
    intro py_proc out h
    have hmem := lru_cache__maybe_hit_mem py_proc.frame_cache
      (py_frame_key py_frame.code py_frame.lasti)
    have hitems := lru_cache__maybe_hit_items py_proc.frame_cache
      (py_frame_key py_frame.code py_frame.lasti)
    rcases hh : lru_cache__maybe_hit py_proc.frame_cache
      (py_frame_key py_frame.code py_frame.lasti) with ⟨_ | frame, cache⟩
    · -- miss
      rw [hh] at hitems
      simp only [_py_thread__resolve_py_stack, hh] at hitems ⊢
      have hfc := _frame_remote_frame_cache py_v locate mem
        { py_proc with frame_cache := cache } py_frame.code py_frame.lasti
      have hev := _frame_remote_events py_v locate mem
        { py_proc with frame_cache := cache } py_frame.code py_frame.lasti
      rcases hf : _frame_remote py_v locate mem { py_proc with frame_cache := cache }
        py_frame.code py_frame.lasti with ⟨_ | frame, p1, ev1⟩
      · rw [hf] at hfc hev
        simp only at hfc hev ⊢
        refine ⟨?_, by simp, fun e he => Or.inl (hev e he)⟩
        intro kv hkv
        rw [hfc] at hkv
        exact frame_emitted_append_left _ _ _ (h kv (hitems kv hkv))
      · rw [hf] at hfc hev
        simp only at hfc hev ⊢
        have hcache : ∀ kv ∈ (lru_cache__store p1.frame_cache
            (py_frame_key py_frame.code py_frame.lasti) frame).items,
            frame_emitted (out ++ (ev1 ++ mojo_event_handler__handle_new_frame frame))
              kv.2.key := by
          intro kv hkv
          rcases lru_cache__store_items _ _ _ kv hkv with rfl | hin
          · rw [← List.append_assoc]
            exact frame_emitted_new_frame _ frame
          · rw [hfc] at hin
            exact frame_emitted_append_left _ _ _ (h kv (hitems kv hin))
        obtain ⟨i1, i2, i3⟩ := ih
          { p1 with frame_cache := (lru_cache__store p1.frame_cache
              (py_frame_key py_frame.code py_frame.lasti) frame) }
          (out ++ (ev1 ++ mojo_event_handler__handle_new_frame frame)) hcache
        simp only [List.append_assoc] at i1 i2 i3 ⊢
        refine ⟨i1, ?_, ?_⟩
        · intro f hf'
          rcases List.mem_cons.mp hf' with rfl | hin
          · have := frame_emitted_new_frame (out ++ ev1) f
            rw [List.append_assoc] at this
            have := frame_emitted_append_left _
              (_py_thread__resolve_py_stack py_v locate mem rest
                ⟨p1.pid, lru_cache__store p1.frame_cache
                  (py_frame_key py_frame.code py_frame.lasti) f, p1.string_cache,
                  p1.code_cache⟩).2.2.2 _ this
            simpa only [List.append_assoc] using this
          · exact i2 f hin
        · intro e he
          simp only [List.mem_append] at he
          rcases he with he | he | he
          · exact Or.inl (hev e he)
          · simp only [mojo_event_handler__handle_new_frame, List.mem_singleton] at he
            subst he
            exact Or.inr rfl
          · exact i3 e he
    · -- hit
      rw [hh] at hitems hmem
      simp only [_py_thread__resolve_py_stack, hh] at hitems hmem ⊢
      obtain ⟨i1, i2, i3⟩ := ih { py_proc with frame_cache := cache } out
        (fun kv hkv => h kv (hitems kv hkv))
      refine ⟨i1, ?_, i3⟩
      intro f hf'
      rcases List.mem_cons.mp hf' with rfl | hin
      · obtain ⟨k, hk⟩ := hmem f rfl
        exact frame_emitted_append_left _ _ _ (h _ hk)
      · exact i2 f hin


theorem frame_emitted_mono (a b : List Event) (key : Nat) (hab : ∀ e ∈ a, e ∈ b)
    (h : frame_emitted a key) : frame_emitted b key := by
  obtain ⟨fk, sk, l, le, c, ce, hm⟩ := h
  exact ⟨fk, sk, l, le, c, ce, hab _ hm⟩

theorem refs_have_frames_nil : refs_have_frames [] := by
  intro before key after h
  cases before <;> simp at h

theorem refs_have_frames_append (out events : List Event) (h : refs_have_frames out)
    (h2 : ∀ key, Event.FrameRef key ∈ events → frame_emitted out key) :
    refs_have_frames (out ++ events) := by
  intro before key after heq
  rcases List.append_eq_append_iff.mp heq with ⟨a, rfl, ha⟩ | ⟨c, hc, hc2⟩
  · apply frame_emitted_append_left
    apply h2
    rw [ha]
    simp
  · cases c with
    | nil =>
      simp only [List.append_nil, List.nil_append] at hc hc2
      subst hc
      apply h2
      rw [← hc2]
      simp
    | cons x c =>
      simp only [List.cons_append, List.cons.injEq] at hc2
      obtain ⟨rfl, _⟩ := hc2
      exact h before key c hc

theorem py_thread__unwind_spec (py_v : python_v) (locate : location_decoder)
    (mem : target_memory) (unwound : Option (List py_frame_t × Bool)) (stack : List frame_t)
    (py_proc : py_proc_t) (out : List Event)
    (hc : ∀ kv ∈ py_proc.frame_cache.items, frame_emitted out kv.2.key)
    (hs : ∀ f ∈ stack, frame_emitted out f.key) :
    (∀ kv ∈ (py_thread__unwind py_v locate mem unwound stack py_proc).2.1.frame_cache.items,
        frame_emitted (out ++ (py_thread__unwind py_v locate mem unwound stack py_proc).2.2.1)
          kv.2.key) ∧
    (∀ f ∈ (py_thread__unwind py_v locate mem unwound stack py_proc).1,
        frame_emitted (out ++ (py_thread__unwind py_v locate mem unwound stack py_proc).2.2.1)
          f.key) ∧
    (∀ e ∈ (py_thread__unwind py_v locate mem unwound stack py_proc).2.2.1,
        e.kind = MOJO_STRING ∨ e.kind = MOJO_FRAME) := by
  cases unwound with
  | none =>
    simp only [py_thread__unwind, List.append_nil]
    exact ⟨hc, hs, by simp⟩
  | some u =>
    obtain ⟨py_stack, unwind_failed⟩ := u
    simp only [py_thread__unwind]
    exact _py_thread__resolve_py_stack_spec py_v locate mem py_stack py_proc out hc

theorem handle_stack_end_eq (pargs : parsed_args_t) (sample_data : sample_t)
    (stack : List frame_t) :
    ∃ gc metrics,
      mojo_event_handler__handle_stack_end pargs sample_data stack
        = stack.reverse.map mojo_frame_ref ++ gc ++ metrics ∧
      (gc = [] ∨ gc = [Event.GC]) ∧ metrics ≠ [] ∧
      (∀ e ∈ metrics, e.kind ∈ metric_kinds) ∧
      (pargs.full = true → sample_data.is_idle = true → Event.Idle ∈ metrics) ∧
      (pargs.full = false → Event.Idle ∉ metrics) := by
  unfold mojo_event_handler__handle_stack_end
  refine ⟨_, _, rfl, ?_, ?_, ?_, ?_, ?_⟩
  · split_ifs <;> simp
  · split_ifs <;> simp
  · intro e he
    split_ifs at he <;> simp at he <;> rcases he with rfl | rfl | rfl <;>
      simp [Event.kind, metric_kinds]
  · intro hf hi
    simp [hf, hi]
  · intro hf
    simp [hf]
    split_ifs <;> simp

theorem sample_thread_events (pargs : parsed_args_t) (py_v : python_v)
    (locate : location_decoder) (mem : target_memory) (interp_id : Int) (time_delta : Nat)
    (obs : thread_obs) (self : sampler_t)
    (h : sample_skipped pargs time_delta obs = false) :
    ∃ resolved gc metrics,
      (sample_thread pargs py_v locate mem interp_id time_delta obs self).2
        = Event.StackBegin self.proc.pid interp_id obs.tid
            :: ((resolved ++ (py_thread__unwind py_v locate mem obs.unwound self.stack
                  self.proc).1.reverse.map mojo_frame_ref) ++ gc ++ metrics) ∧
      resolved = (py_thread__unwind py_v locate mem obs.unwound self.stack self.proc).2.2.1 ∧
      (gc = [] ∨ gc = [Event.GC]) ∧ metrics ≠ [] ∧
      (∀ e ∈ metrics, e.kind ∈ metric_kinds) ∧
      (pargs.full = true → sample_is_idle pargs obs = true → Event.Idle ∈ metrics) ∧
      (pargs.full = false → Event.Idle ∉ metrics) := by
  obtain ⟨gc, metrics, heq, hgc, hne, hk, hi1, hi2⟩ := handle_stack_end_eq pargs
    { pid := self.proc.pid, tid := obs.tid, iid := interp_id, time := time_delta,
      memory := sample_mem_delta pargs obs, is_idle := sample_is_idle pargs obs,
      gc_state := if pargs.gc then obs.gc_state else gc_state_t.GC_STATE_UNKNOWN }
    (py_thread__unwind py_v locate mem obs.unwound self.stack self.proc).1
  refine ⟨_, gc, metrics, ?_, rfl, hgc, hne, hk, hi1, hi2⟩
  simp only [sample_thread, h, Bool.false_eq_true, if_false, heq,
    mojo_event_handler__handle_stack_begin, List.singleton_append, List.cons_append,
    List.nil_append, List.append_assoc]


/-! ## The claims -/

/-- Witness of C1: the layout of `mojo_integer 300 true`, the bytes `0xec 0x04`. -/
theorem mojo_integer_layout_witness :
    300 < 2 ^ 64 ∧ mojo_integer 300 true = [0xec, 0x04] ∧ mojo_integer 300 true ≠ [] :=
  ⟨by decide, by decide, (mojo_integer_layout 300 true (by decide)).1⟩

/-- Witness of C2: the integer 300 with the sign set is read back, and the
bytes after it are left unread. -/
theorem mojo_integer_roundtrip_witness :
    300 < 2 ^ 64 ∧ mojo_decode (mojo_integer 300 true ++ [9, 9]) = some (300, true, [9, 9]) :=
  ⟨by decide, (mojo_integer_roundtrip 300 true (by decide)).1 [9, 9]⟩

theorem MOJO_INT32_and (k : Nat) : MOJO_INT32 &&& (k % 2 ^ 64) = k % 2 ^ 27 := by
  have h : MOJO_INT32 = 2 ^ 27 - 1 := by decide
  rw [h, Nat.and_comm, Nat.and_pow_two_sub_one_eq_mod]
  exact Nat.mod_mod_of_dvd k (by norm_num)

theorem mojo_ref_eq (k : Nat) : mojo_ref k = mojo_integer (k % 2 ^ 27) false := by
  rw [mojo_ref, MOJO_INT32_and]

theorem mojo_ref_length (k : Nat) : (mojo_ref k).length ≤ 4 := by
  rw [mojo_ref_eq]
  have hlt : k % 2 ^ 27 < 2 ^ 27 := Nat.mod_lt _ (by norm_num)
  by_contra hgt
  have h4 : 3 + 1 < (mojo_integer (k % 2 ^ 27) false).length := by omega
  have := (mojo_integer_succ_lt_length (k % 2 ^ 27) false (by omega) 3).mp h4
  apply this
  apply Nat.div_eq_of_lt
  calc k % 2 ^ 27 < 2 ^ 27 := hlt
    _ = 2 ^ (6 + 7 * 3) := by norm_num

theorem py_frame_key_lt (c : Nat) (l : Int) (h0 : 0 ≤ l) (h1 : l < 2 ^ 31) :
    py_frame_key c l < 2 ^ 43 := by
  unfold py_frame_key
  apply Nat.or_lt_two_pow
  · have h : MOJO_INT32 = 2 ^ 27 - 1 := by decide
    rw [h, Nat.and_pow_two_sub_one_eq_mod, Nat.shiftLeft_eq]
    have : c % 2 ^ 64 % 2 ^ 27 < 2 ^ 27 := Nat.mod_lt _ (by norm_num)
    have h2 : c % 2 ^ 64 % 2 ^ 27 * 2 ^ 16 < 2 ^ 43 := by omega
    exact lt_of_le_of_lt (Nat.mod_le _ _) h2
  · unfold to_key
    omega

/-- Counterexample to C3: the frame that `_frame_remote` builds for the code
object at `0x7f0012340000` and `lasti = 0` has the key `0x23400000000`, which
is not below `2 ^ 32`; its `FrameRef` event writes the variable-length
integer of that key, in seven bytes, and of no value below `2 ^ 32`. -/
theorem frame_ref_key_not_below_2_32 :
    ((_frame_remote example_version example_locate example_memory
        (sampler_new 42 4 4 4).proc 0x7f0012340000 0).1.map fun f => (mojo_frame_ref f).bytes)
      = some (mojo_event MOJO_FRAME_REF ++ mojo_integer 0x23400000000 false) ∧
    mojo_integer 0x23400000000 false = [0x80, 0x80, 0x80, 0x80, 0x80, 0x8d, 0x01] ∧
    ¬ ∃ v, v < 2 ^ 32 ∧
      mojo_event MOJO_FRAME_REF ++ mojo_integer v false
        = mojo_event MOJO_FRAME_REF ++ mojo_integer 0x23400000000 false := by
  refine ⟨by decide, by decide, ?_⟩
  rintro ⟨v, hv, h⟩
  have h2 : mojo_integer v false = mojo_integer 0x23400000000 false := by
    simpa [mojo_event] using h
  have := (mojo_integer_injective 0x23400000000 v false false (by norm_num) (by omega) h2).1
  omega

/-- C3, amended: the key of a `String` event and the file name and scope
references of a `Frame` event are written through `mojo_ref`, as the
variable-length integer of the key reduced to its low 27 bits (below `2 ^ 32`,
in at most four bytes); the key of a `Frame` and of a `FrameRef` event is
written in full, without a mask, and a key built by `py_frame_key` from a
non-negative `lasti` is below `2 ^ 43`. -/
theorem mojo_keys_written (string : cached_string_t) (frame : frame_t) (code : Nat)
    (lasti : Int) (h0 : 0 ≤ lasti) (h1 : lasti < 2 ^ 31) :
    (mojo_event_handler__handle_new_string string).flatMap Event.bytes
      = [MOJO_STRING] ++ mojo_integer (string.key % 2 ^ 27) false ++ string.value ++ [0] ∧
    (mojo_event_handler__handle_new_frame frame).flatMap Event.bytes
      = [MOJO_FRAME] ++ mojo_integer frame.key false
          ++ mojo_integer (frame.filename.key % 2 ^ 27) false
          ++ mojo_integer (frame.scope.key % 2 ^ 27) false
          ++ mojo_integer frame.line false ++ mojo_integer frame.line_end false
          ++ mojo_integer frame.column false ++ mojo_integer frame.column_end false ∧
    (mojo_frame_ref frame).bytes = [MOJO_FRAME_REF] ++ mojo_integer frame.key false ∧
    string.key % 2 ^ 27 < 2 ^ 32 ∧ frame.filename.key % 2 ^ 27 < 2 ^ 32 ∧
    frame.scope.key % 2 ^ 27 < 2 ^ 32 ∧
    (mojo_integer (string.key % 2 ^ 27) false).length ≤ 4 ∧
    py_frame_key code lasti < 2 ^ 43 := by
  have e1 := mojo_ref_eq string.key
  have e2 := mojo_ref_eq frame.filename.key
  have e3 := mojo_ref_eq frame.scope.key
  have l1 := mojo_ref_length string.key
  rw [e1] at l1
  have b1 : string.key % 2 ^ 27 < 2 ^ 27 := Nat.mod_lt _ (by norm_num)
  have b2 : frame.filename.key % 2 ^ 27 < 2 ^ 27 := Nat.mod_lt _ (by norm_num)
  have b3 : frame.scope.key % 2 ^ 27 < 2 ^ 27 := Nat.mod_lt _ (by norm_num)
  refine ⟨?_, ?_, ?_, by omega, by omega, by omega, l1, py_frame_key_lt code lasti h0 h1⟩
  · simp [mojo_event_handler__handle_new_string, Event.bytes, mojo_event, mojo_string, e1]
  · simp [mojo_event_handler__handle_new_frame, Event.bytes, mojo_event, e2, e3]
  · simp [mojo_frame_ref, Event.bytes, mojo_event]

/-- Witness of C3 (amended): the strings and the frame of the example target. -/
theorem mojo_keys_written_witness :
    (0 : Int) ≤ 5 ∧ (5 : Int) < 2 ^ 31 ∧ py_frame_key 0x7f0012340000 5 < 2 ^ 43 :=
  ⟨by decide, by decide,
    (mojo_keys_written ⟨0x7f0012350000, [97, 46, 112, 121]⟩
      ⟨0x23400000000, ⟨0x7f0012350000, [97, 46, 112, 121]⟩, ⟨0x7f0012360000, [102]⟩, 1, 0, 0, 0⟩
      0x7f0012340000 5 (by decide) (by decide)).2.2.2.2.2.2.2⟩

theorem mojo_metric_memory_arg (v : Int) (hlo : -2 ^ 63 ≤ v) (hhi : v < 2 ^ 63) :
    to_mojo_int (if v < 0 then wrap_ssize (-v) else v) = v.natAbs := by
  unfold to_mojo_int wrap_ssize
  split_ifs with h <;> omega

/-- C4: for every `ssize_t` value `v`, the `MetricMemory` event is the byte
`MOJO_METRIC_MEMORY` followed by `mojo_integer` of the absolute value of `v`
with the sign flag `v < 0`; bit 6 of the first byte of that integer is set
iff `v < 0`.  (At the least value of the type the negation wraps around.) -/
theorem mojo_metric_memory_bytes (v : Int) (hlo : -2 ^ 63 ≤ v) (hhi : v < 2 ^ 63) :
    (Event.MetricMemory v).bytes
      = MOJO_METRIC_MEMORY :: mojo_integer v.natAbs (decide (v < 0)) ∧
    v.natAbs < 2 ^ 64 ∧
    ((mojo_integer v.natAbs (decide (v < 0))).getD 0 0 / 64 % 2 = 1 ↔ v < 0) ∧
    mojo_decode (mojo_integer v.natAbs (decide (v < 0))) = some (v.natAbs, decide (v < 0), []) := by
  have hb : v.natAbs < 2 ^ 64 := by omega
  refine ⟨?_, hb, ?_, ?_⟩
  · simp only [Event.bytes, mojo_metric_memory, mojo_event, mojo_metric_memory_arg v hlo hhi,
      List.singleton_append]
  · rw [mojo_integer_eq]
    simp only [List.getD_cons_zero]
    by_cases h : v < 0 <;> simp [h] <;> split_ifs <;> omega
  · simpa using mojo_decode_mojo_integer v.natAbs (decide (v < 0)) hb []

/-- Witness of C4: a delta of `-5` bytes is written as `0x0a 0x45`. -/
theorem mojo_metric_memory_bytes_witness :
    (-2 : Int) ^ 63 ≤ -5 ∧ (-5 : Int) < 2 ^ 63 ∧
    (Event.MetricMemory (-5)).bytes = [0x0a, 0x45] ∧
    (Event.MetricMemory (-5)).bytes
      = MOJO_METRIC_MEMORY :: mojo_integer (-5 : Int).natAbs (decide ((-5 : Int) < 0)) :=
  ⟨by decide, by decide, by decide,
    (mojo_metric_memory_bytes (-5) (by decide) (by decide)).1⟩

/-- Counterexample to C5: for the code address `2 ^ 27` the key is `0`, while
the claimed value `((c AND (2 ^ 32 - 1)) << 16) OR l` is `2 ^ 43`. -/
theorem py_frame_key_not_32_bit_mask :
    py_frame_key (2 ^ 27) 0 = 0 ∧
    (((2 ^ 27 &&& (2 ^ 32 - 1)) <<< 16) ||| 0) = 2 ^ 43 ∧
    py_frame_key (2 ^ 27) 0 ≠ (((2 ^ 27 &&& (2 ^ 32 - 1)) <<< 16) ||| 0) := by
  decide

/-- C5, amended: the mask is `MOJO_INT32 = 2 ^ 27 - 1`, not `2 ^ 32 - 1`.  For
every code address `c` and every `int` value `l`, `py_frame_key(c, l)` is
`((c AND (2 ^ 27 - 1)) << 16) OR l`, with `l` converted to the 64-bit key
type; for `0 ≤ l < 2 ^ 16` the low 27 bits of the code address are the bits
16 to 42 of the key and `l` the bits below. -/
theorem py_frame_key_eq (c : Nat) (l : Int) (hc : c < 2 ^ 64) (hlo : -2 ^ 31 ≤ l)
    (hhi : l < 2 ^ 31) :
    py_frame_key c l = (((c &&& (2 ^ 27 - 1)) <<< 16) ||| (l % 2 ^ 64).toNat) ∧
    (0 ≤ l → l < 2 ^ 16 →
      py_frame_key c l = c % 2 ^ 27 * 2 ^ 16 + l.toNat ∧
      py_frame_key c l / 2 ^ 16 = c % 2 ^ 27 ∧ (py_frame_key c l % 2 ^ 16 : Nat) = l.toNat) := by
  have hm : MOJO_INT32 = 2 ^ 27 - 1 := by decide
  have hcm : c % 2 ^ 64 = c := Nat.mod_eq_of_lt hc
  have hb : c % 2 ^ 27 < 2 ^ 27 := Nat.mod_lt _ (by norm_num)
  have e1 : py_frame_key c l = (((c &&& (2 ^ 27 - 1)) <<< 16) ||| (l % 2 ^ 64).toNat) := by
    unfold py_frame_key to_key
    rw [hm, hcm, Nat.and_pow_two_sub_one_eq_mod, Nat.shiftLeft_eq]
    congr 1
    apply Nat.mod_eq_of_lt
    omega
  refine ⟨e1, ?_⟩
  intro h0 h16
  have hl : (l % 2 ^ 64).toNat = l.toNat := by omega
  have hl16 : l.toNat < 2 ^ 16 := by omega
  have e2 : py_frame_key c l = c % 2 ^ 27 * 2 ^ 16 + l.toNat := by
    rw [e1, hl, Nat.and_pow_two_sub_one_eq_mod, Nat.shiftLeft_eq, Nat.mul_comm,
      ← Nat.mul_add_lt_is_or hl16]
  refine ⟨e2, ?_, ?_⟩
  · rw [e2]; omega
  · rw [e2]; omega

/-- Witness of C5 (amended): the key of code address `0x7f0012345678` and
`lasti = 10`. -/
theorem py_frame_key_eq_witness :
    0x7f0012345678 < 2 ^ 64 ∧ (-2 : Int) ^ 31 ≤ 10 ∧ (10 : Int) < 2 ^ 31 ∧
    py_frame_key 0x7f0012345678 10 = 0x2345678000a ∧
    py_frame_key 0x7f0012345678 10
      = (((0x7f0012345678 &&& (2 ^ 27 - 1)) <<< 16) ||| ((10 : Int) % 2 ^ 64).toNat) :=
  ⟨by decide, by decide, by decide, by decide,
    (py_frame_key_eq 0x7f0012345678 10 (by decide) (by decide) (by decide)).1⟩

theorem py_thread__unwind_kinds (py_v : python_v) (locate : location_decoder)
    (mem : target_memory) (unwound : Option (List py_frame_t × Bool)) (stack : List frame_t)
    (py_proc : py_proc_t) :
    ∀ e ∈ (py_thread__unwind py_v locate mem unwound stack py_proc).2.2.1,
      e.kind = MOJO_STRING ∨ e.kind = MOJO_FRAME := by
  -- any stream in which the cached frames and the stack frames have been emitted will do
  have hc : ∀ kv ∈ py_proc.frame_cache.items,
      frame_emitted (py_proc.frame_cache.items.map (fun kv => Event.Frame kv.2.key 0 0 0 0 0 0)
        ++ stack.map (fun f => Event.Frame f.key 0 0 0 0 0 0)) kv.2.key := by
    intro kv hkv
    exact ⟨0, 0, 0, 0, 0, 0, List.mem_append_left _ (List.mem_map.mpr ⟨kv, hkv, rfl⟩)⟩
  have hs : ∀ f ∈ stack,
      frame_emitted (py_proc.frame_cache.items.map (fun kv => Event.Frame kv.2.key 0 0 0 0 0 0)
        ++ stack.map (fun f => Event.Frame f.key 0 0 0 0 0 0)) f.key := by
    intro f hf
    exact ⟨0, 0, 0, 0, 0, 0, List.mem_append_right _ (List.mem_map.mpr ⟨f, hf, rfl⟩)⟩
  exact (py_thread__unwind_spec py_v locate mem unwound stack py_proc _ hc hs).2.2

/-- Counterexample to C6: with no switch set, a thread of the example target
whose frame is seen for the first time gives the events `StackBegin`,
`String`, `String`, `Frame`, `FrameRef`, `MetricTime`; the two `String` events
are of none of the kinds that the claimed order allows. -/
theorem sample_order_broken_by_string :
    (sample_thread example_pargs example_version example_locate example_memory 0 100
        example_obs (sampler_new 42 4 4 4)).2 = example_first_sample ∧
    ¬ sample_order [MOJO_FRAME, MOJO_FRAME_REF, MOJO_FRAME_KERNEL]
        (sample_thread example_pargs example_version example_locate example_memory 0 100
          example_obs (sampler_new 42 4 4 4)).2 := by
  have h : (sample_thread example_pargs example_version example_locate example_memory 0 100
        example_obs (sampler_new 42 4 4 4)).2 = example_first_sample := by decide
  refine ⟨h, ?_⟩
  rw [h, example_first_sample]
  rintro ⟨pid, iid, tid, frames, gc, metrics, heq, hf, hgc, hne, hm⟩
  simp only [List.cons.injEq] at heq
  obtain ⟨-, heq⟩ := heq
  cases frames with
  | cons f fs =>
    simp only [List.cons_append, List.cons.injEq] at heq
    have := hf f (List.mem_cons_self _ _)
    rw [← heq.1] at this
    revert this
    decide
  | nil =>
    rcases hgc with rfl | rfl
    · cases metrics with
      | nil => exact hne rfl
      | cons m ms =>
        simp only [List.nil_append, List.cons.injEq] at heq
        have := hm m (List.mem_cons_self _ _)
        rw [← heq.1] at this
        revert this
        decide
    · simp at heq

/-- C6, amended: the events written for a sample are `StackBegin`, then zero or
more `String`, `Frame`, `FrameRef` or `FrameKernel` events (the `String` and
`Frame` events of the strings and frames seen for the first time, then the
`FrameRef` events of the stack), then at most one `GC`, then one or more of
`Idle`, `MetricTime` and `MetricMemory`, for every setting of the switches. -/
theorem sample_events_order (pargs : parsed_args_t) (py_v : python_v)
    (locate : location_decoder) (mem : target_memory) (interp_id : Int) (time_delta : Nat)
    (obs : thread_obs) (self : sampler_t)
    (h : sample_skipped pargs time_delta obs = false) :
    sample_order [MOJO_STRING, MOJO_FRAME, MOJO_FRAME_REF, MOJO_FRAME_KERNEL]
      (sample_thread pargs py_v locate mem interp_id time_delta obs self).2 := by
  obtain ⟨resolved, gc, metrics, heq, hres, hgc, hne, hk, -, -⟩ :=
    sample_thread_events pargs py_v locate mem interp_id time_delta obs self h
  have hu := py_thread__unwind_kinds py_v locate mem obs.unwound self.stack self.proc
  refine ⟨_, _, _, resolved ++ (py_thread__unwind py_v locate mem obs.unwound self.stack
    self.proc).1.reverse.map mojo_frame_ref, gc, metrics, heq, ?_, hgc, hne, hk⟩
  intro e he
  rcases List.mem_append.mp he with he | he
  · rw [hres] at he
    rcases hu e he with hk | hk <;> rw [hk] <;> decide
  · obtain ⟨f, -, rfl⟩ := List.mem_map.mp he
    simp [mojo_frame_ref, Event.kind]

/-- Witness of C6 (amended): the sample of the example target. -/
theorem sample_events_order_witness :
    sample_skipped example_pargs 100 example_obs = false ∧
    sample_order [MOJO_STRING, MOJO_FRAME, MOJO_FRAME_REF, MOJO_FRAME_KERNEL]
      (sample_thread example_pargs example_version example_locate example_memory 0 100
        example_obs (sampler_new 42 4 4 4)).2 :=
  ⟨by decide, sample_events_order example_pargs example_version example_locate example_memory
    0 100 example_obs (sampler_new 42 4 4 4) (by decide)⟩

theorem sampler_step_invariant (pargs : parsed_args_t) (py_v : python_v)
    (locate : location_decoder) (p : sampler_t × List Event) (step : sampler_step)
    (h : sampler_invariant p) : sampler_invariant (sampler_step.apply pargs py_v locate p step) := by
  obtain ⟨hc, hs, hr⟩ := h
  cases step with
  | invalidate =>
    refine ⟨?_, hs, hr⟩
    intro kv hkv
    simp [sampler_step.apply, lru_cache__invalidate] at hkv
  | metadata key value =>
    refine ⟨fun kv hkv => frame_emitted_append_left _ _ _ (hc kv hkv), hs, ?_⟩
    apply refs_have_frames_append _ _ hr
    intro k hk
    simp [mojo_event_handler__handle_metadata] at hk
  | sample mem interp_id time_delta obs =>
    simp only [sampler_step.apply]
    by_cases hskip : sample_skipped pargs time_delta obs = true
    · simp only [sample_thread, hskip, if_true, List.append_nil]
      exact ⟨hc, hs, hr⟩
    · have hskip : sample_skipped pargs time_delta obs = false := by
        simpa using hskip
      obtain ⟨resolved, gc, metrics, heq, hres, hgc, hne, hmk, -, -⟩ :=
        sample_thread_events pargs py_v locate mem interp_id time_delta obs p.1 hskip
      obtain ⟨u1, u2, u3⟩ := py_thread__unwind_spec py_v locate mem obs.unwound p.1.stack
        p.1.proc p.2 hc (by rw [hs]; simp)
      rw [← hres] at u1 u2 u3
      have hproc : (sample_thread pargs py_v locate mem interp_id time_delta obs p.1).1
          = { proc := (py_thread__unwind py_v locate mem obs.unwound p.1.stack p.1.proc).2.1,
              stack := [] } := by
        simp only [sample_thread, hskip, Bool.false_eq_true, if_false]
      rw [hproc, heq]
      have hsub : ∀ e ∈ p.2 ++ resolved,
          e ∈ p.2 ++ (Event.StackBegin p.1.proc.pid interp_id obs.tid :: resolved) := by
        intro e he
        rcases List.mem_append.mp he with he | he
        · exact List.mem_append_left _ he
        · exact List.mem_append_right _ (List.mem_cons_of_mem _ he)
      have hassoc : p.2 ++ Event.StackBegin p.1.proc.pid interp_id obs.tid ::
            ((resolved ++ (py_thread__unwind py_v locate mem obs.unwound p.1.stack
              p.1.proc).1.reverse.map mojo_frame_ref) ++ gc ++ metrics)
          = (p.2 ++ (Event.StackBegin p.1.proc.pid interp_id obs.tid :: resolved))
            ++ ((py_thread__unwind py_v locate mem obs.unwound p.1.stack
              p.1.proc).1.reverse.map mojo_frame_ref ++ gc ++ metrics) := by
        simp only [List.append_assoc, List.cons_append]
      rw [hassoc]
      refine ⟨?_, rfl, ?_⟩
      · intro kv hkv
        exact frame_emitted_append_left _ _ _ (frame_emitted_mono _ _ _ hsub (u1 kv hkv))
      · apply refs_have_frames_append
        · apply refs_have_frames_append _ _ hr
          intro k hk
          rcases List.mem_cons.mp hk with hk | hk
          · cases hk
          · rcases u3 _ hk with h | h <;>
              simp [Event.kind, MOJO_FRAME_REF, MOJO_STRING, MOJO_FRAME] at h
        · intro k hk
          rcases List.mem_append.mp hk with hk | hk
          · rcases List.mem_append.mp hk with hk | hk
            · obtain ⟨f, hf, hfk⟩ := List.mem_map.mp hk
              simp only [mojo_frame_ref, Event.FrameRef.injEq] at hfk
              subst hfk
              exact frame_emitted_mono _ _ _ hsub (u2 f (List.mem_reverse.mp hf))
            · rcases hgc with rfl | rfl
              · cases hk
              · simp at hk
          · have h := hmk _ hk
            simp [Event.kind, metric_kinds, MOJO_FRAME_REF, MOJO_IDLE, MOJO_METRIC_TIME,
              MOJO_METRIC_MEMORY] at h

theorem sampler_steps_invariant (pargs : parsed_args_t) (py_v : python_v)
    (locate : location_decoder) (steps : List sampler_step) :
    ∀ p : sampler_t × List Event, sampler_invariant p →
      sampler_invariant (steps.foldl (sampler_step.apply pargs py_v locate) p) := by
  induction steps with
  | nil => intro p h; exact h
  | cons step steps ih =>
    intro p h
    exact ih _ (sampler_step_invariant pargs py_v locate p step h)

/-- C7: in the output stream of any sequence of samples, cache invalidations and
metadata events, whatever the target memory, the switches, the version and
the capacities of the caches, every `FrameRef` event with key `k` comes
after a `Frame` event with the same key `k`. -/
theorem output_stream_frame_refs (pargs : parsed_args_t) (py_v : python_v)
    (locate : location_decoder) (pid : Int)
    (frame_capacity string_capacity code_capacity : Nat) (steps : List sampler_step)
    (before after : List Event) (key : Nat)
    (h : output_stream pargs py_v locate pid frame_capacity string_capacity code_capacity steps
      = before ++ Event.FrameRef key :: after) :
    ∃ filename_key scope_key line line_end column column_end,
      Event.Frame key filename_key scope_key line line_end column column_end ∈ before := by
  have hinit : sampler_invariant
      (sampler_new pid frame_capacity string_capacity code_capacity, []) :=
    ⟨by simp [sampler_new], rfl, refs_have_frames_nil⟩
  exact (sampler_steps_invariant pargs py_v locate steps _ hinit).2.2 before key after h

/-- Witness of C7: the example thread sampled twice, the caches invalidated,
and the thread sampled again; the last `FrameRef` comes after two `Frame`
events of its key. -/
theorem output_stream_frame_refs_witness :
    output_stream example_pargs example_version example_locate 42 4 4 4
        [.sample example_memory 0 100 example_obs, .sample example_memory 0 100 example_obs,
          .invalidate, .sample example_memory 0 100 example_obs]
      = (example_first_sample
          ++ [Event.StackBegin 42 0 7, Event.FrameRef 0x23400000000, Event.MetricTime 100,
              Event.StackBegin 42 0 7,
              Event.Frame 0x23400000000 0x7f0012350000 0x7f0012360000 1 0 0 0])
        ++ Event.FrameRef 0x23400000000 :: [Event.MetricTime 100] ∧
    ∃ filename_key scope_key line line_end column column_end,
      Event.Frame 0x23400000000 filename_key scope_key line line_end column column_end
        ∈ example_first_sample
          ++ [Event.StackBegin 42 0 7, Event.FrameRef 0x23400000000, Event.MetricTime 100,
              Event.StackBegin 42 0 7,
              Event.Frame 0x23400000000 0x7f0012350000 0x7f0012360000 1 0 0 0] :=
  ⟨by decide, output_stream_frame_refs example_pargs example_version example_locate 42 4 4 4
    [.sample example_memory 0 100 example_obs, .sample example_memory 0 100 example_obs,
      .invalidate, .sample example_memory 0 100 example_obs]
    (example_first_sample
      ++ [Event.StackBegin 42 0 7, Event.FrameRef 0x23400000000, Event.MetricTime 100,
          Event.StackBegin 42 0 7,
          Event.Frame 0x23400000000 0x7f0012350000 0x7f0012360000 1 0 0 0])
    [Event.MetricTime 100] 0x23400000000 (by decide)⟩

/-- Counterexample to C8: with no switch set (so `-s` is not set), the sample of
a thread that the operating system reports as idle is `StackBegin`, `String`,
`String`, `Frame`, `FrameRef`, `MetricTime`, with no `Idle` event. -/
theorem idle_thread_without_idle_event :
    example_pargs.cpu = false ∧ example_obs.is_idle = true ∧
    sample_skipped example_pargs 100 example_obs = false ∧
    Event.Idle ∉ (sample_thread example_pargs example_version example_locate example_memory
      0 100 example_obs (sampler_new 42 4 4 4)).2 := by
  decide

/-- C8, amended: the `Idle` event depends on the full switch (`-f`), not on the
CPU switch.  When `-f` is set, the sample emitted for a thread that the
operating system reports as idle contains an `Idle` event after its
`StackBegin`, and no other `StackBegin` before the end of the sample; when
`-f` is not set, no sample contains an `Idle` event. -/
theorem idle_event_iff_full (pargs : parsed_args_t) (py_v : python_v)
    (locate : location_decoder) (mem : target_memory) (interp_id : Int) (time_delta : Nat)
    (obs : thread_obs) (self : sampler_t)
    (h : sample_skipped pargs time_delta obs = false) :
    (pargs.full = true → obs.is_idle = true →
      ∃ pid iid tid rest,
        (sample_thread pargs py_v locate mem interp_id time_delta obs self).2
          = Event.StackBegin pid iid tid :: rest ∧
        Event.Idle ∈ rest ∧ ∀ e ∈ rest, e.kind ≠ MOJO_STACK) ∧
    (pargs.full = false →
      Event.Idle ∉ (sample_thread pargs py_v locate mem interp_id time_delta obs self).2) := by
  obtain ⟨resolved, gc, metrics, heq, hres, hgc, hne, hmk, hi1, hi2⟩ :=
    sample_thread_events pargs py_v locate mem interp_id time_delta obs self h
  have hu := py_thread__unwind_kinds py_v locate mem obs.unwound self.stack self.proc
  rw [← hres] at hu
  have hkinds : ∀ e ∈ (resolved ++ (py_thread__unwind py_v locate mem obs.unwound self.stack
      self.proc).1.reverse.map mojo_frame_ref) ++ gc ++ metrics,
      e.kind ≠ MOJO_STACK ∧ (e = Event.Idle → e ∈ metrics) := by
    intro e he
    rcases List.mem_append.mp he with he | he
    · rcases List.mem_append.mp he with he | he
      · rcases List.mem_append.mp he with he | he
        · have hk := hu e he
          constructor
          · rcases hk with hk | hk <;> rw [hk] <;> decide
          · rintro rfl
            rcases hk with hk | hk <;> exact absurd hk (by decide)
        · obtain ⟨f, -, rfl⟩ := List.mem_map.mp he
          exact ⟨by simp [mojo_frame_ref, Event.kind, MOJO_FRAME_REF, MOJO_STACK],
            by simp [mojo_frame_ref]⟩
      · rcases hgc with rfl | rfl
        · cases he
        · simp only [List.mem_singleton] at he
          subst he
          exact ⟨by decide, by simp⟩
    · refine ⟨?_, fun _ => he⟩
      have := hmk e he
      intro hk
      rw [hk] at this
      revert this
      decide
  constructor
  · intro hf hi
    refine ⟨_, _, _, _, heq, ?_, fun e he => (hkinds e he).1⟩
    apply List.mem_append_right
    apply hi1 hf
    simp [sample_is_idle, hf, hi]
  · intro hf hmem
    rw [heq] at hmem
    rcases List.mem_cons.mp hmem with hmem | hmem
    · cases hmem
    · exact hi2 hf ((hkinds _ hmem).2 rfl)

/-- Witness of C8 (amended): the idle thread of the example target under `-f`. -/
theorem idle_event_iff_full_witness :
    sample_skipped example_pargs_full 100 example_obs = false ∧
    example_pargs_full.full = true ∧ example_obs.is_idle = true ∧
    ∃ pid iid tid rest,
      (sample_thread example_pargs_full example_version example_locate example_memory 0 100
          example_obs (sampler_new 42 4 4 4)).2
        = Event.StackBegin pid iid tid :: rest ∧
      Event.Idle ∈ rest ∧ ∀ e ∈ rest, e.kind ≠ MOJO_STACK :=
  ⟨by decide, by decide, by decide,
    (idle_event_iff_full example_pargs_full example_version example_locate example_memory 0 100
      example_obs (sampler_new 42 4 4 4) (by decide)).1 (by decide) (by decide)⟩

/-- Counterexample to C9: the table marks `MEMCOPY` as fatal, so `is_fatal`
returns true for it. -/
theorem is_fatal_memcopy : is_fatal AUSTIN_EMEMCOPY = some true ∧ is_fatal AUSTIN_EMEMCOPY ≠ some false := by
  decide

/-- C9, amended: `is_fatal` returns true exactly for OS, Permission, MemoryCopy,
MemoryAllocation, IO, CommandLine, Environment, Null and Version, and false
for Value, Binary, PyObject, VmMaps, IterationEnd, for "no error" and for
every number from `MAXERROR` on. -/
theorem is_fatal_table (n : Int) (h : 0 ≤ n) :
    is_fatal n = some (decide (n ∈ [AUSTIN_EOS, AUSTIN_EPERM, AUSTIN_EMEMCOPY, AUSTIN_EMALLOC,
      AUSTIN_EIO, AUSTIN_ECMDLINE, AUSTIN_EENV, AUSTIN_ENULL, AUSTIN_EVERSION])) := by
  by_cases hlt : n < 15
  · interval_cases n <;> decide
  · have h15 : ¬ n < MAXERROR := hlt
    have hnot : n ∉ [AUSTIN_EOS, AUSTIN_EPERM, AUSTIN_EMEMCOPY, AUSTIN_EMALLOC,
        AUSTIN_EIO, AUSTIN_ECMDLINE, AUSTIN_EENV, AUSTIN_ENULL, AUSTIN_EVERSION] := by
      simp only [List.mem_cons, List.mem_singleton, List.not_mem_nil, or_false, AUSTIN_EOS,
        AUSTIN_EPERM, AUSTIN_EMEMCOPY, AUSTIN_EMALLOC, AUSTIN_EIO, AUSTIN_ECMDLINE,
        AUSTIN_EENV, AUSTIN_ENULL, AUSTIN_EVERSION]
      omega
    rw [is_fatal, if_neg h15, decide_eq_false hnot]

/-- Witness of C9 (amended): the PyObject error is not fatal. -/
theorem is_fatal_table_witness :
    (0 : Int) ≤ AUSTIN_EPYOBJECT ∧ is_fatal AUSTIN_EPYOBJECT = some false :=
  ⟨by decide, is_fatal_table AUSTIN_EPYOBJECT (by decide)⟩

/-- Counterexample to C10: a run that fails with a Version error and receives no
signal exits with code 10, the number of the error, not with 1. -/
theorem exit_code_is_error_number :
    main_exit_code 1 0 AUSTIN_EVERSION = 10 ∧ main_exit_code 1 0 AUSTIN_EVERSION ≠ 1 := by
  decide

/-- C10, amended: the exit code computed at the end of `main` is the negative of
the recorded signal whenever one was recorded (and the handler records
`SIGINT` and `SIGTERM`), 0 when the run succeeded and no signal was
recorded, and the content of the error slot `austin_errno` when the run
failed and no signal was recorded. -/
theorem main_exit_code_cases (austin_result interrupt_signal austin_errno signum : Int) :
    (interrupt_signal ≠ 0 →
      main_exit_code austin_result interrupt_signal austin_errno = -interrupt_signal) ∧
    (signum = SIGINT ∨ signum = SIGTERM →
      main_exit_code austin_result (signal_callback_handler interrupt_signal signum)
        austin_errno = -signum) ∧
    (interrupt_signal = 0 → austin_result = 0 →
      main_exit_code austin_result interrupt_signal austin_errno = 0) ∧
    (interrupt_signal = 0 → austin_result ≠ 0 →
      main_exit_code austin_result interrupt_signal austin_errno = austin_errno) := by
  refine ⟨?_, ?_, ?_, ?_⟩
  · intro h
    simp [main_exit_code, h]
  · intro h
    have hs : signal_callback_handler interrupt_signal signum = signum := by
      simp [signal_callback_handler, h]
    have hne : signum ≠ 0 := by
      rcases h with h | h <;> rw [h] <;> decide
    simp [main_exit_code, hs, hne]
  · intro h1 h2
    simp [main_exit_code, h1, h2, fail]
  · intro h1 h2
    simp [main_exit_code, h1, h2, fail]

/-- Witness of C10 (amended): a failed run interrupted by `SIGTERM` exits with
`-15`, a successful run with 0, and a run that failed with a Permission error
with 2. -/
theorem main_exit_code_cases_witness :
    main_exit_code 1 SIGTERM AUSTIN_EOS = -15 ∧
    main_exit_code 1 (signal_callback_handler 0 SIGTERM) AUSTIN_EOS = -SIGTERM ∧
    main_exit_code 0 0 AUSTIN_EOK = 0 ∧
    main_exit_code 1 0 AUSTIN_EPERM = AUSTIN_EPERM :=
  ⟨(main_exit_code_cases 1 SIGTERM AUSTIN_EOS SIGTERM).1 (by decide),
    (main_exit_code_cases 1 0 AUSTIN_EOS SIGTERM).2.1 (Or.inr rfl),
    (main_exit_code_cases 0 0 AUSTIN_EOK SIGTERM).2.2.1 rfl rfl,
    (main_exit_code_cases 1 0 AUSTIN_EPERM SIGTERM).2.2.2 rfl (by decide)⟩

/-! ### The code-location decoders -/

theorem lnotab_read_at (pre : List Nat) (b : Nat) (rest : List Nat) :
    lnotab_read (pre ++ b :: rest) pre.length = .ok b := by
  unfold lnotab_read
  rw [List.getElem?_append_right (le_refl _)]
  simp

theorem lnotab_read_lt {lnotab : List Nat} {i b : Nat} (h : lnotab_read lnotab i = .ok b) :
    i < lnotab.length := by
  unfold lnotab_read at h
  by_contra hlt
  rw [List.getElem?_eq_none (by omega)] at h
  simp at h

theorem lnotab_read_cases (lnotab : List Nat) (i : Nat) :
    lnotab_read lnotab i = .error .out_of_bounds ∨
      ∃ b, lnotab_read lnotab i = .ok b ∧ i < lnotab.length := by
  unfold lnotab_read
  cases h : lnotab[i]? with
  | none => left; rfl
  | some b =>
    right
    refine ⟨b, rfl, ?_⟩
    by_contra hlt
    rw [List.getElem?_eq_none (by omega)] at h
    simp at h

theorem is_varint_skip : ∀ (v rest : List Nat), is_varint v = true → skip_varint (v ++ rest) = some rest
  | [], _, h => by simp [is_varint] at h
  | b :: tl, rest, h => by
    simp only [is_varint] at h
    simp only [List.cons_append, skip_varint]
    split
    · rename_i hb
      rw [if_pos hb] at h
      exact is_varint_skip tl rest h
    · rename_i hb
      rw [if_neg hb] at h
      simp at h
      simp [h]

theorem skip_varint_split : ∀ (l r : List Nat), skip_varint l = some r →
    ∃ b tl, l = b :: tl ++ r ∧ is_varint (b :: tl) = true
  | [], _, h => by simp [skip_varint] at h
  | b :: rest, r, h => by
    simp only [skip_varint] at h
    split at h
    · rename_i hb
      obtain ⟨c, tl, hl, hv⟩ := skip_varint_split rest r h
      refine ⟨b, c :: tl, by simp [hl], ?_⟩
      simp only [is_varint] at hv ⊢
      rw [if_pos hb]
      exact hv
    · rename_i hb
      simp at h
      refine ⟨b, [], by simp [h], ?_⟩
      simp only [is_varint]
      rw [if_neg hb]
      rfl

/-- The loop of `_read_varint` over a complete integer `b :: tl`, entered at
the index of `b`. -/
theorem _read_varint_loop_spec : ∀ (tl : List Nat) (b : Nat) (pre rest : List Nat)
    (val shift fuel : Nat), is_varint (b :: tl) = true → tl.length < fuel →
    _read_varint_loop (pre ++ b :: tl ++ rest) fuel pre.length val shift =
      .ok (varint_bits val shift tl, pre.length + tl.length)
  | [], b, pre, rest, val, shift, fuel, hv, hf => by
    obtain ⟨fuel, rfl⟩ : ∃ n, fuel = n + 1 := ⟨fuel - 1, by omega⟩
    simp only [is_varint] at hv
    have hb : ¬ (b &&& 64 ≠ 0) := by
      intro hb
      rw [if_pos hb] at hv
      simp [is_varint] at hv
    have r1 : lnotab_read (pre ++ [b] ++ rest) pre.length = .ok b := by
      simpa using lnotab_read_at pre b rest
    simp only [_read_varint_loop, r1]
    rw [if_neg hb]
    simp [varint_bits]
  | c :: tl, b, pre, rest, val, shift, fuel, hv, hf => by
    obtain ⟨fuel, rfl⟩ : ∃ n, fuel = n + 1 := ⟨fuel - 1, by omega⟩
    simp only [is_varint] at hv
    have hb : b &&& 64 ≠ 0 := by
      intro hb
      simp [hb] at hv
    rw [if_pos hb] at hv
    have hv' : is_varint (c :: tl) = true := by simpa [is_varint] using hv
    have e : pre ++ b :: (c :: tl) ++ rest = (pre ++ [b]) ++ c :: tl ++ rest := by simp
    have r1 : lnotab_read (pre ++ b :: (c :: tl) ++ rest) pre.length = .ok b := by
      simpa using lnotab_read_at pre b (c :: tl ++ rest)
    have r2 : lnotab_read (pre ++ b :: (c :: tl) ++ rest) (pre.length + 1) = .ok c := by
      have := lnotab_read_at (pre ++ [b]) c (tl ++ rest)
      simpa using this
    simp only [_read_varint_loop, r1, r2]
    rw [if_pos hb]
    have ih := _read_varint_loop_spec tl c (pre ++ [b]) rest
      (val ||| ((c &&& 63) <<< (shift + 6))) (shift + 6) fuel hv' (by simpa using hf)
    rw [e]
    simp only [List.length_append, List.length_singleton] at ih
    rw [ih]
    simp [varint_bits]
    omega

/-- The function `_read_varint` on a complete integer `v` that starts right
after index `i`. -/
theorem _read_varint_spec (p v rest : List Nat) (i : Nat) (hp : p.length = i + 1)
    (hv : is_varint v = true) :
    _read_varint (p ++ v ++ rest) i = .ok (read_varint_value v, i + v.length) := by
  have hne : p ≠ [] := by
    intro h
    simp [h] at hp
  obtain ⟨pre, x, rfl⟩ : ∃ pre x, p = pre ++ [x] :=
    ⟨p.dropLast, p.getLast hne, (List.dropLast_append_getLast hne).symm⟩
  have hi : i = pre.length := by simpa using hp.symm
  subst hi
  cases v with
  | nil => simp [is_varint] at hv
  | cons b tl =>
    have r1 : lnotab_read (pre ++ [x] ++ b :: tl ++ rest) (pre.length + 1) = .ok b := by
      have := lnotab_read_at (pre ++ [x]) b (tl ++ rest)
      simpa using this
    have hl := _read_varint_loop_spec tl b (pre ++ [x]) rest (b &&& 63) 0
      ((pre ++ [x]) ++ b :: tl ++ rest).length hv (by simp; omega)
    simp only [_read_varint, r1]
    simp only [List.length_append, List.length_singleton] at hl
    simp only [List.length_append, List.length_singleton]
    rw [hl]
    simp [read_varint_value]
    omega

theorem _read_signed_varint_spec (p v rest : List Nat) (i : Nat) (hp : p.length = i + 1)
    (hv : is_varint v = true) :
    _read_signed_varint (p ++ v ++ rest) i = .ok (read_signed_varint_value v, i + v.length) := by
  simp only [_read_signed_varint, _read_varint_spec p v rest i hp hv, read_signed_varint_value]

theorem is_varint_length_pos {v : List Nat} (hv : is_varint v = true) : 0 < v.length := by
  cases v with
  | nil => simp [is_varint] at hv
  | cons b tl => simp

/-- A record with format code 15 reads no further byte. -/
theorem decode_311_record_15 (pre rest : List Nat) (first : Nat) (loc : location_t)
    (hf : (first >>> 3) &&& 15 = 15) :
    decode_311_record (pre ++ first :: rest) pre.length loc =
      .ok ((first &&& 7) + 1, pre.length, loc) := by
  simp only [decode_311_record, lnotab_read_at]
  rw [if_pos hf]

/-- A record with format code 13 reads one signed integer. -/
theorem decode_311_record_13 (pre v rest : List Nat) (first : Nat) (loc : location_t)
    (hf : (first >>> 3) &&& 15 = 13) (hv : is_varint v = true) :
    decode_311_record (pre ++ first :: (v ++ rest)) pre.length loc =
      .ok ((first &&& 7) + 1, pre.length + v.length,
        ⟨to_uint (loc.lineno + read_signed_varint_value v),
          to_uint (loc.lineno + read_signed_varint_value v), 0, 0⟩) := by
  have e : pre ++ first :: (v ++ rest) = (pre ++ [first]) ++ v ++ rest := by simp
  have r := _read_signed_varint_spec (pre ++ [first]) v rest pre.length (by simp) hv
  rw [← e] at r
  simp only [decode_311_record, lnotab_read_at, r, hf]
  simp

/-- A record with format code 14 reads four integers, the first one signed. -/
theorem decode_311_record_14 (pre v1 v2 v3 v4 rest : List Nat) (first : Nat) (loc : location_t)
    (hf : (first >>> 3) &&& 15 = 14) (h1 : is_varint v1 = true) (h2 : is_varint v2 = true)
    (h3 : is_varint v3 = true) (h4 : is_varint v4 = true) :
    decode_311_record (pre ++ first :: (v1 ++ v2 ++ v3 ++ v4 ++ rest)) pre.length loc =
      .ok ((first &&& 7) + 1, pre.length + v1.length + v2.length + v3.length + v4.length,
        ⟨to_uint (loc.lineno + read_signed_varint_value v1),
          to_uint (to_uint (loc.lineno + read_signed_varint_value v1) + read_varint_value v2),
          to_uint (read_varint_value v3), to_uint (read_varint_value v4)⟩) := by
  have e1 : pre ++ first :: (v1 ++ v2 ++ v3 ++ v4 ++ rest) =
      (pre ++ [first]) ++ v1 ++ (v2 ++ v3 ++ v4 ++ rest) := by simp
  have e2 : pre ++ first :: (v1 ++ v2 ++ v3 ++ v4 ++ rest) =
      (pre ++ [first] ++ v1) ++ v2 ++ (v3 ++ v4 ++ rest) := by simp
  have e3 : pre ++ first :: (v1 ++ v2 ++ v3 ++ v4 ++ rest) =
      (pre ++ [first] ++ v1 ++ v2) ++ v3 ++ (v4 ++ rest) := by simp
  have e4 : pre ++ first :: (v1 ++ v2 ++ v3 ++ v4 ++ rest) =
      (pre ++ [first] ++ v1 ++ v2 ++ v3) ++ v4 ++ rest := by simp
  have r1 := _read_signed_varint_spec (pre ++ [first]) v1 (v2 ++ v3 ++ v4 ++ rest) pre.length
    (by simp) h1
  have r2 := _read_varint_spec (pre ++ [first] ++ v1) v2 (v3 ++ v4 ++ rest)
    (pre.length + v1.length) (by simp; omega) h2
  have r3 := _read_varint_spec (pre ++ [first] ++ v1 ++ v2) v3 (v4 ++ rest)
    (pre.length + v1.length + v2.length) (by simp; omega) h3
  have r4 := _read_varint_spec (pre ++ [first] ++ v1 ++ v2 ++ v3) v4 rest
    (pre.length + v1.length + v2.length + v3.length) (by simp; omega) h4
  rw [← e1] at r1
  rw [← e2] at r2
  rw [← e3] at r3
  rw [← e4] at r4
  simp only [decode_311_record, lnotab_read_at, r1, r2, r3, r4, hf]
  simp

/-- A record with format code 10, 11 or 12 reads two bytes. -/
theorem decode_311_record_10_12 (pre rest : List Nat) (first b1 b2 : Nat) (loc : location_t)
    (hf : 10 ≤ (first >>> 3) &&& 15 ∧ (first >>> 3) &&& 15 ≤ 12) :
    decode_311_record (pre ++ first :: b1 :: b2 :: rest) pre.length loc =
      .ok ((first &&& 7) + 1, pre.length + 2,
        ⟨to_uint (loc.lineno + (((first >>> 3) &&& 15) - 10 : Nat)),
          to_uint (loc.lineno + (((first >>> 3) &&& 15) - 10 : Nat)), 1 + b1, 1 + b2⟩) := by
  have r1 : lnotab_read (pre ++ first :: b1 :: b2 :: rest) (pre.length + 1) = .ok b1 := by
    simpa using lnotab_read_at (pre ++ [first]) b1 (b2 :: rest)
  have r2 : lnotab_read (pre ++ first :: b1 :: b2 :: rest) (pre.length + 2) = .ok b2 := by
    simpa using lnotab_read_at (pre ++ [first, b1]) b2 rest
  simp only [decode_311_record, lnotab_read_at, r1, r2]
  rw [if_neg (by omega), if_neg (by omega), if_neg (by omega), if_pos (by omega)]

/-- A record with a format code below 10 reads one byte. -/
theorem decode_311_record_short (pre rest : List Nat) (first b : Nat) (loc : location_t)
    (hf : (first >>> 3) &&& 15 < 10) :
    decode_311_record (pre ++ first :: b :: rest) pre.length loc =
      .ok ((first &&& 7) + 1, pre.length + 1,
        ⟨loc.lineno, loc.lineno, 1 + (((first >>> 3) &&& 15) <<< 3) + ((b >>> 4) &&& 7),
          1 + (((first >>> 3) &&& 15) <<< 3) + ((b >>> 4) &&& 7) + (b &&& 15)⟩) := by
  have r1 : lnotab_read (pre ++ first :: b :: rest) (pre.length + 1) = .ok b := by
    simpa using lnotab_read_at (pre ++ [first]) b rest
  simp only [decode_311_record, lnotab_read_at, r1]
  rw [if_neg (by omega), if_neg (by omega), if_neg (by omega), if_neg (by omega)]

/-- A complete record is decoded without a read beyond its bytes. -/
theorem decode_311_record_complete (pre rest r : List Nat) (first : Nat) (loc : location_t)
    (h : skip_record ((first >>> 3) &&& 15) rest = some r) :
    ∃ mid n loc', rest = mid ++ r ∧
      decode_311_record (pre ++ first :: rest) pre.length loc =
        .ok (n, pre.length + mid.length, loc') := by
  unfold skip_record at h
  split at h
  · rename_i hf
    simp only [Option.some.injEq] at h
    subst h
    exact ⟨[], _, _, rfl, by simpa using decode_311_record_15 pre rest first loc hf⟩
  split at h
  · rename_i hf
    cases h1 : skip_varint rest with
    | none => simp [h1] at h
    | some r1 =>
      cases h2 : skip_varint r1 with
      | none => simp [h1, h2] at h
      | some r2 =>
        cases h3 : skip_varint r2 with
        | none => simp [h1, h2, h3] at h
        | some r3 =>
          simp only [h1, h2, h3, Option.some_bind] at h
          obtain ⟨b1, t1, e1, v1⟩ := skip_varint_split _ _ h1
          obtain ⟨b2, t2, e2, v2⟩ := skip_varint_split _ _ h2
          obtain ⟨b3, t3, e3, v3⟩ := skip_varint_split _ _ h3
          obtain ⟨b4, t4, e4, v4⟩ := skip_varint_split _ _ h
          have hthis := decode_311_record_14 pre (b1 :: t1) (b2 :: t2) (b3 :: t3) (b4 :: t4) r
            first loc hf v1 v2 v3 v4
          have erest : rest = (b1 :: t1) ++ (b2 :: t2) ++ (b3 :: t3) ++ (b4 :: t4) ++ r := by
            rw [e1, e2, e3, e4]
            simp
          have hlen : pre.length + ((b1 :: t1) ++ (b2 :: t2) ++ (b3 :: t3) ++ (b4 :: t4)).length =
              pre.length + (b1 :: t1).length + (b2 :: t2).length + (b3 :: t3).length
                + (b4 :: t4).length := by
            simp only [List.length_append]
            omega
          rw [← hlen, ← erest] at hthis
          exact ⟨_, _, _, erest, hthis⟩
  split at h
  · rename_i hf
    obtain ⟨b1, t1, e1, v1⟩ := skip_varint_split _ _ h
    have hthis := decode_311_record_13 pre (b1 :: t1) r first loc hf v1
    rw [← e1] at hthis
    exact ⟨b1 :: t1, _, _, e1, hthis⟩
  split at h
  · rename_i h15 h14 h13 h10
    have h12 : (first >>> 3) &&& 15 ≤ 12 := by
      have : (first >>> 3) &&& 15 ≤ 15 := Nat.and_le_right
      omega
    split at h
    · rename_i b1 b2 r'
      simp only [Option.some.injEq] at h
      subst h
      exact ⟨[b1, b2], _, _, rfl, decode_311_record_10_12 pre r' first b1 b2 loc ⟨h10, h12⟩⟩
    · simp at h
  · rename_i h10
    split at h
    · rename_i b r'
      simp only [Option.some.injEq] at h
      subst h
      exact ⟨[b], _, _, rfl, decode_311_record_short pre r' first b loc (by omega)⟩
    · simp at h

/-- On a table of complete records the 3.11 loop ends with a location. -/
theorem decode_311_loop_complete (lasti : Int) : ∀ (fuel n : Nat) (pre rest : List Nat) (bc : Nat)
    (loc : location_t), well_formed_311_records n rest = true → rest.length < fuel →
    ∃ loc', decode_311_loop (pre ++ rest) lasti fuel pre.length bc loc = .ok loc'
  | 0, _, _, _, _, _, _, hf => by omega
  | fuel + 1, n, pre, [], bc, loc, _, _ => by
    simp [decode_311_loop]
  | fuel + 1, 0, pre, first :: rest, bc, loc, hw, _ => by
    simp [well_formed_311_records] at hw
  | fuel + 1, n + 1, pre, first :: rest, bc, loc, hw, hf => by
    simp only [well_formed_311_records] at hw
    cases hs : skip_record ((first >>> 3) &&& 15) rest with
    | none => simp [hs] at hw
    | some r =>
      rw [hs] at hw
      obtain ⟨mid, m, loc', e, hr⟩ := decode_311_record_complete pre rest r first loc hs
      have hlt : pre.length < (pre ++ first :: rest).length := by simp
      simp only [decode_311_loop, hr]
      rw [if_pos hlt]
      by_cases hbc : bc + m > to_size_t lasti
      · rw [if_pos hbc]
        exact ⟨_, rfl⟩
      · rw [if_neg hbc]
        have hlen : r.length < fuel := by
          have : rest.length = mid.length + r.length := by rw [e]; simp
          simp only [List.length_cons] at hf
          omega
        obtain ⟨loc'', h⟩ := decode_311_loop_complete lasti fuel n (pre ++ first :: mid) r
          (bc + m) loc' hw hlen
        refine ⟨loc'', ?_⟩
        have e' : pre ++ first :: rest = (pre ++ first :: mid) ++ r := by rw [e]; simp
        rw [e']
        simpa [Nat.add_assoc] using h

/-- On a table of pairs the 3.10 loop ends with a line number. -/
theorem decode_310_loop_complete (lasti : Int) : ∀ (fuel : Nat) (pre rest : List Nat) (bc : Int)
    (lineno : Nat), rest.length % 2 = 0 → rest.length < fuel →
    ∃ l, decode_310_loop (pre ++ rest) lasti fuel pre.length bc lineno = .ok l
  | 0, _, _, _, _, _, hf => by omega
  | fuel + 1, pre, [], bc, lineno, _, _ => by
    simp [decode_310_loop]
  | fuel + 1, pre, [a], bc, lineno, he, _ => by
    simp at he
  | fuel + 1, pre, sdelta :: ldelta :: rest, bc, lineno, he, hf => by
    have hlt : pre.length < (pre ++ sdelta :: ldelta :: rest).length := by simp
    have r2 : lnotab_read (pre ++ sdelta :: ldelta :: rest) (pre.length + 1) = .ok ldelta := by
      simpa using lnotab_read_at (pre ++ [sdelta]) ldelta rest
    simp only [decode_310_loop, lnotab_read_at, r2]
    rw [if_pos hlt]
    split
    · exact ⟨_, rfl⟩
    split
    · exact ⟨_, rfl⟩
    · obtain ⟨l, h⟩ := decode_310_loop_complete lasti fuel (pre ++ [sdelta, ldelta]) rest
        (wrap_int (bc + sdelta))
        (if ldelta = 0x80 then lineno
          else if ldelta > 0x80 then to_uint ((to_uint (lineno - 0x100) : Int) + ldelta)
          else to_uint (lineno + ldelta))
        (by simp only [List.length_cons] at he; omega)
        (by simp only [List.length_cons] at hf; omega)
      refine ⟨l, ?_⟩
      have e' : pre ++ sdelta :: ldelta :: rest = (pre ++ [sdelta, ldelta]) ++ rest := by simp
      rw [e']
      simpa using h

/-- On a table of pairs the loop for Python below 3.10 ends with a line
number. -/
theorem decode_pre_310_loop_complete (lasti : Int) : ∀ (fuel : Nat) (pre rest : List Nat)
    (bc : Int) (lineno : Nat), rest.length % 2 = 0 → rest.length < fuel →
    ∃ l, decode_pre_310_loop (pre ++ rest) lasti fuel pre.length bc lineno = .ok l
  | 0, _, _, _, _, _, hf => by omega
  | fuel + 1, pre, [], bc, lineno, _, _ => by
    simp [decode_pre_310_loop]
  | fuel + 1, pre, [a], bc, lineno, he, _ => by
    simp at he
  | fuel + 1, pre, sdelta :: ldelta :: rest, bc, lineno, he, hf => by
    have hlt : pre.length < (pre ++ sdelta :: ldelta :: rest).length := by simp
    have r2 : lnotab_read (pre ++ sdelta :: ldelta :: rest) (pre.length + 1) = .ok ldelta := by
      simpa using lnotab_read_at (pre ++ [sdelta]) ldelta rest
    simp only [decode_pre_310_loop, lnotab_read_at, r2]
    rw [if_pos hlt]
    split
    · exact ⟨_, rfl⟩
    · obtain ⟨l, h⟩ := decode_pre_310_loop_complete lasti fuel (pre ++ [sdelta, ldelta]) rest
        (wrap_int (bc + sdelta))
        (to_uint (((if ldelta ≥ 0x80 then to_uint (lineno - 0x100) else lineno : Nat) : Int)
          + ldelta))
        (by simp only [List.length_cons] at he; omega)
        (by simp only [List.length_cons] at hf; omega)
      refine ⟨l, ?_⟩
      have e' : pre ++ sdelta :: ldelta :: rest = (pre ++ [sdelta, ldelta]) ++ rest := by simp
      rw [e']
      simpa using h

theorem varint_value_lt : ∀ (v : List Nat), varint_value v < 64 ^ v.length
  | [] => by simp [varint_value]
  | b :: rest => by
    have ih := varint_value_lt rest
    have hb : b % 64 < 64 := Nat.mod_lt _ (by decide)
    simp only [varint_value, List.length_cons, pow_succ]
    omega

theorem varint_bits_eq : ∀ (tl : List Nat) (val shift : Nat), val < 2 ^ (shift + 6) →
    varint_bits val shift tl = val + 2 ^ (shift + 6) * varint_value tl
  | [], val, shift, _ => by simp [varint_bits, varint_value]
  | c :: tl, val, shift, h => by
    have hc : c % 64 < 64 := Nat.mod_lt _ (by decide)
    have e : val ||| ((c &&& 63) <<< (shift + 6)) = 2 ^ (shift + 6) * (c % 64) + val := by
      rw [Nat.mul_add_lt_is_or h, Nat.lor_comm, Nat.shiftLeft_eq, and_63, Nat.mul_comm]
    have hlt : 2 ^ (shift + 6) * (c % 64) + val < 2 ^ (shift + 6 + 6) := by
      have : 2 ^ (shift + 6 + 6) = 2 ^ (shift + 6) * 64 := by rw [pow_add]; norm_num
      rw [this]
      calc 2 ^ (shift + 6) * (c % 64) + val
          < 2 ^ (shift + 6) * (c % 64) + 2 ^ (shift + 6) := by omega
        _ = 2 ^ (shift + 6) * (c % 64 + 1) := by ring
        _ ≤ 2 ^ (shift + 6) * 64 := Nat.mul_le_mul_left _ (by omega)
    simp only [varint_bits, varint_value]
    rw [e, varint_bits_eq tl _ _ hlt]
    have : 2 ^ (shift + 6 + 6) = 2 ^ (shift + 6) * 64 := by rw [pow_add]; norm_num
    rw [this]
    ring

/-- For an integer of at most five bytes, whose value fits an `int`,
`_read_varint` returns the value of the specification. -/
theorem read_varint_value_eq (v : List Nat) (h : v.length ≤ 5) :
    read_varint_value v = varint_value v := by
  cases v with
  | nil => simp [read_varint_value, varint_value]
  | cons b tl =>
    have hb : b % 64 < 64 := Nat.mod_lt _ (by decide)
    have hpow : 64 ^ (b :: tl).length ≤ 64 ^ 5 := Nat.pow_le_pow_right (by decide) h
    have hlt : b % 64 + 64 * varint_value tl < 1073741824 :=
      lt_of_lt_of_le (varint_value_lt (b :: tl)) (le_trans hpow (by norm_num))
    simp only [read_varint_value]
    rw [varint_bits_eq tl _ 0 (by rw [and_63]; simpa using hb), and_63]
    simp only [varint_value]
    unfold wrap_int
    norm_num
    omega

theorem read_signed_varint_value_eq (v : List Nat) (h : v.length ≤ 5) :
    read_signed_varint_value v = zigzag (varint_value v) := by
  unfold read_signed_varint_value zigzag
  rw [read_varint_value_eq v h]
  split <;> split <;> omega

/-- The 3.10 loop computes the line of the specification, with 0x80 counted
as 0, as long as `bc` does not overflow. -/
theorem decode_310_loop_spec (limit : Int) : ∀ (fuel : Nat) (pre rest : List Nat) (bc : Int)
    (lineno : Nat) (line : Int), (∀ b ∈ rest, b < 256) → rest.length % 2 = 0 →
    rest.length < fuel → 0 ≤ bc → bc + 128 * rest.length < 2 ^ 31 → lineno = to_uint line →
    decode_310_loop (pre ++ rest) limit fuel pre.length bc lineno =
      .ok (to_uint (line_310 ldelta_310 rest bc limit line))
  | 0, _, _, _, _, _, _, _, hf, _, _, _ => by omega
  | fuel + 1, pre, [], bc, lineno, line, _, _, _, _, _, hl => by
    simp [decode_310_loop, line_310, hl]
  | fuel + 1, pre, [a], bc, lineno, line, _, he, _, _, _, _ => by
    simp at he
  | fuel + 1, pre, sdelta :: ldelta :: rest, bc, lineno, line, hb, he, hf, h0, hbc, hl => by
    have hlt : pre.length < (pre ++ sdelta :: ldelta :: rest).length := by simp
    have r2 : lnotab_read (pre ++ sdelta :: ldelta :: rest) (pre.length + 1) = .ok ldelta := by
      simpa using lnotab_read_at (pre ++ [sdelta]) ldelta rest
    have hs : sdelta < 256 := hb sdelta (by simp)
    simp only [List.length_cons] at hbc hf he
    have hw : wrap_int (bc + sdelta) = bc + sdelta := by
      unfold wrap_int
      push_cast at hbc
      omega
    have hline : (if ldelta = 0x80 then lineno
        else if ldelta > 0x80 then to_uint ((to_uint (lineno - 0x100) : Int) + ldelta)
        else to_uint (lineno + ldelta)) = to_uint (line + ldelta_310 ldelta) := by
      subst hl
      unfold ldelta_310 to_uint
      split
      · omega
      split <;> omega
    simp only [decode_310_loop, lnotab_read_at, r2, line_310, hw, hline]
    rw [if_pos hlt]
    by_cases hff : sdelta = 0xff
    · rw [if_pos hff, if_pos hff, hl]
    · rw [if_neg hff, if_neg hff]
      by_cases hgt : bc + sdelta > limit
      · rw [if_pos hgt, if_pos hgt]
      · rw [if_neg hgt, if_neg hgt]
        have ih := decode_310_loop_spec limit fuel (pre ++ [sdelta, ldelta]) rest (bc + sdelta)
          (to_uint (line + ldelta_310 ldelta)) (line + ldelta_310 ldelta)
          (fun b hm => hb b (by simp [hm])) (by omega) (by omega) (by omega)
          (by push_cast at hbc ⊢; omega) rfl
        have e' : pre ++ sdelta :: ldelta :: rest = (pre ++ [sdelta, ldelta]) ++ rest := by simp
        rw [e']
        simpa using ih

/-- The loop for Python below 3.10 computes the line of the specification as
long as `bc` does not overflow. -/
theorem decode_pre_310_loop_spec (limit : Int) : ∀ (fuel : Nat) (pre rest : List Nat) (bc : Int)
    (lineno : Nat) (line : Int), (∀ b ∈ rest, b < 256) → rest.length % 2 = 0 →
    rest.length < fuel → 0 ≤ bc → bc + 128 * rest.length < 2 ^ 31 → lineno = to_uint line →
    decode_pre_310_loop (pre ++ rest) limit fuel pre.length bc lineno =
      .ok (to_uint (line_pre_310 rest bc limit line))
  | 0, _, _, _, _, _, _, _, hf, _, _, _ => by omega
  | fuel + 1, pre, [], bc, lineno, line, _, _, _, _, _, hl => by
    simp [decode_pre_310_loop, line_pre_310, hl]
  | fuel + 1, pre, [a], bc, lineno, line, _, he, _, _, _, _ => by
    simp at he
  | fuel + 1, pre, sdelta :: ldelta :: rest, bc, lineno, line, hb, he, hf, h0, hbc, hl => by
    have hlt : pre.length < (pre ++ sdelta :: ldelta :: rest).length := by simp
    have r2 : lnotab_read (pre ++ sdelta :: ldelta :: rest) (pre.length + 1) = .ok ldelta := by
      simpa using lnotab_read_at (pre ++ [sdelta]) ldelta rest
    have hs : sdelta < 256 := hb sdelta (by simp)
    simp only [List.length_cons] at hbc hf he
    have hw : wrap_int (bc + sdelta) = bc + sdelta := by
      unfold wrap_int
      push_cast at hbc
      omega
    have hline : to_uint (((if ldelta ≥ 0x80 then to_uint (lineno - 0x100) else lineno : Nat) : Int)
        + ldelta) = to_uint (line + ldelta_signed ldelta) := by
      subst hl
      unfold ldelta_signed to_uint
      split <;> omega
    simp only [decode_pre_310_loop, lnotab_read_at, r2, line_pre_310, hw, hline]
    rw [if_pos hlt]
    by_cases hgt : bc + sdelta > limit
    · rw [if_pos hgt, if_pos hgt, hl]
    · rw [if_neg hgt, if_neg hgt]
      have ih := decode_pre_310_loop_spec limit fuel (pre ++ [sdelta, ldelta]) rest (bc + sdelta)
        (to_uint (line + ldelta_signed ldelta)) (line + ldelta_signed ldelta)
        (fun b hm => hb b (by simp [hm])) (by omega) (by omega) (by omega)
        (by push_cast at hbc ⊢; omega) rfl
      have e' : pre ++ sdelta :: ldelta :: rest = (pre ++ [sdelta, ldelta]) ++ rest := by simp
      rw [e']
      simpa using ih

theorem line_310_eq_pre : ∀ (t : List Nat) (bc limit line : Int), plain_pairs t = true →
    line_310 ldelta_310 t bc limit line =
      line_pre_310 t bc limit line + exceeding_ldelta t bc limit
  | [], _, _, _, _ => by simp [line_310, line_pre_310, exceeding_ldelta]
  | [_], _, _, _, _ => by simp [line_310, line_pre_310, exceeding_ldelta]
  | sdelta :: ldelta :: rest, bc, limit, line, hp => by
    simp only [plain_pairs, Bool.and_eq_true, decide_eq_true_eq] at hp
    obtain ⟨⟨hs, hl⟩, hr⟩ := hp
    have hd : ldelta_310 ldelta = ldelta_signed ldelta := by
      unfold ldelta_310 ldelta_signed
      rw [if_neg hl]
      split <;> split <;> omega
    simp only [line_310, line_pre_310, exceeding_ldelta]
    rw [if_neg hs]
    by_cases hgt : bc + sdelta > limit
    · rw [if_pos hgt, if_pos hgt, if_pos hgt, hd]
    · rw [if_neg hgt, if_neg hgt, if_neg hgt, hd]
      exact line_310_eq_pre rest _ _ _ hr

/-- C11: code-location decoding is total on well-formed tables.  For every
version dialect, every line table in which every record has all the bytes
its format requires and every `lasti`, the decoding loop of `_frame_remote`
ends with a location: it is not cut short and it reads no index at or beyond
the length of the table. -/
theorem decode_location_total (py_v : python_v) (lnotab : List Nat) (first_line_number : Nat)
    (lasti : Int) (h : well_formed py_v lnotab = true) :
    ∃ loc, decode_location py_v lnotab first_line_number lasti = .ok loc := by
  unfold well_formed at h
  unfold decode_location
  by_cases h11 : V_MIN py_v 3 11 = true
  · rw [if_pos h11] at h ⊢
    have := decode_311_loop_complete lasti (lnotab.length + 1) lnotab.length [] lnotab 0
      ⟨first_line_number, 0, 0, 0⟩ h (by omega)
    simpa [decode_311] using this
  · rw [if_neg h11] at h ⊢
    have he : lnotab.length % 2 = 0 := by simpa using h
    by_cases h10 : V_MIN py_v 3 10 = true
    · rw [if_pos h10]
      obtain ⟨l, hl⟩ := decode_310_loop_complete (wrap_int (lasti * 2)) (lnotab.length + 1) []
        lnotab 0 first_line_number he (by omega)
      have : decode_310 lnotab first_line_number lasti = .ok l := by
        simpa [decode_310] using hl
      rw [this]
      exact ⟨_, rfl⟩
    · rw [if_neg h10]
      obtain ⟨l, hl⟩ := decode_pre_310_loop_complete lasti (lnotab.length + 1) []
        lnotab 0 first_line_number he (by omega)
      have : decode_pre_310 lnotab first_line_number lasti = .ok l := by
        simpa [decode_pre_310] using hl
      rw [this]
      exact ⟨_, rfl⟩

theorem decode_location_total_witness :
    well_formed ⟨3, 11⟩ [0xe8, 0x02, 0x0a, 0x35] = true ∧
      ∃ loc, decode_location ⟨3, 11⟩ [0xe8, 0x02, 0x0a, 0x35] 10 1 = .ok loc :=
  ⟨by decide, decode_location_total ⟨3, 11⟩ [0xe8, 0x02, 0x0a, 0x35] 10 1 (by decide)⟩

/-- C17: for CPython 3.11+ each record of the location table is decoded by its
format code `f = (first byte >> 3) AND 15`.  With `f = 15` no further byte
is read and the location is kept; with `f = 14` four variable-length
integers are read (the signed line delta, the span that is added to the new
line to give `line_end`, the column and the end column); with `f = 13` one
signed line delta is read, `line_end` is the line and both columns are 0;
with `f` in 10..12 the line grows by `f - 10` and two bytes give
`column - 1` and `column_end - 1`; with every other `f` one byte `b` is
read, the line is kept, `column = 1 + (f << 3) + ((b >> 4) AND 7)` and
`column_end = column + (b AND 15)`.  The integers have 6 data bits in each
byte with bit 6 as continuation, the signed one has its sign in the least
significant bit; they are taken of at most five bytes, so that the value
fits an `int`, and lines are `unsigned int`. -/
theorem decode_311_record_formats (pre : List Nat) (first : Nat) (loc : location_t) :
    (∀ rest, (first >>> 3) &&& 15 = 15 →
      decode_311_record (pre ++ first :: rest) pre.length loc =
        .ok ((first &&& 7) + 1, pre.length, loc)) ∧
    (∀ v1 v2 v3 v4 rest, (first >>> 3) &&& 15 = 14 →
      is_varint v1 = true → is_varint v2 = true → is_varint v3 = true → is_varint v4 = true →
      v1.length ≤ 5 → v2.length ≤ 5 → v3.length ≤ 5 → v4.length ≤ 5 →
      decode_311_record (pre ++ first :: (v1 ++ v2 ++ v3 ++ v4 ++ rest)) pre.length loc =
        .ok ((first &&& 7) + 1, pre.length + v1.length + v2.length + v3.length + v4.length,
          ⟨to_uint (loc.lineno + zigzag (varint_value v1)),
            to_uint (to_uint (loc.lineno + zigzag (varint_value v1)) + varint_value v2),
            varint_value v3, varint_value v4⟩)) ∧
    (∀ v rest, (first >>> 3) &&& 15 = 13 → is_varint v = true → v.length ≤ 5 →
      decode_311_record (pre ++ first :: (v ++ rest)) pre.length loc =
        .ok ((first &&& 7) + 1, pre.length + v.length,
          ⟨to_uint (loc.lineno + zigzag (varint_value v)),
            to_uint (loc.lineno + zigzag (varint_value v)), 0, 0⟩)) ∧
    (∀ b1 b2 rest, 10 ≤ (first >>> 3) &&& 15 → (first >>> 3) &&& 15 ≤ 12 →
      decode_311_record (pre ++ first :: b1 :: b2 :: rest) pre.length loc =
        .ok ((first &&& 7) + 1, pre.length + 2,
          ⟨to_uint (loc.lineno + (((first >>> 3) &&& 15) - 10 : Nat)),
            to_uint (loc.lineno + (((first >>> 3) &&& 15) - 10 : Nat)), 1 + b1, 1 + b2⟩)) ∧
    (∀ b rest, (first >>> 3) &&& 15 < 10 →
      decode_311_record (pre ++ first :: b :: rest) pre.length loc =
        .ok ((first &&& 7) + 1, pre.length + 1,
          ⟨loc.lineno, loc.lineno, 1 + (((first >>> 3) &&& 15) <<< 3) + ((b >>> 4) &&& 7),
            1 + (((first >>> 3) &&& 15) <<< 3) + ((b >>> 4) &&& 7) + (b &&& 15)⟩)) := by
  refine ⟨?_, ?_, ?_, ?_, ?_⟩
  · intro rest hf
    exact decode_311_record_15 pre rest first loc hf
  · intro v1 v2 v3 v4 rest hf h1 h2 h3 h4 l1 l2 l3 l4
    have e3 : to_uint (read_varint_value v3) = varint_value v3 := by
      have hpow : 64 ^ v3.length ≤ 64 ^ 5 := Nat.pow_le_pow_right (by decide) l3
      have hlt : varint_value v3 < 1073741824 :=
        lt_of_lt_of_le (varint_value_lt v3) (le_trans hpow (by norm_num))
      rw [read_varint_value_eq v3 l3]
      unfold to_uint
      omega
    have e4 : to_uint (read_varint_value v4) = varint_value v4 := by
      have hpow : 64 ^ v4.length ≤ 64 ^ 5 := Nat.pow_le_pow_right (by decide) l4
      have hlt : varint_value v4 < 1073741824 :=
        lt_of_lt_of_le (varint_value_lt v4) (le_trans hpow (by norm_num))
      rw [read_varint_value_eq v4 l4]
      unfold to_uint
      omega
    rw [decode_311_record_14 pre v1 v2 v3 v4 rest first loc hf h1 h2 h3 h4,
      read_signed_varint_value_eq v1 l1, read_varint_value_eq v2 l2, e3, e4]
  · intro v rest hf hv l
    rw [decode_311_record_13 pre v rest first loc hf hv, read_signed_varint_value_eq v l]
  · intro b1 b2 rest h10 h12
    exact decode_311_record_10_12 pre rest first b1 b2 loc ⟨h10, h12⟩
  · intro b rest hf
    exact decode_311_record_short pre rest first b loc hf

theorem decode_311_record_formats_witness :
    decode_311_record ([0x78] ++ 0xf0 :: ([0x43, 0x01] ++ [0x02] ++ [0x05] ++ [0x49, 0x02] ++ []))
        1 ⟨40, 0, 0, 0⟩ = .ok (1, 7, ⟨7, 9, 5, 137⟩) ∧
      decode_311_record ([0x78] ++ 0xe9 :: ([0x02] ++ [0x78])) 1 ⟨40, 0, 0, 0⟩ =
        .ok (2, 2, ⟨41, 41, 0, 0⟩) :=
  ⟨(decode_311_record_formats [0x78] 0xf0 ⟨40, 0, 0, 0⟩).2.1 [0x43, 0x01] [0x02] [0x05]
      [0x49, 0x02] [] (by decide) (by decide) (by decide) (by decide) (by decide) (by decide)
      (by decide) (by decide) (by decide),
    (decode_311_record_formats [0x78] 0xe9 ⟨40, 0, 0, 0⟩).2.2.1 [0x02] [0x78] (by decide)
      (by decide) (by decide)⟩

/-- C16: on the 3.11 table of two records with format code 13, each one byte
code unit long and one line further, with first line 10, the decoder returns
for `lasti = -1` the location of the last record, line 12, where the first
record, whose accumulated offset 1 exceeds -1, is on line 11 (the location
returned for `lasti = 0`): the offset is compared with `lasti` converted to
`size_t`, which no offset exceeds. -/
theorem decode_311_negative_lasti :
    decode_311 [0xe8, 0x02, 0xe8, 0x02] 10 (-1) = .ok ⟨12, 12, 0, 0⟩ ∧
      decode_311 [0xe8, 0x02, 0xe8, 0x02] 10 0 = .ok ⟨11, 11, 0, 0⟩ ∧
      decode_311_record [0xe8, 0x02, 0xe8, 0x02] 0 ⟨10, 0, 0, 0⟩ = .ok (1, 1, ⟨11, 11, 0, 0⟩) ∧
      to_size_t (-1) = 2 ^ 64 - 1 := by
  decide

/-- Counterexample to C18: the byte 0x80 as `ldelta` does not count -128.  On the
table of the single pair (2, 0x80) with first line 200 the 3.10 decoder
returns 200, not 72. -/
theorem decode_310_byte_0x80 :
    decode_310 [2, 0x80] 200 0 = .ok 200 ∧
      to_uint (line_310 ldelta_signed [2, 0x80] 0 (2 * 0) 200) = 72 := by
  decide

/-- C18, amended: for CPython 3.10, every table of an even number of bytes
(fewer than 2^24, so that the accumulated sdelta fits an `int`), every first
line number and every `lasti` from 0 to below 2^30, the decoder returns, as
an `unsigned int`, the first line number plus the `ldelta` values, each a
signed 8-bit value except that the byte 0x80 counts 0, of the pairs up to and
including the first pair whose accumulated sdelta exceeds `2 * lasti`, and
it uses no pair at or after the first pair whose sdelta is 0xFF. -/
theorem decode_310_line (t : List Nat) (first_line_number : Nat) (lasti : Int)
    (hbytes : ∀ b ∈ t, b < 256) (heven : t.length % 2 = 0) (hlen : t.length < 2 ^ 24)
    (hfirst : first_line_number < 2 ^ 32) (h0 : 0 ≤ lasti) (h1 : lasti < 2 ^ 30) :
    decode_310 t first_line_number lasti =
      .ok (to_uint (line_310 ldelta_310 t 0 (2 * lasti) first_line_number)) := by
  have hw : wrap_int (lasti * 2) = 2 * lasti := by
    unfold wrap_int
    omega
  have := decode_310_loop_spec (2 * lasti) (t.length + 1) [] t 0 first_line_number
    first_line_number hbytes heven (by omega) (by omega)
    (by norm_num at hlen ⊢; omega) (by unfold to_uint; norm_num at hfirst ⊢; omega)
  simpa [decode_310, hw] using this

theorem decode_310_line_witness :
    decode_310 [2, 1, 2, 0x80, 4, 0xfe, 0xff, 7] 10 3 =
      .ok (to_uint (line_310 ldelta_310 [2, 1, 2, 0x80, 4, 0xfe, 0xff, 7] 0 (2 * 3) 10)) :=
  decode_310_line [2, 1, 2, 0x80, 4, 0xfe, 0xff, 7] 10 3 (by decide) (by decide) (by decide)
    (by decide) (by decide) (by decide)

/-- Counterexample to C19: the branch for Python below 3.10 is not the 3.10 branch
without the scaling.  On the table of the single pair (2, 1) with first line
10 and `lasti = 0` the branch below 3.10 returns 10 and the 3.10 branch 11. -/
theorem decode_pre_310_not_310_unscaled :
    decode_pre_310 [2, 1] 10 (2 * 0) = .ok 10 ∧ decode_310 [2, 1] 10 0 = .ok 11 := by
  decide

/-- C19, amended: for every table of an even number of bytes (fewer than
2^24) with no sdelta byte 0xFF and no ldelta byte 0x80, every first line
number `f` and every `lasti` from 0 to below 2^30, the line returned by the
3.10 branch for `(t, f, lasti)` is the line returned by the branch below 3.10
for `(t, f, 2 * lasti)` plus the signed `ldelta` of the first pair whose
accumulated sdelta exceeds `2 * lasti` (plus nothing when there is no such
pair): the branch below 3.10 tests the offset before it adds the `ldelta` of
the pair, the 3.10 branch after. -/
theorem decode_310_pre_310 (t : List Nat) (f : Nat) (lasti : Int)
    (hbytes : ∀ b ∈ t, b < 256) (heven : t.length % 2 = 0) (hlen : t.length < 2 ^ 24)
    (hplain : plain_pairs t = true) (hfirst : f < 2 ^ 32) (h0 : 0 ≤ lasti)
    (h1 : lasti < 2 ^ 30) :
    ∃ line line_pre, decode_310 t f lasti = .ok line ∧
      decode_pre_310 t f (2 * lasti) = .ok line_pre ∧
      line = to_uint (line_pre + exceeding_ldelta t 0 (2 * lasti)) := by
  have hw : wrap_int (lasti * 2) = 2 * lasti := by
    unfold wrap_int
    omega
  have a := decode_310_loop_spec (2 * lasti) (t.length + 1) [] t 0 f
    f hbytes heven (by omega) (by omega)
    (by norm_num at hlen ⊢; omega) (by unfold to_uint; norm_num at hfirst ⊢; omega)
  have b := decode_pre_310_loop_spec (2 * lasti) (t.length + 1) [] t 0 f
    f hbytes heven (by omega) (by omega)
    (by norm_num at hlen ⊢; omega) (by unfold to_uint; norm_num at hfirst ⊢; omega)
  refine ⟨_, _, by simpa [decode_310, hw] using a, by simpa [decode_pre_310] using b, ?_⟩
  rw [line_310_eq_pre t 0 (2 * lasti) f hplain]
  unfold to_uint
  omega

theorem decode_310_pre_310_witness :
    ∃ line line_pre, decode_310 [2, 1, 4, 0xfe, 2, 3] 10 2 = .ok line ∧
      decode_pre_310 [2, 1, 4, 0xfe, 2, 3] 10 (2 * 2) = .ok line_pre ∧
      line = to_uint (line_pre + exceeding_ldelta [2, 1, 4, 0xfe, 2, 3] 0 (2 * 2)) :=
  decode_310_pre_310 [2, 1, 4, 0xfe, 2, 3] 10 2 (by decide) (by decide) (by decide)
    (by decide) (by decide) (by decide) (by decide)

/-- C28: for Python 3.10 the frame record that `_frame_remote` builds for the
code object of the example target and `lasti = 3` has the key
`py_frame_key(code, 6)`, which is not `py_frame_key(code, 3)`, the key under
which `_py_thread__resolve_py_stack` looks the frame up and stores it:
`lasti` is doubled in place before the key is computed.  For 3.11 and 3.9
the key of the record is `py_frame_key(code, 3)`. -/
theorem frame_remote_key_310 :
    (_frame_remote ⟨3, 10⟩ frame_remote_locate example_memory_310 (sampler_new 42 8 8 8).proc
        0x7f0012340000 3).1.map (fun frame => frame.key) =
      some (py_frame_key 0x7f0012340000 6) ∧
    py_frame_key 0x7f0012340000 6 ≠ py_frame_key 0x7f0012340000 3 ∧
    (_frame_remote ⟨3, 9⟩ frame_remote_locate example_memory_310 (sampler_new 42 8 8 8).proc
        0x7f0012340000 3).1.map (fun frame => frame.key) =
      some (py_frame_key 0x7f0012340000 3) ∧
    (_frame_remote ⟨3, 11⟩ frame_remote_locate example_memory (sampler_new 42 8 8 8).proc
        0x7f0012340000 3).1.map (fun frame => frame.key) =
      some (py_frame_key 0x7f0012340000 3) := by
  decide

/-! ### The stack buffers and the unwinders -/

theorem stack_has_cycle_loop_iff (s : stack_dt) (top : py_frame_t) : ∀ n : Nat,
    stack_has_cycle_loop s top n = true ↔ ∃ i, i < n ∧ top.origin = (s.py_base i).origin
  | 0 => by simp [stack_has_cycle_loop]
  | n + 1 => by
    simp only [stack_has_cycle_loop]
    by_cases h : top.origin = (s.py_base n).origin
    · rw [if_pos h]
      simp only [true_iff]
      exact ⟨n, by omega, h⟩
    · rw [if_neg h, stack_has_cycle_loop_iff s top n]
      constructor
      · rintro ⟨i, hi, e⟩
        exact ⟨i, by omega, e⟩
      · rintro ⟨i, hi, e⟩
        have : i ≠ n := by
          rintro rfl
          exact h e
        exact ⟨i, by omega, e⟩

theorem stack_has_cycle_iff (s : stack_dt) :
    stack_has_cycle s = true ↔
      ∃ i, i + 1 < s.pointer ∧ (s.py_base i).origin = (s.py_base (s.pointer - 1)).origin := by
  unfold stack_has_cycle
  by_cases h : s.pointer < 2
  · rw [if_pos h]
    simp only [Bool.false_eq_true, false_iff, not_exists, not_and]
    intro i hi
    by_cases h0 : i + 1 < s.pointer
    · have e : s.pointer - 1 = i := by omega
      omega
    · exact absurd hi h0
  · rw [if_neg h, stack_has_cycle_loop_iff]
    constructor
    · rintro ⟨i, hi, e⟩
      exact ⟨i, by omega, e.symm⟩
    · rintro ⟨i, hi, e⟩
      exact ⟨i, by omega, e.symm⟩

/-- Counterexample to C12: `stack_has_cycle` does not detect every repetition.  On
the stack of three entries with the origins `0x7f0012380000`,
`0x7f0012380000` and `0x7f0012381000`, pushed in this order, it returns
false although the entries at the indices 0 and 1 have the same origin. -/
theorem stack_has_cycle_misses_lower_pair :
    stack_has_cycle example_stack_lower_pair = false ∧
      example_stack_lower_pair.pointer = 3 ∧
      (example_stack_lower_pair.py_base 0).origin =
        (example_stack_lower_pair.py_base 1).origin := by
  decide

/-- C12, amended: for every state of the pre-resolution stack,
`stack_has_cycle` returns true iff the origin of the top entry, the one at
the index `pointer - 1`, re-appears in an entry at a lower index.  When the
entries below the top have pairwise different origins, this is the case iff
two entries at different indices below the stack pointer have the same
origin. -/
theorem stack_has_cycle_top (s : stack_dt) :
    (stack_has_cycle s = true ↔
      ∃ i, i + 1 < s.pointer ∧ (s.py_base i).origin = (s.py_base (s.pointer - 1)).origin) ∧
    ((∀ i j, i < j → j + 1 < s.pointer → (s.py_base i).origin ≠ (s.py_base j).origin) →
      (stack_has_cycle s = true ↔
        ∃ i j, i < j ∧ j < s.pointer ∧ (s.py_base i).origin = (s.py_base j).origin)) := by
  refine ⟨stack_has_cycle_iff s, ?_⟩
  intro hd
  rw [stack_has_cycle_iff]
  constructor
  · rintro ⟨i, hi, e⟩
    exact ⟨i, s.pointer - 1, by omega, by omega, e⟩
  · rintro ⟨i, j, hij, hj, e⟩
    by_cases hlast : j + 1 < s.pointer
    · exact absurd e (hd i j hij hlast)
    · have : j = s.pointer - 1 := by omega
      subst this
      exact ⟨i, by omega, e⟩

theorem stack_has_cycle_top_witness :
    stack_has_cycle example_stack_top_pair = true ↔
      ∃ i j, i < j ∧ j < example_stack_top_pair.pointer ∧
        (example_stack_top_pair.py_base i).origin = (example_stack_top_pair.py_base j).origin :=
  (stack_has_cycle_top example_stack_top_pair).2 (by
    intro i j hij hj
    have hp : example_stack_top_pair.pointer = 3 := rfl
    rw [hp] at hj
    have hi : i = 0 := by omega
    have hj1 : j = 1 := by omega
    subst hi
    subst hj1
    decide)

theorem stack_py_entries_push (s : stack_dt) (origin code : Nat) (lasti : Int) :
    stack_py_entries (stack_py_push s origin code lasti) =
      stack_py_entries s ++ [⟨origin, code, lasti⟩] := by
  unfold stack_py_entries stack_py_push
  simp only [List.range_succ, List.map_append, List.map_cons, List.map_nil, if_true]
  congr 1
  apply List.map_congr_left
  intro i hi
  have : i ≠ s.pointer := by
    have := List.mem_range.mp hi
    omega
  rw [if_neg this]

theorem stack_py_entries_length (s : stack_dt) : (stack_py_entries s).length = s.pointer := by
  simp [stack_py_entries]

theorem stack_py_base_mem (s : stack_dt) (i : Nat) (h : i < s.pointer) :
    s.py_base i ∈ stack_py_entries s :=
  List.mem_map.mpr ⟨i, List.mem_range.mpr h, rfl⟩

/-- The loop of the classic unwinder on a chain of frames at different
addresses that fits the stack: it succeeds and appends the chain. -/
theorem _py_thread__unwind_frame_loop_chain (mem : frame_memory) :
    ∀ (chain : List py_frame_t) (fuel prev : Nat) (s : stack_dt),
    is_frame_chain mem prev chain = true →
    ((stack_py_entries s ++ chain).map (fun f => f.origin)).Nodup →
    s.pointer + chain.length < s.size → chain.length < fuel →
    (_py_thread__unwind_frame_loop mem fuel prev s).1 = .success ∧
      stack_py_entries (_py_thread__unwind_frame_loop mem fuel prev s).2 =
        stack_py_entries s ++ chain ∧
      (_py_thread__unwind_frame_loop mem fuel prev s).2.overrun = s.overrun ∧
      (_py_thread__unwind_frame_loop mem fuel prev s).2.size = s.size
  | [], fuel, prev, s, hc, _, _, hf => by
    obtain ⟨fuel, rfl⟩ : ∃ n, fuel = n + 1 := ⟨fuel - 1, by simp at hf; omega⟩
    have h0 : prev = 0 := by simpa [is_frame_chain] using hc
    simp [_py_thread__unwind_frame_loop, h0]
  | f :: rest, fuel, prev, s, hc, hd, hs, hf => by
    obtain ⟨fuel, rfl⟩ : ∃ n, fuel = n + 1 := ⟨fuel - 1, by simp at hf; omega⟩
    simp only [is_frame_chain, Bool.and_eq_true, decide_eq_true_eq] at hc
    obtain ⟨⟨hp0, hfo⟩, hm⟩ := hc
    cases hcopy : mem.copy_frame prev with
    | error e => simp [hcopy] at hm
    | ok frame =>
      rw [hcopy] at hm
      simp only [Bool.and_eq_true, decide_eq_true_eq] at hm
      obtain ⟨⟨hcode, hlasti⟩, hrest⟩ := hm
      have hfeq : (⟨prev, frame.code, frame.lasti⟩ : py_frame_t) = f := by
        cases f
        simp_all
      -- the frame does not point to itself
      have hback : prev ≠ frame.back := by
        intro hb
        cases rest with
        | nil =>
          have : frame.back = 0 := by simpa [is_frame_chain] using hrest
          omega
        | cons g rest' =>
          simp only [is_frame_chain, Bool.and_eq_true, decide_eq_true_eq] at hrest
          have hg : g.origin = frame.back := hrest.1.2
          simp only [List.map_append, List.map_cons] at hd
          have hd2 := (List.nodup_append.mp hd).2.1
          have hne : f.origin ≠ g.origin := (List.nodup_cons.mp hd2).1 ∘ fun e => by
            rw [e]
            exact List.mem_cons_self _ _
          exact hne (by rw [hfo, hg, ← hb])
      have hpushed : stack_py_entries (stack_py_push s prev frame.code frame.lasti) =
          stack_py_entries s ++ [f] := by
        rw [stack_py_entries_push, hfeq]
      have hpp : (stack_py_push s prev frame.code frame.lasti).pointer = s.pointer + 1 := rfl
      have hps : (stack_py_push s prev frame.code frame.lasti).size = s.size := rfl
      simp only [List.length_cons] at hs hf
      have hfull : stack_full (stack_py_push s prev frame.code frame.lasti) = false := by
        simp only [stack_full, hpp, hps, decide_eq_false_iff_not]
        omega
      have hcyc : stack_has_cycle (stack_py_push s prev frame.code frame.lasti) = false := by
        rw [Bool.eq_false_iff, Ne, stack_has_cycle_iff]
        rintro ⟨i, hi, e⟩
        rw [hpp] at hi e
        have htop : (stack_py_push s prev frame.code frame.lasti).py_base (s.pointer + 1 - 1) =
            f := by
          simp [stack_py_push, hfeq]
        have hlow : (stack_py_push s prev frame.code frame.lasti).py_base i = s.py_base i := by
          simp only [stack_py_push]
          rw [if_neg (by omega)]
        rw [htop, hlow] at e
        simp only [List.map_append, List.map_cons] at hd
        have hdis := (List.nodup_append.mp hd).2.2
        exact hdis (List.mem_map.mpr ⟨_, stack_py_base_mem s i (by omega), rfl⟩)
          (by rw [e]; exact List.mem_cons_self _ _)
      have ih := _py_thread__unwind_frame_loop_chain mem rest fuel frame.back
        (stack_py_push s prev frame.code frame.lasti) hrest
        (by rw [hpushed]; simpa using hd) (by rw [hpp, hps]; omega) (by omega)
      have hov : (stack_py_push s prev frame.code frame.lasti).overrun = s.overrun := by
        have hdec : decide (s.size ≤ s.pointer) = false := by
          simp only [decide_eq_false_iff_not]
          omega
        simp [stack_py_push, hdec]
      simp only [_py_thread__unwind_frame_loop, _py_thread__push_remote_frame, hcopy]
      rw [if_neg hp0, if_neg hback]
      simp only [hfull, hcyc, Bool.false_eq_true, if_false]
      rw [hpushed, hov, hps] at ih
      simpa using ih

/-- C20: the classic unwinder (CPython 3.10 and earlier) on a chain of frames.
For every target memory in which the chain that starts at the top frame of
the thread and follows `back` reaches null after the `n` frames `chain`, at
pairwise different addresses, with `n` below the capacity of the stack and
every read succeeding, `_py_thread__unwind_frame_stack` succeeds and leaves
exactly `n` entries on the pre-resolution stack, the entry at index `i` being
(address of the `i`-th frame of the chain, code address of that frame,
`lasti` of that frame), the top frame first. -/
theorem unwind_frame_stack_chain (mem : frame_memory) (top_frame : Nat)
    (chain : List py_frame_t) (s : stack_dt)
    (hchain : is_frame_chain mem top_frame chain = true)
    (hdistinct : (chain.map (fun f => f.origin)).Nodup) (hn : chain.length < s.size) :
    (_py_thread__unwind_frame_stack mem top_frame s).1 = .success ∧
      (_py_thread__unwind_frame_stack mem top_frame s).2.pointer = chain.length ∧
      stack_py_entries (_py_thread__unwind_frame_stack mem top_frame s).2 = chain := by
  have h := _py_thread__unwind_frame_loop_chain mem chain (s.size + 1) top_frame (stack_reset s)
    hchain (by simpa [stack_py_entries, stack_reset] using hdistinct)
    (by simpa [stack_reset] using hn) (by omega)
  have he : stack_py_entries (_py_thread__unwind_frame_stack mem top_frame s).2 = chain := by
    simpa [_py_thread__unwind_frame_stack, stack_py_entries, stack_reset] using h.2.1
  refine ⟨h.1, ?_, he⟩
  rw [← stack_py_entries_length, he]

theorem unwind_frame_stack_chain_witness :
    (_py_thread__unwind_frame_stack example_frames 0x7f0012380000 example_stack_lower_pair).1 =
        .success ∧
      (_py_thread__unwind_frame_stack example_frames 0x7f0012380000
        example_stack_lower_pair).2.pointer =
        [(⟨0x7f0012380000, 0x7f0012340000, 6⟩ : py_frame_t),
          ⟨0x7f0012381000, 0x7f0012340000, 2⟩, ⟨0x7f0012382000, 0x7f0012341000, 10⟩].length ∧
      stack_py_entries (_py_thread__unwind_frame_stack example_frames 0x7f0012380000
        example_stack_lower_pair).2 =
        [⟨0x7f0012380000, 0x7f0012340000, 6⟩, ⟨0x7f0012381000, 0x7f0012340000, 2⟩,
          ⟨0x7f0012382000, 0x7f0012341000, 10⟩] :=
  unwind_frame_stack_chain example_frames 0x7f0012380000
    [⟨0x7f0012380000, 0x7f0012340000, 6⟩, ⟨0x7f0012381000, 0x7f0012340000, 2⟩,
      ⟨0x7f0012382000, 0x7f0012341000, 10⟩] example_stack_lower_pair (by decide) (by decide)
    (by decide)

/-- C21: a frame that points to itself.  If the `back` pointer of the frame
object read at `prev`, or the `previous` pointer of the interpreter frame
read at `prev`, is `prev` itself, then pushing the frame fails with the
error `PYOBJECT` and leaves the stack as it is, and the loop of the unwinder
that has come to this frame ends in failure, whatever it has pushed before
(and `py_thread__unwind` sets its flag `error`, here for a top frame of a
classic stack). -/
theorem push_self_reference_fails (v : unwind_v) (mem : frame_memory) (prev : Nat)
    (s : stack_dt) (fuel : Nat) (hprev : prev ≠ 0) :
    (∀ frame, mem.copy_frame prev = .ok frame → frame.back = prev →
      _py_thread__push_remote_frame mem prev s = (.error AUSTIN_EPYOBJECT, s) ∧
      _py_thread__unwind_frame_loop mem (fuel + 1) prev s = (.failure, s) ∧
      (V_MIN v.py_v 3 11 = false → ∀ resolve,
        (py_thread__unwind_stack v mem fuel prev resolve s).1 = .failure ∧
        (py_thread__unwind_stack v mem fuel prev resolve s).2.1 = true)) ∧
    (∀ iframe, mem.copy_iframe prev = .ok iframe → iframe.previous = prev →
      _py_thread__push_iframe v mem prev s = (.error AUSTIN_EPYOBJECT, s) ∧
      _py_thread__unwind_iframe_stack v mem (fuel + 1) prev s = (.failure, s)) := by
  constructor
  · intro frame hc hb
    have hpush : ∀ s, _py_thread__push_remote_frame mem prev s = (.error AUSTIN_EPYOBJECT, s) := by
      intro s
      simp only [_py_thread__push_remote_frame, hc]
      rw [if_pos hb.symm]
    refine ⟨hpush s, ?_, ?_⟩
    · simp only [_py_thread__unwind_frame_loop, hpush]
      rw [if_neg hprev]
    · intro h11 resolve
      have h13 : V_MIN v.py_v 3 13 = false := by
        unfold V_MIN at h11 ⊢
        simp only [Bool.or_eq_false_iff, Bool.and_eq_false_iff, decide_eq_false_iff_not,
          beq_eq_false_iff_ne] at h11 ⊢
        omega
      simp only [py_thread__unwind_stack, h11, h13, _py_thread__unwind_frame_stack,
        _py_thread__unwind_frame_loop, hpush]
      simp [hprev]
  · intro iframe hc hb
    have hpush : _py_thread__push_iframe v mem prev s = (.error AUSTIN_EPYOBJECT, s) := by
      simp only [_py_thread__push_iframe, hc, _py_thread__push_local_iframe]
      rw [if_pos hb.symm]
    refine ⟨hpush, ?_⟩
    simp only [_py_thread__unwind_iframe_stack, hpush]
    rw [if_neg hprev]

theorem push_self_reference_fails_witness :
    _py_thread__push_remote_frame example_frames 0x7f0012383000 example_stack_lower_pair =
        (.error AUSTIN_EPYOBJECT, example_stack_lower_pair) ∧
      _py_thread__unwind_frame_loop example_frames (5 + 1) 0x7f0012383000
        example_stack_lower_pair = (.failure, example_stack_lower_pair) ∧
      (V_MIN (⟨⟨3, 10⟩, 0, 2⟩ : unwind_v).py_v 3 11 = false → ∀ resolve,
        (py_thread__unwind_stack ⟨⟨3, 10⟩, 0, 2⟩ example_frames 5 0x7f0012383000 resolve
          example_stack_lower_pair).1 = .failure ∧
        (py_thread__unwind_stack ⟨⟨3, 10⟩, 0, 2⟩ example_frames 5 0x7f0012383000 resolve
          example_stack_lower_pair).2.1 = true) :=
  (push_self_reference_fails ⟨⟨3, 10⟩, 0, 2⟩ example_frames 0x7f0012383000
    example_stack_lower_pair 5 (by decide)).1 ⟨0x7f0012383000, 0x7f0012341000, 10⟩ rfl rfl

/-- Counterexample to C22: the `lasti` that is pushed is not
`(prev_instr - code) / sizeof(unit) - o_code`.  With the byte code at offset
192 of the code object, units of 2 bytes and `prev_instr` 200 bytes after
the address of the code object, 4 is pushed; the claimed value is -92. -/
theorem iframe_lasti_not_divided_first :
    iframe_lasti ⟨⟨3, 11⟩, 192, 2⟩ 0x7f0012340000 (0x7f0012340000 + 200) = 4 ∧
      (((0x7f0012340000 + 200 : Nat) : Int) - (0x7f0012340000 : Nat)) / (2 : Nat) - 192 = -92 := by
  decide

/-- C22, amended: for every interpreter frame (3.11+) that is pushed as a
Python frame (it does not point to itself and is not a shim frame), the
entry pushed has the address of the frame as origin, the address of its code
object and the `lasti`
`((prev_instr - code) - offsets.Code.code) / sizeof(instruction unit)`: the
offset is subtracted before the division.  This is for `prev_instr` at or
after the first instruction and less than 2^31 bytes after `code`. -/
theorem push_local_iframe_lasti (v : unwind_v) (iframe : py_iframe_fields) (prev : Nat)
    (s : stack_dt) (hself : prev ≠ iframe.previous)
    (hshim : (V_MIN v.py_v 3 12 && iframe.owned_by_cstack) = false)
    (ho : 0 ≤ v.o_code) (hu : 0 < v.sizeof_Py_CODEUNIT)
    (h0 : v.o_code ≤ (iframe.prev_instr : Int) - iframe.code)
    (h1 : (iframe.prev_instr : Int) - iframe.code < 2 ^ 31) :
    (_py_thread__push_local_iframe v iframe prev s).1 = .ok iframe.previous ∧
      (_py_thread__push_local_iframe v iframe prev s).2.pointer = s.pointer + 1 ∧
      (_py_thread__push_local_iframe v iframe prev s).2.py_base s.pointer =
        ⟨prev, iframe.code,
          (((iframe.prev_instr : Int) - iframe.code) - v.o_code) / v.sizeof_Py_CODEUNIT⟩ := by
  have hl : iframe_lasti v iframe.code iframe.prev_instr =
      (((iframe.prev_instr : Int) - iframe.code) - v.o_code) / v.sizeof_Py_CODEUNIT := by
    unfold iframe_lasti
    have hw : wrap_int ((iframe.prev_instr : Int) - iframe.code) =
        (iframe.prev_instr : Int) - iframe.code := by
      unfold wrap_int
      omega
    rw [hw]
    have hm : ((iframe.prev_instr : Int) - iframe.code - v.o_code) % 2 ^ 64 =
        (iframe.prev_instr : Int) - iframe.code - v.o_code := by
      omega
    rw [hm]
    have hq0 : 0 ≤ ((iframe.prev_instr : Int) - iframe.code - v.o_code) / v.sizeof_Py_CODEUNIT :=
      Int.ediv_nonneg (by omega) (by omega)
    have hq1 : ((iframe.prev_instr : Int) - iframe.code - v.o_code) / v.sizeof_Py_CODEUNIT ≤
        (iframe.prev_instr : Int) - iframe.code - v.o_code :=
      Int.ediv_le_self _ (by omega)
    unfold wrap_int
    omega
  simp only [_py_thread__push_local_iframe, hshim]
  rw [if_neg hself]
  simp [stack_py_push, hl]

theorem push_local_iframe_lasti_witness :
    (_py_thread__push_local_iframe ⟨⟨3, 12⟩, 192, 2⟩
        ⟨0x7f0012340000, 0x7f0012381000, 0x7f0012340000 + 200, false⟩ 0x7f0012380000
        (stack_allocate 8)).1 = .ok 0x7f0012381000 ∧
      (_py_thread__push_local_iframe ⟨⟨3, 12⟩, 192, 2⟩
        ⟨0x7f0012340000, 0x7f0012381000, 0x7f0012340000 + 200, false⟩ 0x7f0012380000
        (stack_allocate 8)).2.pointer = 0 + 1 ∧
      (_py_thread__push_local_iframe ⟨⟨3, 12⟩, 192, 2⟩
        ⟨0x7f0012340000, 0x7f0012381000, 0x7f0012340000 + 200, false⟩ 0x7f0012380000
        (stack_allocate 8)).2.py_base 0 =
        ⟨0x7f0012380000, 0x7f0012340000,
          ((((0x7f0012340000 + 200 : Nat) : Int) - (0x7f0012340000 : Nat)) - 192) / (2 : Nat)⟩ :=
  push_local_iframe_lasti ⟨⟨3, 12⟩, 192, 2⟩
    ⟨0x7f0012340000, 0x7f0012381000, 0x7f0012340000 + 200, false⟩ 0x7f0012380000
    (stack_allocate 8) (by decide) (by decide) (by decide) (by decide) (by decide) (by decide)

/-- The state of the stack buffers in which no write went beyond the
capacity so far. -/
theorem stack_py_push_safe (s : stack_dt) (origin code : Nat) (lasti : Int)
    (ho : s.overrun = false) (hp : s.pointer < s.size) :
    (stack_py_push s origin code lasti).overrun = false ∧
      (stack_py_push s origin code lasti).pointer = s.pointer + 1 ∧
      (stack_py_push s origin code lasti).size = s.size ∧
      (stack_py_push s origin code lasti).unwind_on_used = s.unwind_on_used := by
  have hdec : decide (s.size ≤ s.pointer) = false := by
    simp only [decide_eq_false_iff_not]
    omega
  simp [stack_py_push, hdec, ho]

theorem _py_thread__push_remote_frame_safe (mem : frame_memory) (prev : Nat) (s : stack_dt)
    (ho : s.overrun = false) (hp : s.pointer < s.size) :
    (_py_thread__push_remote_frame mem prev s).2.overrun = false ∧
      (_py_thread__push_remote_frame mem prev s).2.pointer ≤ s.pointer + 1 ∧
      (_py_thread__push_remote_frame mem prev s).2.size = s.size ∧
      (_py_thread__push_remote_frame mem prev s).2.unwind_on_used = s.unwind_on_used := by
  unfold _py_thread__push_remote_frame
  cases mem.copy_frame prev with
  | error e => simp [ho]
  | ok frame =>
    simp only
    split
    · simp [ho]
    · have := stack_py_push_safe s prev frame.code frame.lasti ho hp
      simp only [this]
      simp

theorem _py_thread__push_iframe_safe (v : unwind_v) (mem : frame_memory) (prev : Nat)
    (s : stack_dt) (ho : s.overrun = false) (hp : s.pointer < s.size) :
    (_py_thread__push_iframe v mem prev s).2.overrun = false ∧
      (_py_thread__push_iframe v mem prev s).2.pointer ≤ s.pointer + 1 ∧
      (_py_thread__push_iframe v mem prev s).2.size = s.size ∧
      (_py_thread__push_iframe v mem prev s).2.unwind_on_used = s.unwind_on_used := by
  unfold _py_thread__push_iframe
  cases mem.copy_iframe prev with
  | error e => simp [ho]
  | ok iframe =>
    simp only [_py_thread__push_local_iframe]
    split
    · simp [ho]
    split
    · simp [ho]
    · have := stack_py_push_safe s prev iframe.code (iframe_lasti v iframe.code iframe.prev_instr)
        ho hp
      simp only [this]
      simp

theorem _py_thread__unwind_frame_loop_safe (mem : frame_memory) :
    ∀ (fuel prev : Nat) (s : stack_dt), s.overrun = false → s.pointer < s.size →
    (_py_thread__unwind_frame_loop mem fuel prev s).2.overrun = false ∧
      (_py_thread__unwind_frame_loop mem fuel prev s).2.pointer ≤ s.size ∧
      (_py_thread__unwind_frame_loop mem fuel prev s).2.size = s.size ∧
      (_py_thread__unwind_frame_loop mem fuel prev s).2.unwind_on_used = s.unwind_on_used
  | 0, prev, s, ho, hp => by
    simp [_py_thread__unwind_frame_loop, ho]
    omega
  | fuel + 1, prev, s, ho, hp => by
    have hpush := _py_thread__push_remote_frame_safe mem prev s ho hp
    simp only [_py_thread__unwind_frame_loop]
    split
    · simp [ho]
      omega
    · rcases hr : _py_thread__push_remote_frame mem prev s with ⟨_ | prev', s'⟩
      · rw [hr] at hpush
        simp only at hpush ⊢
        exact ⟨hpush.1, by omega, hpush.2.2⟩
      · rw [hr] at hpush
        simp only at hpush ⊢
        by_cases hfull : stack_full s' = true
        · rw [if_pos hfull]
          simp only
          exact ⟨hpush.1, by omega, hpush.2.2⟩
        · rw [if_neg hfull]
          split
          · simp only
            exact ⟨hpush.1, by omega, hpush.2.2⟩
          · have hlt : s'.pointer < s'.size := by
              simpa [stack_full] using hfull
            have ih := _py_thread__unwind_frame_loop_safe mem fuel prev' s' hpush.1 hlt
            rw [hpush.2.2.1, hpush.2.2.2] at ih
            exact ih

theorem _py_thread__unwind_iframe_stack_safe (v : unwind_v) (mem : frame_memory) :
    ∀ (fuel curr : Nat) (s : stack_dt), s.overrun = false → s.pointer < s.size →
    (_py_thread__unwind_iframe_stack v mem fuel curr s).2.overrun = false ∧
      (_py_thread__unwind_iframe_stack v mem fuel curr s).2.pointer ≤ s.size ∧
      (_py_thread__unwind_iframe_stack v mem fuel curr s).2.size = s.size ∧
      (_py_thread__unwind_iframe_stack v mem fuel curr s).2.unwind_on_used = s.unwind_on_used
  | 0, curr, s, ho, hp => by
    simp [_py_thread__unwind_iframe_stack, ho]
    omega
  | fuel + 1, curr, s, ho, hp => by
    have hpush := _py_thread__push_iframe_safe v mem curr s ho hp
    simp only [_py_thread__unwind_iframe_stack]
    split
    · simp [ho]
      omega
    · rcases hr : _py_thread__push_iframe v mem curr s with ⟨_ | curr', s'⟩
      · rw [hr] at hpush
        simp only at hpush ⊢
        exact ⟨hpush.1, by omega, hpush.2.2⟩
      · rw [hr] at hpush
        simp only at hpush ⊢
        by_cases hfull : stack_full s' = true
        · rw [if_pos hfull]
          simp only
          exact ⟨hpush.1, by omega, hpush.2.2⟩
        · rw [if_neg hfull]
          split
          · simp only
            exact ⟨hpush.1, by omega, hpush.2.2⟩
          · have hlt : s'.pointer < s'.size := by
              simpa [stack_full] using hfull
            have ih := _py_thread__unwind_iframe_stack_safe v mem fuel curr' s' hpush.1 hlt
            rw [hpush.2.2.1, hpush.2.2.2] at ih
            exact ih

theorem stack_resolve_loop_safe (resolve : Nat → py_frame_t → Option frame_t) :
    ∀ (n i : Nat) (s : stack_dt), s.overrun = false → i + n = s.pointer → s.pointer ≤ s.size →
    (stack_resolve_loop resolve n i s).2.overrun = false ∧
      (stack_resolve_loop resolve n i s).2.pointer ≤ s.pointer ∧
      (stack_resolve_loop resolve n i s).2.size = s.size ∧
      (stack_resolve_loop resolve n i s).2.unwind_on_used = s.unwind_on_used
  | 0, i, s, ho, _, _ => by simp [stack_resolve_loop, ho]
  | n + 1, i, s, ho, hi, hs => by
    simp only [stack_resolve_loop]
    cases resolve i (s.py_base i) with
    | none =>
      refine ⟨ho, ?_, rfl, rfl⟩
      show i ≤ s.pointer
      omega
    | some frame =>
      simp only
      have hdec : decide (s.size ≤ i) = false := by
        simp only [decide_eq_false_iff_not]
        omega
      have hset : (stack_set s i frame).overrun = false := by simp [stack_set, ho, hdec]
      exact stack_resolve_loop_safe resolve n (i + 1) (stack_set s i frame) hset
        (by simp only [stack_set]; omega) (by simpa [stack_set] using hs)

theorem stack_pop_loop_spec : ∀ (n : Nat) (s : stack_dt), n = s.pointer →
    (stack_pop_loop n s).2 = { s with pointer := 0 }
  | 0, s, h => by
    simp only [stack_pop_loop]
    cases s
    simp_all
  | n + 1, s, h => by
    have hne : stack_is_empty s = false := by
      simp only [stack_is_empty, decide_eq_false_iff_not]
      omega
    simp only [stack_pop_loop, hne, Bool.false_eq_true, if_false]
    rw [stack_pop_loop_spec n { s with pointer := s.pointer - 1 } (by simp only; omega)]

theorem py_thread__unwind_stack_safe (v : unwind_v) (mem : frame_memory) (fuel top_frame : Nat)
    (resolve : Nat → py_frame_t → Option frame_t) (s : stack_dt) (ho : s.overrun = false)
    (hu : s.unwind_on_used = false) (hp : s.pointer = 0) (hs : 0 < s.size) :
    (py_thread__unwind_stack v mem fuel top_frame resolve s).2.2.overrun = false ∧
      (py_thread__unwind_stack v mem fuel top_frame resolve s).2.2.unwind_on_used = false ∧
      (py_thread__unwind_stack v mem fuel top_frame resolve s).2.2.pointer ≤ s.size ∧
      (py_thread__unwind_stack v mem fuel top_frame resolve s).2.2.size = s.size := by
  have hs0 : ({ s with unwind_on_used := s.unwind_on_used || decide (s.pointer ≠ 0) } : stack_dt)
      = s := by
    cases s
    simp_all
  -- the three unwinders
  have hunw : ∀ r : unwind_result × stack_dt,
      r = (if V_MIN v.py_v 3 13 then _py_thread__unwind_iframe_stack v mem fuel top_frame s
        else if V_MIN v.py_v 3 11 then _py_thread__unwind_cframe_stack v mem fuel top_frame s
        else _py_thread__unwind_frame_stack mem top_frame s) →
      r.2.overrun = false ∧ r.2.pointer ≤ s.size ∧ r.2.size = s.size ∧
        r.2.unwind_on_used = false := by
    intro r hr
    subst hr
    split
    · have := _py_thread__unwind_iframe_stack_safe v mem fuel top_frame s ho (by omega)
      rw [hu] at this
      exact this
    split
    · unfold _py_thread__unwind_cframe_stack
      cases mem.copy_cframe top_frame with
      | error e => simp [stack_reset, ho, hu]
      | ok current_frame =>
        have := _py_thread__unwind_iframe_stack_safe v mem fuel current_frame (stack_reset s)
          (by simpa [stack_reset] using ho) (by simpa [stack_reset] using hs)
        simpa [stack_reset, hu] using this
    · have := _py_thread__unwind_frame_loop_safe mem (s.size + 1) top_frame (stack_reset s)
        (by simpa [stack_reset] using ho) (by simpa [stack_reset] using hs)
      simpa [_py_thread__unwind_frame_stack, stack_reset, hu] using this
  simp only [py_thread__unwind_stack, hs0]
  split
  · generalize hr : (if V_MIN v.py_v 3 13 then _py_thread__unwind_iframe_stack v mem fuel top_frame s
        else if V_MIN v.py_v 3 11 then _py_thread__unwind_cframe_stack v mem fuel top_frame s
        else _py_thread__unwind_frame_stack mem top_frame s) = r
    have h := hunw r hr.symm
    rcases r with ⟨result, s'⟩
    simp only at h
    cases result with
    | out_of_fuel =>
      simp only
      exact ⟨h.1, h.2.2.2, h.2.1, h.2.2.1⟩
    | success =>
      simp only
      have hres := stack_resolve_loop_safe resolve s'.pointer 0 s' h.1 (by omega)
        (by rw [h.2.2.1]; exact h.2.1)
      simp only [stack_resolve]
      rw [h.2.2.1, h.2.2.2] at hres
      exact ⟨hres.1, hres.2.2.2, by omega, hres.2.2.1⟩
    | failure =>
      simp only
      have hres := stack_resolve_loop_safe resolve s'.pointer 0 s' h.1 (by omega)
        (by rw [h.2.2.1]; exact h.2.1)
      simp only [stack_resolve]
      rw [h.2.2.1, h.2.2.2] at hres
      exact ⟨hres.1, hres.2.2.2, by omega, hres.2.2.1⟩
  · exact ⟨ho, hu, Nat.le_of_lt (by rw [hp]; exact hs), rfl⟩

theorem sample_stack_safe (x : stack_sample) (s : stack_dt) (ho : s.overrun = false)
    (hu : s.unwind_on_used = false) (hp : s.pointer = 0) (hs : 0 < s.size) :
    (sample_stack x s).2.overrun = false ∧ (sample_stack x s).2.unwind_on_used = false ∧
      (sample_stack x s).2.pointer ≤ s.size ∧ (sample_stack x s).2.size = s.size ∧
      ((sample_stack x s).1 ≠ .out_of_fuel → (sample_stack x s).2.pointer = 0) := by
  have h := py_thread__unwind_stack_safe x.v x.mem x.fuel x.top_frame x.resolve s ho hu hp hs
  unfold sample_stack
  rcases hr : py_thread__unwind_stack x.v x.mem x.fuel x.top_frame x.resolve s with
    ⟨result, error, s'⟩
  rw [hr] at h
  simp only at h
  cases result with
  | out_of_fuel =>
    simp only
    exact ⟨h.1, h.2.1, h.2.2.1, h.2.2.2, fun hne => absurd rfl hne⟩
  | success =>
    rw [show (stack_pop_loop s'.pointer s').2 = { s' with pointer := 0 } from
      stack_pop_loop_spec s'.pointer s' rfl]
    exact ⟨h.1, h.2.1, Nat.zero_le _, h.2.2.2, fun _ => rfl⟩
  | failure =>
    rw [show (stack_pop_loop s'.pointer s').2 = { s' with pointer := 0 } from
      stack_pop_loop_spec s'.pointer s' rfl]
    exact ⟨h.1, h.2.1, Nat.zero_le _, h.2.2.2, fun _ => rfl⟩

theorem sample_stacks_safe : ∀ (samples : List stack_sample) (s : stack_dt),
    s.overrun = false → s.unwind_on_used = false → s.pointer = 0 → 0 < s.size →
    (sample_stacks samples s).2.overrun = false ∧
      (sample_stacks samples s).2.unwind_on_used = false ∧
      (sample_stacks samples s).2.pointer ≤ s.size ∧
      ((sample_stacks samples s).1 ≠ .out_of_fuel → (sample_stacks samples s).2.pointer = 0)
  | [], s, ho, hu, hp, _ => by
    simp only [sample_stacks]
    exact ⟨ho, hu, by omega, fun _ => hp⟩
  | x :: rest, s, ho, hu, hp, hs => by
    have h := sample_stack_safe x s ho hu hp hs
    simp only [sample_stacks]
    rcases hr : sample_stack x s with ⟨result, s'⟩
    rw [hr] at h
    simp only at h
    cases result with
    | out_of_fuel =>
      simp only
      exact ⟨h.1, h.2.1, h.2.2.1, fun hne => absurd rfl hne⟩
    | success =>
      simp only
      have ih := sample_stacks_safe rest s' h.1 h.2.1 (h.2.2.2.2 (by simp))
        (by rw [h.2.2.2.1]; exact hs)
      rw [h.2.2.2.1] at ih
      exact ih
    | failure =>
      simp only
      have ih := sample_stacks_safe rest s' h.1 h.2.1 (h.2.2.2.2 (by simp))
        (by rw [h.2.2.2.1]; exact hs)
      rw [h.2.2.2.1] at ih
      exact ih

/-- C13: in the default build, over every sequence of samples (stack begin,
unwinding with any of the three frame dialects, resolution, stack end), every
content of target memory and every bound on the passes of the unwinders, no
write to the pre-resolution or resolved stack buffer goes to an index at or
beyond the capacity and the stack pointer does not exceed the capacity
(`overrun` is never set), no unwind starts with a stack pointer other than 0
(`unwind_on_used` is never set), and after a sample that was not cut short
the stack pointer is 0. -/
theorem stack_writes_below_capacity (size : Nat) (hsize : 0 < size)
    (samples : List stack_sample) :
    (sample_stacks samples (stack_allocate size)).2.overrun = false ∧
      (sample_stacks samples (stack_allocate size)).2.unwind_on_used = false ∧
      (sample_stacks samples (stack_allocate size)).2.pointer ≤ size ∧
      ((sample_stacks samples (stack_allocate size)).1 ≠ .out_of_fuel →
        (sample_stacks samples (stack_allocate size)).2.pointer = 0) :=
  sample_stacks_safe samples (stack_allocate size) rfl rfl rfl hsize

theorem stack_writes_below_capacity_witness :
    (sample_stacks example_stack_samples (stack_allocate 2)).2.overrun = false ∧
      (sample_stacks example_stack_samples (stack_allocate 2)).2.unwind_on_used = false ∧
      (sample_stacks example_stack_samples (stack_allocate 2)).2.pointer ≤ 2 ∧
      ((sample_stacks example_stack_samples (stack_allocate 2)).1 ≠ .out_of_fuel →
        (sample_stacks example_stack_samples (stack_allocate 2)).2.pointer = 0) :=
  stack_writes_below_capacity 2 (by decide) example_stack_samples

theorem py_thread__unwind_stats_fold : ∀ (errors : List Bool) (st : stats_t),
    st._error_cnt ≤ st._sample_cnt → st._sample_cnt + errors.length < 2 ^ 64 →
    (errors.foldl py_thread__unwind_stats st)._sample_cnt = st._sample_cnt + errors.length ∧
      (errors.foldl py_thread__unwind_stats st)._error_cnt =
        st._error_cnt + errors.count true
  | [], st, _, _ => by simp
  | e :: rest, st, hle, hlen => by
    simp only [List.length_cons] at hlen
    have hs : (st._sample_cnt + 1) % 2 ^ 64 = st._sample_cnt + 1 := Nat.mod_eq_of_lt (by omega)
    have he : (st._error_cnt + 1) % 2 ^ 64 = st._error_cnt + 1 := Nat.mod_eq_of_lt (by omega)
    have ih := py_thread__unwind_stats_fold rest (py_thread__unwind_stats st e)
    cases e with
    | true =>
      have e1 : py_thread__unwind_stats st true = ⟨st._sample_cnt + 1, st._error_cnt + 1⟩ := by
        simp only [py_thread__unwind_stats, stats_count_sample, stats_count_error, hs, he,
          if_true]
      rw [e1] at ih
      have := ih (by simp only; omega) (by simp only; omega)
      simp only [List.foldl_cons, e1, List.length_cons, List.count_cons_self]
      simp only at this
      omega
    | false =>
      have e1 : py_thread__unwind_stats st false = ⟨st._sample_cnt + 1, st._error_cnt⟩ := by
        simp only [py_thread__unwind_stats, stats_count_sample, hs, Bool.false_eq_true,
          if_false]
      rw [e1] at ih
      have := ih (by simp only; omega) (by simp only; omega)
      simp only [List.foldl_cons, e1, List.length_cons]
      simp only at this
      rw [List.count_cons_of_ne (by decide)]
      omega

/-- C14: after `stats_reset` and any sequence of thread unwinds (fewer than
2^64 of them, the range of the counters), `errors` being the error flags of
the unwinds in order, the error counter does not exceed the sample counter:
the sample counter is the number of unwinds and the error counter the number
of unwinds with an error. -/
theorem error_count_le_sample_count (st : stats_t) (errors : List Bool)
    (h : errors.length < 2 ^ 64) :
    (errors.foldl py_thread__unwind_stats (stats_reset st))._error_cnt ≤
        (errors.foldl py_thread__unwind_stats (stats_reset st))._sample_cnt ∧
      (errors.foldl py_thread__unwind_stats (stats_reset st))._sample_cnt = errors.length ∧
      (errors.foldl py_thread__unwind_stats (stats_reset st))._error_cnt = errors.count true := by
  have := py_thread__unwind_stats_fold errors (stats_reset st) (by simp [stats_reset])
    (by simpa [stats_reset] using h)
  simp only [stats_reset, Nat.zero_add] at this ⊢
  refine ⟨?_, this.1, this.2⟩
  rw [this.1, this.2]
  exact List.count_le_length _ _

theorem error_count_le_sample_count_witness :
    ([true, false, true].foldl py_thread__unwind_stats (stats_reset ⟨7, 9⟩))._error_cnt ≤
        ([true, false, true].foldl py_thread__unwind_stats (stats_reset ⟨7, 9⟩))._sample_cnt ∧
      ([true, false, true].foldl py_thread__unwind_stats (stats_reset ⟨7, 9⟩))._sample_cnt =
        [true, false, true].length ∧
      ([true, false, true].foldl py_thread__unwind_stats (stats_reset ⟨7, 9⟩))._error_cnt =
        [true, false, true].count true :=
  error_count_le_sample_count ⟨7, 9⟩ [true, false, true] (by decide)

/-- C15: a short read leaves the error number as it was.  When
`process_vm_readv` returns 4 for a request of 8 bytes, `copy_memory` returns
non-zero and the error number is what it was before the call, here `OS` from
an earlier failure or no error at all, and not `MEMCOPY`; the error number
is set only when `process_vm_readv` returns -1. -/
theorem copy_memory_short_read :
    copy_memory 4 0 8 AUSTIN_EOS = (1, AUSTIN_EOS) ∧
      copy_memory 4 0 8 AUSTIN_EOK = (1, AUSTIN_EOK) ∧
      copy_memory (-1) 14 8 AUSTIN_EOK = (1, AUSTIN_EMEMCOPY) ∧
      copy_memory 8 0 8 AUSTIN_EOK = (0, AUSTIN_EOK) := by
  decide

theorem lru_cache__maybe_hit_head {α : Type} (self : lru_cache_t α) (key : Nat) (v : α)
    (h : (lru_cache__maybe_hit self key).1 = some v) :
    ∃ k rest, (k == key) = true ∧ (lru_cache__maybe_hit self key).2.items = (k, v) :: rest := by
  unfold lru_cache__maybe_hit at h ⊢
  split
  · rename_i kv hfind
    rw [hfind] at h
    simp only [Option.some.injEq] at h
    subst h
    exact ⟨kv.1, _, by simpa using List.find?_some hfind, rfl⟩
  · rename_i hfind
    rw [hfind] at h
    simp at h

theorem lru_cache__maybe_hit_of_head {α : Type} (self : lru_cache_t α) (key k : Nat) (v : α)
    (rest : List (Nat × α)) (hk : (k == key) = true) (h : self.items = (k, v) :: rest) :
    (lru_cache__maybe_hit self key).1 = some v := by
  unfold lru_cache__maybe_hit
  rw [h]
  simp [List.find?, hk]

/-- C24: for CPython 3.14+, when an interpreter is sampled with the observed
code-object generation `g`: if the interpreter-state cache holds a record
for the interpreter with another generation, the frame cache and the code
cache are both emptied, and this is before the threads of the interpreter
are sampled (the loop over the threads starts from the target record that
the block leaves); if the cache holds no record, or a record with the
generation `g`, the target record with its caches is left as it is; in every
case the record that the cache holds for the interpreter afterwards has the
generation `g`. -/
theorem generation_change_invalidates (pargs : parsed_args_t) (py_v : python_v)
    (locate : location_decoder) (interp_id : Int) (g : Nat) (time_delta : Nat)
    (threads : List (target_memory × thread_obs))
    (self : sampler_t × lru_cache_t interpreter_state_t) (h14 : V_MIN py_v 3 14 = true) :
    (∀ info, (lru_cache__maybe_hit self.2 (interpreter_state_key interp_id)).1 = some info →
      info.code_object_gen ≠ g →
      (sample_interpreter_generation py_v interp_id g self.1.proc self.2).1.frame_cache.items = []
        ∧ (sample_interpreter_generation py_v interp_id g self.1.proc self.2).1.code_cache.items
          = []) ∧
    ((lru_cache__maybe_hit self.2 (interpreter_state_key interp_id)).1 = none ∨
      (∃ info, (lru_cache__maybe_hit self.2 (interpreter_state_key interp_id)).1 = some info ∧
        info.code_object_gen = g) →
      (sample_interpreter_generation py_v interp_id g self.1.proc self.2).1 = self.1.proc) ∧
    (∃ info, (lru_cache__maybe_hit
        (sample_interpreter_generation py_v interp_id g self.1.proc self.2).2
        (interpreter_state_key interp_id)).1 = some info ∧ info.code_object_gen = g) ∧
    _py_proc__sample_interpreter pargs py_v locate interp_id g time_delta threads self =
      (((threads.foldl
          (fun (acc : sampler_t × List Event) thread =>
            let r := sample_thread pargs py_v locate thread.1 interp_id time_delta thread.2 acc.1
            (r.1, acc.2 ++ r.2))
          ({ self.1 with
              proc := (sample_interpreter_generation py_v interp_id g self.1.proc self.2).1 },
            [])).1,
        (sample_interpreter_generation py_v interp_id g self.1.proc self.2).2),
      (threads.foldl
          (fun (acc : sampler_t × List Event) thread =>
            let r := sample_thread pargs py_v locate thread.1 interp_id time_delta thread.2 acc.1
            (r.1, acc.2 ++ r.2))
          ({ self.1 with
              proc := (sample_interpreter_generation py_v interp_id g self.1.proc self.2).1 },
            [])).2) := by
  refine ⟨?_, ?_, ?_, rfl⟩
  · intro info hhit hne
    rcases hr : lru_cache__maybe_hit self.2 (interpreter_state_key interp_id) with ⟨o, cache⟩
    rw [hr] at hhit
    simp only at hhit
    subst hhit
    simp only [sample_interpreter_generation, h14, hr, if_true]
    rw [if_pos (Ne.symm hne)]
    simp [lru_cache__invalidate]
  · intro hcase
    rcases hr : lru_cache__maybe_hit self.2 (interpreter_state_key interp_id) with ⟨o, cache⟩
    rw [hr] at hcase
    simp only at hcase
    simp only [sample_interpreter_generation, h14, hr, if_true]
    rcases hcase with rfl | ⟨info, rfl, hg⟩
    · simp [interpreter_state_new]
    · simp [hg]
  · rcases hr : lru_cache__maybe_hit self.2 (interpreter_state_key interp_id) with ⟨o, cache⟩
    simp only [sample_interpreter_generation, h14, hr, if_true]
    cases o with
    | none =>
      simp only [interpreter_state_new, ne_eq, not_true_eq_false, if_false]
      exact ⟨⟨interp_id, g⟩, lru_cache__maybe_hit_of_head _ _ (interpreter_state_key interp_id)
        _ _ (by simp) rfl, rfl⟩
    | some info =>
      obtain ⟨k, rest, hk, hitems⟩ := lru_cache__maybe_hit_head self.2 _ info (by rw [hr])
      rw [hr] at hitems
      simp only at hitems
      by_cases hg : g = info.code_object_gen
      · simp only [hg, ne_eq, not_true_eq_false, if_false]
        exact ⟨info, lru_cache__maybe_hit_of_head _ _ k _ rest hk hitems, rfl⟩
      · simp only [ne_eq, hg, not_false_eq_true, if_true]
        refine ⟨{ info with code_object_gen := g }, ?_, rfl⟩
        apply lru_cache__maybe_hit_of_head _ _ k _
          (rest.map (fun kv => if kv.1 == interpreter_state_key interp_id then
            (kv.1, { kv.2 with code_object_gen := g }) else kv)) hk
        have hk' : k = interpreter_state_key interp_id := by simpa using hk
        simp [lru_cache__write, hitems, hk']

theorem generation_change_invalidates_witness :
    (sample_interpreter_generation ⟨3, 14⟩ 0 5 example_sampler_314.1.proc
        example_sampler_314.2).1.frame_cache.items = [] ∧
      (sample_interpreter_generation ⟨3, 14⟩ 0 5 example_sampler_314.1.proc
        example_sampler_314.2).1.code_cache.items = [] :=
  (generation_change_invalidates example_pargs ⟨3, 14⟩ example_locate 0 5 100 []
    example_sampler_314 (by decide)).1 ⟨0, 4⟩ (by decide) (by decide)

theorem _py_proc__check_sym_loop_spec (self : dynsym_t) (name : String) (value : Nat) :
    ∀ (n i : Nat), _py_proc__check_sym_loop self name value n i =
      match (List.range' i n).find? (self.symcmp name) with
      | some j => (1, { self with symbols := fun k => if k = j then value else self.symbols k })
      | none => (0, self)
  | 0, i => by simp [_py_proc__check_sym_loop]
  | n + 1, i => by
    simp only [_py_proc__check_sym_loop, List.range'_succ, List.find?_cons]
    by_cases h : self.symcmp name i = true
    · simp [h]
    · have h' : self.symcmp name i = false := by simpa using h
      simp only [h', Bool.false_eq_true, if_false]
      exact _py_proc__check_sym_loop_spec self name value n (i + 1)

theorem _py_proc__check_sym_spec (self : dynsym_t) (entry : String × Nat) :
    (_py_proc__check_sym self entry.1 entry.2).1 =
        (if (assigned_slot self entry).isSome then 1 else 0) ∧
      (_py_proc__check_sym self entry.1 entry.2).2.count = self.count ∧
      (_py_proc__check_sym self entry.1 entry.2).2.symcmp = self.symcmp ∧
      ∀ i, (_py_proc__check_sym self entry.1 entry.2).2.symbols i =
        if assigned_slot self entry = some i then entry.2 else self.symbols i := by
  unfold _py_proc__check_sym assigned_slot
  by_cases hv : entry.2 = 0
  · simp [hv]
  · rw [if_neg hv, if_neg hv, _py_proc__check_sym_loop_spec, List.range_eq_range']
    cases (List.range' 0 self.count).find? (self.symcmp entry.1) with
    | none => simp
    | some j =>
      refine ⟨by simp, rfl, rfl, ?_⟩
      intro i
      simp only [Option.some.injEq]
      by_cases hij : i = j
      · simp [hij]
      · rw [if_neg hij, if_neg (fun h => hij h.symm)]

theorem assigned_slot_congr (a b : dynsym_t) (hc : a.count = b.count)
    (hs : a.symcmp = b.symcmp) (entry : String × Nat) :
    assigned_slot a entry = assigned_slot b entry := by
  simp [assigned_slot, hc, hs]

theorem scanned_entries_congr (a b : dynsym_t) (hc : a.count = b.count)
    (hs : a.symcmp = b.symcmp) : ∀ (entries : List (String × Nat)) (n : Nat),
    scanned_entries a entries n = scanned_entries b entries n
  | [], _ => rfl
  | entry :: rest, n => by
    simp only [scanned_entries, assigned_slot_congr a b hc hs, hc,
      scanned_entries_congr a b hc hs rest]

theorem last_assigned_congr (a b : dynsym_t) (hc : a.count = b.count)
    (hs : a.symcmp = b.symcmp) (i : Nat) : ∀ (entries : List (String × Nat)) (old : Nat),
    last_assigned a i entries old = last_assigned b i entries old
  | [], _ => rfl
  | entry :: rest, old => by
    simp only [last_assigned, assigned_slot_congr a b hc hs,
      last_assigned_congr a b hc hs i rest]

/-- Counterexample to C26: a later symbol does change a slot.  With two slots, for
`_PyRuntime` and `Py_Version`, and a table in which `_PyRuntime` appears
twice, at the addresses `0x1000` and `0x2000`, the slot of `_PyRuntime` holds
`0x2000` after the scan, not the address `0x1000` of the first symbol that
matches it; the scan has stopped at the second `_PyRuntime`, with which the
number of classified symbols reached the number of slots, and the slot of
`Py_Version` is empty. -/
theorem dynsym_slot_overwritten :
    (analyze_dynsym [("_PyRuntime", 0x1000), ("main", 0x1234), ("_PyRuntime", 0x2000),
        ("Py_Version", 0x3000)] 0 example_dynsym).2.symbols 0 = 0x2000 ∧
      first_assigned example_dynsym 0 [("_PyRuntime", 0x1000), ("main", 0x1234),
        ("_PyRuntime", 0x2000), ("Py_Version", 0x3000)] = some 0x1000 ∧
      (analyze_dynsym [("_PyRuntime", 0x1000), ("main", 0x1234), ("_PyRuntime", 0x2000),
        ("Py_Version", 0x3000)] 0 example_dynsym).2.symbols 1 = 0 := by
  decide

/-- C26, amended: after the ELF analyser has scanned a dynamic symbol table,
every symbol slot holds the address computed for the last symbol, among the
entries scanned, that is assigned to the slot (its address is not null and
the slot is the first one that its name matches); a slot to which no scanned
entry is assigned keeps its value.  The scan stops with the entry with which
the number of assigned entries reaches the number of slots. -/
theorem dynsym_slot_last_match : ∀ (entries : List (String × Nat)) (symbols : Nat)
    (self : dynsym_t) (i : Nat),
    (analyze_dynsym entries symbols self).2.symbols i =
      last_assigned self i (scanned_entries self entries symbols) (self.symbols i)
  | [], _, _, _ => rfl
  | entry :: rest, symbols, self, i => by
    obtain ⟨h1, hc, hs, hsym⟩ := _py_proc__check_sym_spec self entry
    simp only [analyze_dynsym, scanned_entries, h1, hc]
    by_cases hge : symbols + (if (assigned_slot self entry).isSome then 1 else 0) ≥ self.count
    · rw [if_pos hge, if_pos hge]
      simp only [last_assigned, hsym]
    · rw [if_neg hge, if_neg hge]
      rw [dynsym_slot_last_match rest _ _ i, hsym]
      simp only [last_assigned]
      rw [scanned_entries_congr _ self hc hs, last_assigned_congr _ self hc hs]

theorem dynsym_slot_last_match_witness :
    (analyze_dynsym [("_PyRuntime", 0x1000), ("main", 0x1234), ("_PyRuntime", 0x2000),
        ("Py_Version", 0x3000)] 0 example_dynsym).2.symbols 0 =
      last_assigned example_dynsym 0
        (scanned_entries example_dynsym [("_PyRuntime", 0x1000), ("main", 0x1234),
          ("_PyRuntime", 0x2000), ("Py_Version", 0x3000)] 0) (example_dynsym.symbols 0) :=
  dynsym_slot_last_match _ 0 example_dynsym 0

theorem py_proc__sample_loop_repeats (a : Nat) (ha : a ≠ 0) (snap : interp_snapshot)
    (hp : snap.prefetch a = true) (ht : ∃ t, snap.tstate_head a = some t ∧ t ≠ 0)
    (hs : snap.sample_interpreter a = false) : ∀ (fuel : Nat) (visited : List Nat),
    py_proc__sample_loop snap fuel a visited = (.out_of_fuel, visited ++ List.replicate fuel a)
  | 0, visited => by simp [py_proc__sample_loop]
  | fuel + 1, visited => by
    obtain ⟨t, ht1, ht0⟩ := ht
    simp only [py_proc__sample_loop, hp, ht1, hs]
    simp only [Bool.not_true, Bool.false_eq_true, if_false, if_neg ht0, Bool.not_false, if_true,
      ne_eq, ha, not_false_eq_true]
    rw [py_proc__sample_loop_repeats a ha snap hp ⟨t, ht1, ht0⟩ hs fuel]
    simp [List.replicate_succ]

/-- C27: on the snapshot with the single interpreter at `0x7f0012400000`, whose
sampling fails, `py_proc__sample` does not end: whatever the bound on the
number of passes, the loop is cut short by the bound, and it has called
`_py_proc__sample_interpreter` for the same interpreter in every pass.  (On
the same snapshot with a sampling that succeeds it ends after one pass.) -/
theorem py_proc__sample_repeats_failed_interpreter (fuel : Nat) :
    py_proc__sample (example_interp_snapshot false) fuel 0x7f0012400000 =
        (.out_of_fuel, List.replicate fuel 0x7f0012400000) ∧
      py_proc__sample (example_interp_snapshot true) (fuel + 1) 0x7f0012400000 =
        (.success, [0x7f0012400000]) := by
  constructor
  · have := py_proc__sample_loop_repeats 0x7f0012400000 (by decide)
      (example_interp_snapshot false) (by decide) ⟨0x7f0012410000, by decide, by decide⟩
      (by decide) fuel []
    simpa [py_proc__sample] using this
  · simp [py_proc__sample, py_proc__sample_loop, example_interp_snapshot]

set_option maxRecDepth 100000 in
/-- C30: with no runtime symbol and the runtime section at `0x7f0012500000`,
where the first address of the scan yields the candidate `0x7f0012400000`,
which passes the check: if the next address yields a candidate that fails
the check, `_py_proc__deref_interp_head` fails; if it yields another
candidate that passes, that one is recorded; the first candidate is recorded
only if no later address of the scan can be read. -/
theorem deref_interp_head_keeps_last :
    _py_proc__deref_interp_head (example_runtime_snapshot 0x7f0012600000 false) 0
        0x7f0012500000 4096 = none ∧
      _py_proc__deref_interp_head (example_runtime_snapshot 0x7f0012600000 true) 0
        0x7f0012500000 4096 = some 0x7f0012600000 ∧
      _py_proc__deref_interp_head
        { example_runtime_snapshot 0 false with
          copy_runtime := fun a => if a = 0x7f0012500000 then some 0x7f0012400000 else none }
        0 0x7f0012500000 4096 = some 0x7f0012400000 := by
  decide

theorem copy_bytes_split (mem : Nat → Option Nat) : ∀ (k n addr : Nat) (d : List Nat),
    copy_bytes mem addr (k + n) = some d →
    copy_bytes mem addr k = some (d.take k) ∧ copy_bytes mem (addr + k) n = some (d.drop k)
  | 0, n, addr, d, h => by
    simp only [Nat.zero_add] at h
    simp [copy_bytes, h]
  | k + 1, n, addr, d, h => by
    have e : k + 1 + n = (k + n) + 1 := by omega
    rw [e] at h
    simp only [copy_bytes] at h ⊢
    cases hb : mem addr with
    | none => simp [hb] at h
    | some b =>
      rw [hb] at h
      simp only at h ⊢
      cases hr : copy_bytes mem (addr + 1) (k + n) with
      | none => simp [hr] at h
      | some rest =>
        rw [hr] at h
        simp only [Option.map_some', Option.some.injEq] at h
        subst h
        obtain ⟨h1, h2⟩ := copy_bytes_split mem k n (addr + 1) rest hr
        rw [h1]
        refine ⟨by simp, ?_⟩
        have : addr + (k + 1) = addr + 1 + k := by omega
        rw [this, h2]
        simp

/-- A field that lies wholly inside the window is served from a buffer that
was prefetched for the interpreter as it is in the target. -/
theorem prefetched_field (mem : Nat → Option Nat) (com : com_t) (interp o len : Nat)
    (hpre : copy_bytes mem (interp + com.base_offset) com.size = some com.data)
    (hlo : com.base_offset ≤ o) (hhi : o + len ≤ com.base_offset + com.size) :
    copy_bytes mem (interp + o) len = some ((com.data.drop (o - com.base_offset)).take len) := by
  have e : com.size = (o - com.base_offset) + (len + (com.size - (o - com.base_offset) - len)) := by
    omega
  rw [e] at hpre
  have h1 := (copy_bytes_split mem _ _ _ _ hpre).2
  have h2 := (copy_bytes_split mem _ _ _ _ h1).1
  have ea : interp + com.base_offset + (o - com.base_offset) = interp + o := by omega
  rw [ea] at h2
  exact h2

theorem _py_proc__get_interpreter_state_field_fresh (com : com_t) (mem : Nat → Option Nat)
    (o len interp : Nat)
    (hcom : (o < com.base_offset ∨ com.base_offset + com.size ≤ o) ∨
      (copy_bytes mem (interp + com.base_offset) com.size = some com.data ∧
        com.base_offset ≤ o ∧ o + len ≤ com.base_offset + com.size ∧ 0 < len)) :
    _py_proc__get_interpreter_state_field com mem o len interp =
      match copy_bytes mem (interp + o) len with
      | some bytes => .value (le_value bytes)
      | none => .failed := by
  unfold _py_proc__get_interpreter_state_field
  rcases hcom with hout | ⟨hpre, hlo, hhi, hlen⟩
  · rw [if_neg (by omega)]
  · rw [if_pos (by omega), if_pos (by omega), prefetched_field mem com interp o len hpre hlo hhi]

/-- Counterexample to C23: the check does not accept exactly the candidates with
the round trip.  With a prefetch buffer that holds what an earlier prefetch
left in it (as on a re-initialisation that comes to the check through the
scan of the BSS section, which does not prefetch), the candidate
`0x7f0012400000` is accepted although the interpreter state at this address
has a null `tstate_head`; and with an empty window (as on a first
initialisation) the same candidate, whose `tstate_head` now is a thread
state that points back to it, is rejected when `py_thread__read_remote`
fails for that thread state, here for a thread identifier 0. -/
theorem check_interp_state_not_round_trip :
    (_py_proc__check_interp_state ⟨3, 12⟩ 8 example_stale_com (example_check_env 0 7)
        0x7f0012400000 = true ∧
      copy_bytes (example_check_env 0 7).mem (0x7f0012400000 + 8) 8 =
        some [0, 0, 0, 0, 0, 0, 0, 0]) ∧
    (_py_proc__check_interp_state ⟨3, 12⟩ 8 ⟨0, 0, []⟩ (example_check_env 0x7f0012410000 0)
        0x7f0012400000 = false ∧
      (copy_bytes (example_check_env 0x7f0012410000 0).mem (0x7f0012400000 + 8) 8).map le_value =
        some 0x7f0012410000 ∧
      (example_check_env 0x7f0012410000 0).copy_thread 0x7f0012410000 = some 0x7f0012400000) := by
  decide

/-- C23, amended: for every candidate address `C` and every content of
target memory, when the field `tstate_head` is not served from the prefetch
buffer (it lies outside the window, as on a first initialisation, where the
window is empty) or the buffer has been prefetched for `C` and holds the
field wholly, `_py_proc__check_interp_state` accepts `C` iff the
interpreter-state struct at `C` has a `tstate_head` that can be read, the
thread state copied from that address has its `interp` field equal to `C`
(so that the head is not null when nothing can be copied from the null
address), `py_thread__read_remote` succeeds for that thread state and, before
3.11 on Linux, the offset of the TID field can be inferred from it; in
particular an accepted head satisfies the round trip. -/
theorem check_interp_state_iff (py_v : python_v) (o_tstate_head : Nat) (com : com_t)
    (env : check_env) (C : Nat)
    (hcom : (o_tstate_head < com.base_offset ∨ com.base_offset + com.size ≤ o_tstate_head) ∨
      (copy_bytes env.mem (C + com.base_offset) com.size = some com.data ∧
        com.base_offset ≤ o_tstate_head ∧ o_tstate_head + 8 ≤ com.base_offset + com.size)) :
    _py_proc__check_interp_state py_v o_tstate_head com env C = true ↔
      ∃ bytes, copy_bytes env.mem (C + o_tstate_head) 8 = some bytes ∧
        env.copy_thread (le_value bytes) = some C ∧
        env.read_remote (le_value bytes) = true ∧
        (V_MIN py_v 3 11 = true ∨ env.infer_tid (le_value bytes) = true) := by
  unfold _py_proc__check_interp_state
  rw [_py_proc__get_interpreter_state_field_fresh com env.mem o_tstate_head 8 C
    (hcom.imp id (fun h => ⟨h.1, h.2.1, h.2.2, by decide⟩))]
  cases hb : copy_bytes env.mem (C + o_tstate_head) 8 with
  | none => simp
  | some bytes =>
    simp only [Option.some.injEq, exists_eq_left']
    cases ht : env.copy_thread (le_value bytes) with
    | none => simp
    | some thread_interp =>
      simp only
      by_cases hi : thread_interp = C
      · subst hi
        simp only [ne_eq, not_true_eq_false, if_false, true_and]
        cases hr : env.read_remote (le_value bytes) with
        | false => simp
        | true =>
          simp only [Bool.not_true, Bool.false_eq_true, if_false, true_and]
          cases hv : V_MIN py_v 3 11 with
          | true => simp
          | false => simp
      · simp [hi]

theorem check_interp_state_iff_witness :
    _py_proc__check_interp_state ⟨3, 12⟩ 8 example_stale_com
        (example_check_env 0x7f0012410000 7) 0x7f0012400000 = true ↔
      ∃ bytes, copy_bytes (example_check_env 0x7f0012410000 7).mem (0x7f0012400000 + 8) 8 =
          some bytes ∧
        (example_check_env 0x7f0012410000 7).copy_thread (le_value bytes) =
          some 0x7f0012400000 ∧
        (example_check_env 0x7f0012410000 7).read_remote (le_value bytes) = true ∧
        (V_MIN ⟨3, 12⟩ 3 11 = true ∨
          (example_check_env 0x7f0012410000 7).infer_tid (le_value bytes) = true) :=
  check_interp_state_iff ⟨3, 12⟩ 8 example_stale_com (example_check_env 0x7f0012410000 7)
    0x7f0012400000 (Or.inr ⟨by decide, by decide, by decide⟩)

/-- C29: with the cap `AUSTIN_PAGE_SIZE_CAP=4`, which `parse_env` accepts, a
page size of 4096 and a descriptor of an interpreter state of 64 bytes with
fields at the offsets 8, 16 and 24, `py_proc__init` computes the window from
offset 16 of 4 bytes, which lies inside the struct, and allocates 4 bytes;
the read of the field of 8 bytes at offset 16 is served from the buffer,
since the offset is inside the window, and copies 8 bytes from the buffer of
4: `16 - 16 + 8 > 4`.  Only the start of a field is compared with the
window. -/
theorem prefetch_field_read_overruns :
    parse_env_page_size_cap (some 4) = 4 ∧
      interpreter_state_com 4096 (parse_env_page_size_cap (some 4)) ⟨64, [8, 16, 24]⟩ =
        ⟨16, 4, [0, 0, 0, 0]⟩ ∧
      _py_proc__get_interpreter_state_field
        (interpreter_state_com 4096 (parse_env_page_size_cap (some 4)) ⟨64, [8, 16, 24]⟩)
        (fun _ => some 0) 16 8 0x7f0012400000 = .overrun ∧
      16 - 16 + 8 > 4 := by
  decide

/-! ### The list of targets -/

theorem is_item_list_cons {items : Nat → py_proc_item_t} {p c a : Nat} {rest : List Nat} :
    is_item_list items p c (a :: rest) = true ↔
      c = a ∧ a ≠ 0 ∧ (items a).prev = p ∧ is_item_list items a (items a).next rest = true := by
  simp only [is_item_list, Bool.and_eq_true, decide_eq_true_eq]
  tauto

theorem is_item_list_congr (items items' : Nat → py_proc_item_t) :
    ∀ (l : List Nat) (p c : Nat), (∀ a ∈ l, items' a = items a) →
    is_item_list items' p c l = is_item_list items p c l
  | [], _, _, _ => rfl
  | a :: rest, p, c, h => by
    have ha : items' a = items a := h a (List.mem_cons_self _ _)
    simp only [is_item_list, ha]
    rw [is_item_list_congr items items' rest a (items a).next
      (fun b hb => h b (List.mem_cons_of_mem _ hb))]

theorem is_item_list_ne_zero (items : Nat → py_proc_item_t) :
    ∀ (l : List Nat) (p c : Nat), is_item_list items p c l = true → ∀ a ∈ l, a ≠ 0
  | [], _, _, _, a, ha => by simp at ha
  | b :: rest, p, c, h, a, ha => by
    obtain ⟨_, hb, _, ht⟩ := is_item_list_cons.mp h
    rcases List.mem_cons.mp ha with rfl | hr
    · exact hb
    · exact is_item_list_ne_zero items rest _ _ ht a hr

theorem is_item_list_head (items : Nat → py_proc_item_t) (l : List Nat) (p c : Nat)
    (h : is_item_list items p c l = true) : c = l.headD 0 := by
  cases l with
  | nil => simpa [is_item_list] using h
  | cons a rest => exact (is_item_list_cons.mp h).1

theorem is_item_list_next (items : Nat → py_proc_item_t) :
    ∀ (pre : List Nat) (p c x : Nat) (post : List Nat),
    is_item_list items p c (pre ++ x :: post) = true → (items x).next = post.headD 0
  | [], p, c, x, post, h => by
    obtain ⟨_, _, _, ht⟩ := is_item_list_cons.mp h
    exact is_item_list_head items post _ _ ht
  | a :: pre, p, c, x, post, h => by
    obtain ⟨_, _, _, ht⟩ := is_item_list_cons.mp h
    exact is_item_list_next items pre _ _ x post ht

theorem is_item_list_prev (items : Nat → py_proc_item_t) :
    ∀ (pre : List Nat) (p c x : Nat) (post : List Nat),
    is_item_list items p c (pre ++ x :: post) = true → (items x).prev = pre.getLastD p
  | [], p, c, x, post, h => by
    obtain ⟨_, _, hp, _⟩ := is_item_list_cons.mp h
    simpa using hp
  | a :: pre, p, c, x, post, h => by
    obtain ⟨_, _, _, ht⟩ := is_item_list_cons.mp h
    have := is_item_list_prev items pre a _ x post ht
    rw [this]
    cases pre with
    | nil => rfl
    | cons b pre' => simp [List.getLastD]

theorem getLastD_mem_cons : ∀ (l : List Nat) (b : Nat), l.getLastD b ∈ b :: l
  | [], b => by simp
  | c :: l, b => by
    rw [List.getLastD_cons]
    exact List.mem_cons_of_mem _ (getLastD_mem_cons l c)

theorem remove_items_other (self : py_proc_list_t) (x a : Nat) (hx : a ≠ x)
    (hn : a ≠ (self.items x).next) (hp : a ≠ (self.items x).prev) :
    (_py_proc_list__remove self x).items a = self.items a := by
  simp only [_py_proc_list__remove]
  rw [if_neg hx, if_neg (fun h => hp h.2), if_neg (fun h => hn h.2)]

theorem remove_items_py_proc (self : py_proc_list_t) (x a : Nat) (hx : a ≠ x) :
    ((_py_proc_list__remove self x).items a).py_proc = (self.items a).py_proc := by
  simp only [_py_proc_list__remove]
  rw [if_neg hx]
  split <;> split <;> rfl

theorem remove_items_next (self : py_proc_list_t) (x y : Nat) (hy : y = (self.items x).next)
    (h0 : y ≠ 0) (hx : y ≠ x) (hp : y ≠ (self.items x).prev) :
    (_py_proc_list__remove self x).items y = { self.items y with prev := (self.items x).prev } := by
  simp only [_py_proc_list__remove]
  have hn0 : (self.items x).next ≠ 0 := by rw [← hy]; exact h0
  rw [if_neg hx, if_neg (fun h => hp h.2), if_pos ⟨hn0, hy⟩]

theorem remove_items_prev (self : py_proc_list_t) (x a : Nat) (ha : a = (self.items x).prev)
    (h0 : a ≠ 0) (hx : a ≠ x) (hn : a ≠ (self.items x).next) :
    (_py_proc_list__remove self x).items a = { self.items a with next := (self.items x).next } := by
  simp only [_py_proc_list__remove]
  have hp0 : (self.items x).prev ≠ 0 := by rw [← ha]; exact h0
  rw [if_neg hx, if_pos ⟨hp0, ha⟩, if_neg (fun h => hn h.2)]

/-- The items after the removed one, as the list after the removal has them. -/
theorem remove_post (self : py_proc_list_t) (x : Nat) (post : List Nat)
    (h : is_item_list self.items x (self.items x).next post = true)
    (hx : x ∉ post) (hnd : post.Nodup) (hpv : (self.items x).prev ∉ post) :
    is_item_list (_py_proc_list__remove self x).items (self.items x).prev (self.items x).next
      post = true := by
  cases post with
  | nil => simpa [is_item_list] using h
  | cons y post' =>
    obtain ⟨hy, hy0, hyp, ht⟩ := is_item_list_cons.mp h
    have hyx : y ≠ x := fun e => hx (by rw [e]; exact List.mem_cons_self _ _)
    have hypv : y ≠ (self.items x).prev := fun e => hpv (by rw [← e]; exact List.mem_cons_self _ _)
    have hitem := remove_items_next self x y hy.symm hy0 hyx hypv
    rw [is_item_list_cons]
    refine ⟨hy, hy0, by rw [hitem], ?_⟩
    rw [hitem]
    simp only
    rw [is_item_list_congr self.items _ post' y (self.items y).next]
    · exact ht
    · intro a ha
      apply remove_items_other
      · exact fun e => hx (by rw [← e]; exact List.mem_cons_of_mem _ ha)
      · rw [hy]
        exact fun e => (List.nodup_cons.mp hnd).1 (by rw [← e]; exact ha)
      · exact fun e => hpv (by rw [← e]; exact List.mem_cons_of_mem _ ha)

/-- The list after the removal of one of its items. -/
theorem remove_list (self : py_proc_list_t) (x : Nat) :
    ∀ (pre : List Nat) (p c : Nat) (post : List Nat),
    is_item_list self.items p c (pre ++ x :: post) = true → (pre ++ x :: post).Nodup →
    p ∉ pre ++ x :: post →
    is_item_list (_py_proc_list__remove self x).items p
      (if pre = [] then (self.items x).next else c) (pre ++ post) = true
  | [], p, c, post, h, hnd, hp => by
    obtain ⟨_, _, hxp, ht⟩ := is_item_list_cons.mp h
    simp only [List.nil_append] at hnd hp ⊢
    have := remove_post self x post ht (List.nodup_cons.mp hnd).1 (List.nodup_cons.mp hnd).2
      (by rw [hxp]; exact fun hm => hp (List.mem_cons_of_mem _ hm))
    rw [hxp] at this
    simpa using this
  | a :: pre, p, c, post, h, hnd, hp => by
    obtain ⟨hc, ha0, hap, ht⟩ := is_item_list_cons.mp h
    simp only [List.cons_append] at hnd hp ⊢
    have hnd' := (List.nodup_cons.mp hnd).2
    have hanot := (List.nodup_cons.mp hnd).1
    have hax : a ≠ x := fun e => hanot (by rw [e]; simp)
    have hnx := is_item_list_next self.items pre a _ x post ht
    have hpv := is_item_list_prev self.items pre a _ x post ht
    have han : a ≠ (self.items x).next := by
      rw [hnx]
      cases post with
      | nil => simpa using ha0
      | cons y post' =>
        simp only [List.headD_cons]
        exact fun e => hanot (by rw [e]; simp)
    rw [if_neg (by simp), is_item_list_cons]
    cases pre with
    | nil =>
      -- the removed item follows `a`
      obtain ⟨hx1, _, hxp, hpost⟩ := is_item_list_cons.mp ht
      have hitem := remove_items_prev self x a hxp.symm ha0 hax han
      refine ⟨hc, ha0, by rw [hitem]; exact hap, ?_⟩
      rw [hitem]
      simp only [List.nil_append]
      have := remove_post self x post hpost
        (List.nodup_cons.mp hnd').1 (List.nodup_cons.mp hnd').2
        (by rw [hxp]; exact fun hm => hanot (by simp [hm]))
      rw [hxp] at this
      exact this
    | cons b pre' =>
      have hapv : a ≠ (self.items x).prev := by
        rw [hpv]
        intro e
        apply hanot
        rw [e]
        have : (b :: pre').getLastD a ∈ b :: pre' := by
          rw [List.getLastD_cons]
          exact getLastD_mem_cons pre' b
        exact List.mem_append_left _ this
      have hitem := remove_items_other self x a hax han hapv
      refine ⟨hc, ha0, by rw [hitem]; exact hap, ?_⟩
      rw [hitem]
      have ih := remove_list self x (b :: pre') a (self.items a).next post ht hnd' hanot
      rw [if_neg (by simp)] at ih
      exact ih

theorem py_proc_list__sample_item_spec (o : target_outcomes) (self0 self : py_proc_list_t)
    (x : Nat) (hp : (self.items x).py_proc = (self0.items x).py_proc) :
    py_proc_list__sample_item o self x =
      (if target_removed o self0 x then _py_proc_list__remove self x else self,
        target_calls o self0 x) := by
  simp only [py_proc_list__sample_item, target_removed, target_calls, hp]
  by_cases h1 : o.is_python (self0.items x).py_proc = true <;>
    by_cases h2 : o.sample_fails (self0.items x).py_proc = true <;>
    by_cases h3 : o.init_fails (self0.items x).py_proc = true <;> simp [h1, h2, h3]

/-- The loop of `py_proc_list__sample` from the item `remaining.head`, with the
items `pre` before it kept: it ends, has made the calls for the remaining
targets in order, and leaves the list of the items kept. -/
theorem py_proc_list__sample_loop_spec (o : target_outcomes) (self0 : py_proc_list_t) :
    ∀ (remaining pre : List Nat) (fuel : Nat) (self : py_proc_list_t)
      (calls : List target_call),
    is_item_list self.items 0 self.first (pre ++ remaining) = true →
    (pre ++ remaining).Nodup →
    (∀ a ∈ pre ++ remaining, (self.items a).py_proc = (self0.items a).py_proc) →
    remaining.length < fuel →
    ∃ self', py_proc_list__sample_loop o fuel (remaining.headD 0) (remaining.tail.headD 0)
          self calls = some (self', calls ++ remaining.flatMap (target_calls o self0)) ∧
      is_item_list self'.items 0 self'.first
        (pre ++ remaining.filter (fun a => !target_removed o self0 a)) = true ∧
      self'.count = self.count - (remaining.filter (target_removed o self0)).length ∧
      ∀ a ∈ pre ++ remaining.filter (fun a => !target_removed o self0 a),
        (self'.items a).py_proc = (self0.items a).py_proc
  | [], pre, fuel, self, calls, hl, _, hpp, hf => by
    obtain ⟨fuel, rfl⟩ : ∃ n, fuel = n + 1 := ⟨fuel - 1, by simp at hf; omega⟩
    refine ⟨self, by simp [py_proc_list__sample_loop], by simpa using hl, by simp, ?_⟩
    simpa using hpp
  | x :: rest, pre, fuel, self, calls, hl, hnd, hpp, hf => by
    obtain ⟨fuel, rfl⟩ : ∃ n, fuel = n + 1 := ⟨fuel - 1, by simp at hf; omega⟩
    simp only [List.length_cons] at hf
    have hx0 : x ≠ 0 := is_item_list_ne_zero _ _ _ _ hl x (by simp)
    have hxp : (self.items x).py_proc = (self0.items x).py_proc := hpp x (by simp)
    have hitem := py_proc_list__sample_item_spec o self0 self x hxp
    simp only [List.headD_cons, List.tail_cons, py_proc_list__sample_loop]
    rw [if_neg hx0, hitem]
    simp only
    by_cases hrem : target_removed o self0 x = true
    · -- the target is removed
      rw [if_pos hrem]
      have h0 : (0 : Nat) ∉ pre ++ x :: rest := fun hm =>
        is_item_list_ne_zero _ _ _ _ hl 0 hm rfl
      have hlist := remove_list self x pre 0 self.first rest hl hnd h0
      have hfirst : (_py_proc_list__remove self x).first =
          if pre = [] then (self.items x).next else self.first := by
        simp only [_py_proc_list__remove]
        cases pre with
        | nil =>
          have := is_item_list_head _ _ _ _ hl
          simp only [List.nil_append, List.headD_cons] at this
          simp [this]
        | cons a pre' =>
          have := is_item_list_head _ _ _ _ hl
          simp only [List.cons_append, List.headD_cons] at this
          have hne : x ≠ a := by
            intro e
            have hnd2 : (a :: (pre' ++ x :: rest)).Nodup := by simpa using hnd
            exact (List.nodup_cons.mp hnd2).1 (by rw [← e]; simp)
          rw [this]
          simp [hne]
      rw [← hfirst] at hlist
      have hnext : (if rest.headD 0 ≠ 0 then
          ((_py_proc_list__remove self x).items (rest.headD 0)).next else 0) =
          rest.tail.headD 0 := by
        cases rest with
        | nil => simp
        | cons y rest' =>
          have hy0 : y ≠ 0 := is_item_list_ne_zero _ _ _ _ hl y (by simp)
          simp only [List.headD_cons, List.tail_cons, ne_eq, hy0, not_false_eq_true, if_true]
          exact is_item_list_next _ pre _ _ y rest' hlist
      rw [hnext]
      have hnd' : (pre ++ rest).Nodup := by
        have := List.nodup_append.mp hnd
        exact List.nodup_append.mpr ⟨this.1, (List.nodup_cons.mp this.2.1).2,
          fun a ha hb => this.2.2 ha (List.mem_cons_of_mem _ hb)⟩
      have hxnot : ∀ a ∈ pre ++ rest, a ≠ x := by
        intro a ha e
        subst e
        have := List.nodup_append.mp hnd
        rcases List.mem_append.mp ha with h1 | h2
        · exact this.2.2 h1 (List.mem_cons_self _ _)
        · exact (List.nodup_cons.mp this.2.1).1 h2
      obtain ⟨self', hloop, hres, hcount, hprocs⟩ :=
        py_proc_list__sample_loop_spec o self0 rest pre fuel (_py_proc_list__remove self x)
          (calls ++ target_calls o self0 x) hlist hnd'
          (fun a ha => by
            rw [remove_items_py_proc self x a (hxnot a ha)]
            exact hpp a (by
              rcases List.mem_append.mp ha with h1 | h2
              · exact List.mem_append_left _ h1
              · exact List.mem_append_right _ (List.mem_cons_of_mem _ h2)))
          (by omega)
      refine ⟨self', ?_, ?_, ?_, ?_⟩
      · rw [hloop]
        simp [List.flatMap_cons, List.append_assoc]
      · simpa [List.filter_cons, hrem] using hres
      · rw [hcount]
        simp only [_py_proc_list__remove, List.filter_cons, hrem, if_true, List.length_cons]
        push_cast
        omega
      · simpa [List.filter_cons, hrem] using hprocs
    · -- the target is kept
      have hrem' : target_removed o self0 x = false := by simpa using hrem
      rw [if_neg hrem]
      have hl' : is_item_list self.items 0 self.first ((pre ++ [x]) ++ rest) = true := by
        simpa using hl
      have hnext : (if rest.headD 0 ≠ 0 then (self.items (rest.headD 0)).next else 0) =
          rest.tail.headD 0 := by
        cases rest with
        | nil => simp
        | cons y rest' =>
          have hy0 : y ≠ 0 := is_item_list_ne_zero _ _ _ _ hl y (by simp)
          simp only [List.headD_cons, List.tail_cons, ne_eq, hy0, not_false_eq_true, if_true]
          exact is_item_list_next _ (pre ++ [x]) _ _ y rest' hl'
      rw [hnext]
      obtain ⟨self', hloop, hres, hcount, hprocs⟩ :=
        py_proc_list__sample_loop_spec o self0 rest (pre ++ [x]) fuel self
          (calls ++ target_calls o self0 x) hl' (by simpa using hnd)
          (fun a ha => hpp a (by simpa using ha)) (by omega)
      refine ⟨self', ?_, ?_, ?_, ?_⟩
      · rw [hloop]
        simp [List.flatMap_cons, List.append_assoc]
      · simpa [List.filter_cons, hrem'] using hres
      · rw [hcount]
        simp [List.filter_cons, hrem']
      · simpa [List.filter_cons, hrem'] using hprocs

/-- C25: `py_proc_list__sample` visits every tracked target once for each
call.  For a list whose items are at the pairwise different addresses
`addrs`, in the order of the list, the function ends (the loop makes one
pass for each item) and the calls it has made are, target by target in the
order of the list: none for a target that is not a Python process; one
sample for a Python target; one init after the sample when, and only when,
the sample fails; and the removal when, and only when, the init fails as
well.  Afterwards the list is made of the items of the targets that were
not removed, in their order and with their links consistent, every such item
still refers to its target, and `count` has decreased by the number of the
targets removed. -/
theorem py_proc_list__sample_visits_once (o : target_outcomes) (self : py_proc_list_t)
    (addrs : List Nat) (hlist : is_item_list self.items 0 self.first addrs = true)
    (hdistinct : addrs.Nodup) :
    ∃ self', py_proc_list__sample o (addrs.length + 1) self =
          some (self', addrs.flatMap (target_calls o self)) ∧
      is_item_list self'.items 0 self'.first
        (addrs.filter (fun a => !target_removed o self a)) = true ∧
      self'.count = self.count - (addrs.filter (target_removed o self)).length ∧
      ∀ a ∈ addrs.filter (fun a => !target_removed o self a),
        (self'.items a).py_proc = (self.items a).py_proc := by
  have hhead := is_item_list_head _ _ _ _ hlist
  unfold py_proc_list__sample
  by_cases hfirst : self.first = 0
  · rw [if_pos hfirst]
    have hnil : addrs = [] := by
      cases addrs with
      | nil => rfl
      | cons a rest =>
        have := is_item_list_ne_zero _ _ _ _ hlist a (by simp)
        simp only [List.headD_cons] at hhead
        omega
    subst hnil
    exact ⟨self, by simp, by simpa using hlist, by simp, by simp⟩
  · rw [if_neg hfirst]
    have hnext : (self.items self.first).next = addrs.tail.headD 0 := by
      cases addrs with
      | nil => exact absurd hhead hfirst
      | cons a rest =>
        simp only [List.headD_cons] at hhead
        rw [hhead]
        exact is_item_list_next _ [] _ _ a rest hlist
    rw [hnext, hhead]
    have := py_proc_list__sample_loop_spec o self addrs [] (addrs.length + 1) self []
      (by simpa using hlist) (by simpa using hdistinct) (fun _ _ => rfl) (by omega)
    simpa using this

theorem py_proc_list__sample_visits_once_witness :
    ∃ self', py_proc_list__sample example_outcomes
          ([0x1000, 0x2000, 0x3000, 0x4000].length + 1) example_proc_list =
          some (self', [0x1000, 0x2000, 0x3000, 0x4000].flatMap
            (target_calls example_outcomes example_proc_list)) ∧
      is_item_list self'.items 0 self'.first
        ([0x1000, 0x2000, 0x3000, 0x4000].filter
          (fun a => !target_removed example_outcomes example_proc_list a)) = true ∧
      self'.count = example_proc_list.count -
        ([0x1000, 0x2000, 0x3000, 0x4000].filter
          (target_removed example_outcomes example_proc_list)).length ∧
      ∀ a ∈ [0x1000, 0x2000, 0x3000, 0x4000].filter
          (fun a => !target_removed example_outcomes example_proc_list a),
        (self'.items a).py_proc = (example_proc_list.items a).py_proc :=
  py_proc_list__sample_visits_once example_outcomes example_proc_list
    [0x1000, 0x2000, 0x3000, 0x4000] (by decide) (by decide)

end Austin
